import Mathlib

/-!
CHIP-8 emulator: the fetch-decode-execute core.

A shallow embedding of `Opcode.h`, `Memory.h`, `Registers.h`, `Display.h`,
`Input.h`, `InstructionSet.cpp` and `CPU.h`, followed by theorems about it.

Conventions of the embedding:

* `uint8_t` and `uint16_t` values are stored as `Fin 256` and `Fin 65536`;
  all arithmetic is done on `Nat` (or `Int` where the C++ `int` result may be
  negative) and truncated explicitly with `% 256` / `% 65536` at the point
  where C++ converts the `int` result back to the narrow type.
* C arrays are functions from the index to the stored value; member
  functions take the object first and return the updated object.
* The random engine of `InstructionSet` is the stream of bytes it is going
  to produce; drawing a byte consumes the head of the stream.
-/

namespace Chip8Emu

/-- The type `uint8_t`. -/
abbrev U8 := Fin 256

/-- The type `uint16_t`. -/
abbrev U16 := Fin 65536

/-- Conversion of a non-negative `int` to `uint8_t`: reduction modulo 2^8. -/
def toU8 (n : Nat) : U8 := ⟨n % 256, Nat.mod_lt n (by decide)⟩

/-- Conversion of a non-negative `int` to `uint16_t`: reduction modulo 2^16. -/
def toU16 (n : Nat) : U16 := ⟨n % 65536, Nat.mod_lt n (by decide)⟩

/-- Conversion of a possibly negative `int` to `uint8_t`: reduction modulo 2^8. -/
def intToU8 (z : Int) : U8 :=
  ⟨(z % 256).toNat, by
    have h1 : 0 ≤ z % 256 := Int.emod_nonneg z (by decide)
    have h2 : z % 256 < 256 := Int.emod_lt_of_pos z (by decide)
    omega⟩

/-! ## Opcode.h -/

/-- The struct `Opcode`. -/
structure Opcode where
  full : U16
  category : U8
  x : U8
  y : U8
  n : U8
  nn : U8
  nnn : U16

/-- The constructor `Opcode::Opcode(uint16_t opcode)`. -/
def Opcode.decode (opcode : U16) : Opcode :=
  { full := opcode
    category := toU8 ((opcode.val &&& 0xF000) >>> 12)
    x := toU8 ((opcode.val &&& 0x0F00) >>> 8)
    y := toU8 ((opcode.val &&& 0x00F0) >>> 4)
    n := toU8 (opcode.val &&& 0x000F)
    nn := toU8 (opcode.val &&& 0x00FF)
    nnn := toU16 (opcode.val &&& 0x0FFF) }

/-! ## Memory.h -/

/-- The constant `Memory::MEMORY_SIZE`. -/
def MEMORY_SIZE : Nat := 4096

/-- The constant `Memory::FONT_START`. -/
def FONT_START : Nat := 0x000

/-- The constant `Memory::PROGRAM_START`. -/
def PROGRAM_START : Nat := 0x200

/-- The table `Memory::FONTSET`. -/
def FONTSET : List U8 :=
  [0xF0, 0x90, 0x90, 0x90, 0xF0,
   0x20, 0x60, 0x20, 0x20, 0x70,
   0xF0, 0x10, 0xF0, 0x80, 0xF0,
   0xF0, 0x10, 0xF0, 0x10, 0xF0,
   0x90, 0x90, 0xF0, 0x10, 0x10,
   0xF0, 0x80, 0xF0, 0x10, 0xF0,
   0xF0, 0x80, 0xF0, 0x90, 0xF0,
   0xF0, 0x10, 0x20, 0x40, 0x40,
   0xF0, 0x90, 0xF0, 0x90, 0xF0,
   0xF0, 0x90, 0xF0, 0x10, 0xF0,
   0xF0, 0x90, 0xF0, 0x90, 0x90,
   0xE0, 0x90, 0xE0, 0x90, 0xE0,
   0xF0, 0x80, 0x80, 0x80, 0xF0,
   0xE0, 0x90, 0x90, 0x90, 0xE0,
   0xF0, 0x80, 0xF0, 0x80, 0xF0,
   0xF0, 0x80, 0xF0, 0x80, 0x80]

/-- The class `Memory`: the array `data[MEMORY_SIZE]`, indexed 0..4095. -/
structure Memory where
  data : Nat → U8

namespace Memory

/-- Method `Memory::clear`: `memset(data, 0, MEMORY_SIZE)`. -/
def clear (m : Memory) : Memory :=
  { data := fun i => if i < MEMORY_SIZE then 0 else m.data i }

/-- Method `Memory::loadFontset`: `data[FONT_START + i] = FONTSET[i]` for `i` in 0..79. -/
def loadFontset (m : Memory) : Memory :=
  (List.range 80).foldl
    (fun acc i => { data := Function.update acc.data (FONT_START + i) (FONTSET.getD i 0) }) m

/-- Method `Memory::read`: `data[address & 0xFFF]`. -/
def read (m : Memory) (address : U16) : U8 :=
  m.data (address.val &&& 0xFFF)

/-- Method `Memory::write`: `data[address & 0xFFF] = value`. -/
def write (m : Memory) (address : U16) (value : U8) : Memory :=
  { data := Function.update m.data (address.val &&& 0xFFF) value }

/-- Method `Memory::loadProgram`: refuses a program longer than
`MEMORY_SIZE - PROGRAM_START`, else copies it to `data[PROGRAM_START ..]`. -/
def loadProgram (m : Memory) (program : List U8) : Memory × Bool :=
  if program.length > MEMORY_SIZE - PROGRAM_START then
    (m, false)
  else
    ({ data := fun i =>
        if PROGRAM_START ≤ i ∧ i < PROGRAM_START + program.length then
          program.getD (i - PROGRAM_START) 0
        else m.data i }, true)

/-- The constructor `Memory::Memory`: `clear(); loadFontset();` on fresh storage. -/
def new : Memory :=
  loadFontset (clear { data := fun _ => 0 })

end Memory

/-! ## Registers.h -/

/-- The class `Registers`. `V` is indexed 0..15 and `stack` is indexed 0..15;
`pushStack` and `popStack` index `stack` by `SP` without a bounds check, so
`stack` is a function of every index the 8-bit pointer can take. The slots
16..255 stand for the storage that follows the array: an access there is
outside `uint16_t stack[16]`, and the embedding agrees with the source for the
accesses at indices 0..15 only. -/
structure Registers where
  V : Nat → U8
  I : U16
  PC : U16
  SP : U8
  stack : Nat → U16
  delayTimer : U8
  soundTimer : U8

namespace Registers

/-- Method `Registers::reset`. -/
def reset (r : Registers) : Registers :=
  { V := fun i => if i < 16 then 0 else r.V i
    stack := fun i => if i < 16 then 0 else r.stack i
    I := 0
    PC := 0x200
    SP := 0
    delayTimer := 0
    soundTimer := 0 }

/-- Method `Registers::getV`: `V[index & 0xF]`. -/
def getV (r : Registers) (index : U8) : U8 :=
  r.V (index.val &&& 0xF)

/-- Method `Registers::setV`: `V[index & 0xF] = value`. -/
def setV (r : Registers) (index : U8) (value : U8) : Registers :=
  { r with V := Function.update r.V (index.val &&& 0xF) value }

/-- Method `Registers::getI`. -/
def getI (r : Registers) : U16 := r.I

/-- Method `Registers::setI`. -/
def setI (r : Registers) (value : U16) : Registers := { r with I := value }

/-- Method `Registers::addI`: `I += value` in 16-bit arithmetic. -/
def addI (r : Registers) (value : U16) : Registers :=
  { r with I := toU16 (r.I.val + value.val) }

/-- Method `Registers::getPC`. -/
def getPC (r : Registers) : U16 := r.PC

/-- Method `Registers::setPC`. -/
def setPC (r : Registers) (value : U16) : Registers := { r with PC := value }

/-- Method `Registers::incrementPC`: `PC += 2` in 16-bit arithmetic. -/
def incrementPC (r : Registers) : Registers :=
  { r with PC := toU16 (r.PC.val + 2) }

/-- Method `Registers::skipInstruction`: `PC += 4` in 16-bit arithmetic. -/
def skipInstruction (r : Registers) : Registers :=
  { r with PC := toU16 (r.PC.val + 4) }

/-- Method `Registers::pushStack`: `stack[SP++] = value`. With `SP >= 16` the
source writes outside `stack[16]`; here the value goes to slot `SP` of the
unbounded `stack`. -/
def pushStack (r : Registers) (value : U16) : Registers :=
  { r with stack := Function.update r.stack r.SP.val value
           SP := toU8 (r.SP.val + 1) }

/-- Method `Registers::popStack`: `return stack[--SP]`; the pointer is decremented in
8-bit arithmetic. Returns the updated registers and the value read. With
`SP = 0` or `SP > 16` the source reads outside `stack[16]`; here the value
comes from slot `SP - 1` (mod 256) of the unbounded `stack`. -/
def popStack (r : Registers) : Registers × U16 :=
  let sp := intToU8 ((r.SP.val : Int) - 1)
  ({ r with SP := sp }, r.stack sp.val)

/-- Method `Registers::getDelayTimer`. -/
def getDelayTimer (r : Registers) : U8 := r.delayTimer

/-- Method `Registers::setDelayTimer`. -/
def setDelayTimer (r : Registers) (value : U8) : Registers :=
  { r with delayTimer := value }

/-- Method `Registers::decrementDelayTimer`: `if(delayTimer > 0) --delayTimer`. -/
def decrementDelayTimer (r : Registers) : Registers :=
  if r.delayTimer.val > 0 then
    { r with delayTimer := intToU8 ((r.delayTimer.val : Int) - 1) }
  else r

/-- Method `Registers::getSoundTimer`. -/
def getSoundTimer (r : Registers) : U8 := r.soundTimer

/-- Method `Registers::setSoundTimer`. -/
def setSoundTimer (r : Registers) (value : U8) : Registers :=
  { r with soundTimer := value }

/-- Method `Registers::decrementSoundTimer`: `if(soundTimer > 0) --soundTimer`. -/
def decrementSoundTimer (r : Registers) : Registers :=
  if r.soundTimer.val > 0 then
    { r with soundTimer := intToU8 ((r.soundTimer.val : Int) - 1) }
  else r

end Registers

/-! ## Display.h -/

/-- The constant `Display::WIDTH`. -/
def WIDTH : Nat := 64

/-- The constant `Display::HEIGHT`. -/
def HEIGHT : Nat := 32

/-- The constant `Display::PIXEL_COUNT`. -/
def PIXEL_COUNT : Nat := WIDTH * HEIGHT

/-- The class `Display`: the array `pixels[PIXEL_COUNT]` and the dirty flag. -/
structure Display where
  pixels : Nat → U8
  needsRedraw : Bool

namespace Display

/-- Method `Display::clear`: `memset(pixels, 0, PIXEL_COUNT); needsRedraw = true`. -/
def clear (d : Display) : Display :=
  { pixels := fun i => if i < PIXEL_COUNT then 0 else d.pixels i
    needsRedraw := true }

/-- The body of the inner loop of `Display::drawSprite` for one column `col` of
row `row`, on the pair (pixel array, collision flag); `x` and `y` are the
already reduced origin. -/
def drawPixel (x y : U8) (spriteData : U8) (row col : Nat)
    (acc : (Nat → U8) × Bool) : (Nat → U8) × Bool :=
  if spriteData.val &&& (0x80 >>> col) ≠ 0 then
    let pixelX : U16 := toU16 ((x.val + col) % WIDTH)
    let pixelY : U16 := toU16 ((y.val + row) % HEIGHT)
    let index : U16 := toU16 (pixelY.val * WIDTH + pixelX.val)
    let collision := if acc.1 index.val = 1 then true else acc.2
    (Function.update acc.1 index.val (toU8 ((acc.1 index.val).val ^^^ 1)), collision)
  else acc

/-- The body of the outer loop of `Display::drawSprite` for one row: the inner
loop `for(col = 0; col < 8; ++col)`. -/
def drawRow (x y : U8) (sprite : Nat → U8) (acc : (Nat → U8) × Bool) (row : Nat) :
    (Nat → U8) × Bool :=
  (List.range 8).foldl (fun a col => drawPixel x y (sprite row) row col a) acc

/-- Method `Display::drawSprite`: returns the updated display and the collision flag.
The sprite pointer is the function giving the byte at each offset. -/
def drawSprite (d : Display) (x y : U8) (sprite : Nat → U8) (height : U8) :
    Display × Bool :=
  let x1 : U8 := toU8 (x.val % WIDTH)
  let y1 : U8 := toU8 (y.val % HEIGHT)
  let res := (List.range height.val).foldl (drawRow x1 y1 sprite) (d.pixels, false)
  ({ pixels := res.1, needsRedraw := true }, res.2)

/-- Method `Display::getPixels`. -/
def getPixels (d : Display) : Nat → U8 := d.pixels

/-- Method `Display::getNeedsRedraw`. -/
def getNeedsRedraw (d : Display) : Bool := d.needsRedraw

/-- Method `Display::resetRedrawFlag`. -/
def resetRedrawFlag (d : Display) : Display := { d with needsRedraw := false }

/-- The constructor `Display::Display`: `clear()` on fresh storage. -/
def new : Display :=
  clear { pixels := fun _ => 0, needsRedraw := false }

end Display

/-! ## Input.h -/

/-- The constant `Input::KEY_COUNT`. -/
def KEY_COUNT : Nat := 16

/-- The class `Input`: the array `keys[KEY_COUNT]`. -/
structure Input where
  keys : Nat → U8

namespace Input

/-- Method `Input::clear`: `memset(keys, 0, KEY_COUNT)`. -/
def clear (inp : Input) : Input :=
  { keys := fun i => if i < KEY_COUNT then 0 else inp.keys i }

/-- Method `Input::setKey`. -/
def setKey (inp : Input) (key : U8) (pressed : Bool) : Input :=
  if key.val < KEY_COUNT then
    { keys := Function.update inp.keys key.val (if pressed then 1 else 0) }
  else inp

/-- Method `Input::isKeyPressed`: `key < KEY_COUNT && keys[key] != 0`. -/
def isKeyPressed (inp : Input) (key : U8) : Bool :=
  decide (key.val < KEY_COUNT) && decide (inp.keys key.val ≠ 0)

/-- Method `Input::getAnyKeyPressed`: the first `i` in 0..15 with `keys[i]` non-zero,
or -1. -/
def getAnyKeyPressed (inp : Input) : Int :=
  match (List.range KEY_COUNT).find? (fun i => decide (inp.keys i ≠ 0)) with
  | some i => (i : Int)
  | none => -1

/-- The constructor `Input::Input`: `clear()` on fresh storage. -/
def new : Input :=
  clear { keys := fun _ => 0 }

end Input

/-! ## InstructionSet.cpp, CPU.h, Chip8.h -/

/-- The machine state shared by `InstructionSet`, `CPU` and `Chip8`: the four
components the class `Chip8` owns, and the random engine of the
`InstructionSet` as the stream of bytes `randByte(rng)` will return. -/
structure Chip8 where
  memory : Memory
  registers : Registers
  display : Display
  input : Input
  rng : Nat → U8

namespace InstructionSet

/-- Method `InstructionSet::execute0xxx`. -/
def execute0xxx (op : Opcode) (s : Chip8) : Chip8 :=
  if op.nn.val = 0xE0 then
    let s := { s with display := s.display.clear }
    { s with registers := s.registers.incrementPC }
  else if op.nn.val = 0xEE then
    let p := s.registers.popStack
    let s := { s with registers := p.1.setPC p.2 }
    { s with registers := s.registers.incrementPC }
  else
    { s with registers := s.registers.incrementPC }

/-- Method `InstructionSet::execute8xxx`. -/
def execute8xxx (op : Opcode) (s : Chip8) : Chip8 :=
  let vx := s.registers.getV op.x
  let vy := s.registers.getV op.y
  let r := s.registers
  let r :=
    if op.n.val = 0x0 then r.setV op.x vy
    else if op.n.val = 0x1 then r.setV op.x (toU8 (vx.val ||| vy.val))
    else if op.n.val = 0x2 then r.setV op.x (toU8 (vx.val &&& vy.val))
    else if op.n.val = 0x3 then r.setV op.x (toU8 (vx.val ^^^ vy.val))
    else if op.n.val = 0x4 then
      let sum : U16 := toU16 (vx.val + vy.val)
      let r := r.setV 0xF (if sum.val > 255 then 1 else 0)
      r.setV op.x (toU8 (sum.val &&& 0xFF))
    else if op.n.val = 0x5 then
      let r := r.setV 0xF (if vx.val > vy.val then 1 else 0)
      r.setV op.x (intToU8 ((vx.val : Int) - (vy.val : Int)))
    else if op.n.val = 0x6 then
      let r := r.setV 0xF (toU8 (vx.val &&& 0x1))
      r.setV op.x (toU8 (vx.val >>> 1))
    else if op.n.val = 0x7 then
      let r := r.setV 0xF (if vy.val > vx.val then 1 else 0)
      r.setV op.x (intToU8 ((vy.val : Int) - (vx.val : Int)))
    else if op.n.val = 0xE then
      let r := r.setV 0xF (toU8 ((vx.val &&& 0x80) >>> 7))
      r.setV op.x (toU8 (vx.val <<< 1))
    else r
  { s with registers := r.incrementPC }

/-- Method `InstructionSet::executeExxx`. -/
def executeExxx (op : Opcode) (s : Chip8) : Chip8 :=
  let key := s.registers.getV op.x
  if op.nn.val = 0x9E then
    if s.input.isKeyPressed key then
      { s with registers := s.registers.skipInstruction }
    else
      { s with registers := s.registers.incrementPC }
  else if op.nn.val = 0xA1 then
    if !s.input.isKeyPressed key then
      { s with registers := s.registers.skipInstruction }
    else
      { s with registers := s.registers.incrementPC }
  else
    { s with registers := s.registers.incrementPC }

/-- The body of the loop of the `0x55` case of `executeFxxx`:
`memory.write(registers.getI() + i, registers.getV(i))`. -/
def storeStep (s : Chip8) (i : Nat) : Chip8 :=
  { s with memory :=
      s.memory.write (toU16 (s.registers.getI.val + i)) (s.registers.getV (toU8 i)) }

/-- The body of the loop of the `0x65` case of `executeFxxx`:
`registers.setV(i, memory.read(registers.getI() + i))`. -/
def loadStep (s : Chip8) (i : Nat) : Chip8 :=
  { s with registers :=
      s.registers.setV (toU8 i) (s.memory.read (toU16 (s.registers.getI.val + i))) }

/-- Method `InstructionSet::executeFxxx`; the loops of the `0x55` and `0x65` cases run
`i` over 0..x. -/
def executeFxxx (op : Opcode) (s : Chip8) : Chip8 :=
  if op.nn.val = 0x07 then
    let s := { s with registers := s.registers.setV op.x s.registers.getDelayTimer }
    { s with registers := s.registers.incrementPC }
  else if op.nn.val = 0x0A then
    let key : Int := s.input.getAnyKeyPressed
    if key ≥ 0 then
      let s := { s with registers := s.registers.setV op.x (intToU8 key) }
      { s with registers := s.registers.incrementPC }
    else s
  else if op.nn.val = 0x15 then
    let s := { s with registers := s.registers.setDelayTimer (s.registers.getV op.x) }
    { s with registers := s.registers.incrementPC }
  else if op.nn.val = 0x18 then
    let s := { s with registers := s.registers.setSoundTimer (s.registers.getV op.x) }
    { s with registers := s.registers.incrementPC }
  else if op.nn.val = 0x1E then
    let s := { s with registers := s.registers.addI (toU16 (s.registers.getV op.x).val) }
    { s with registers := s.registers.incrementPC }
  else if op.nn.val = 0x29 then
    let s := { s with registers := s.registers.setI (toU16 ((s.registers.getV op.x).val * 5)) }
    { s with registers := s.registers.incrementPC }
  else if op.nn.val = 0x33 then
    let val := s.registers.getV op.x
    let addr := s.registers.getI
    let s := { s with memory := s.memory.write addr (toU8 (val.val / 100)) }
    let s := { s with memory := s.memory.write (toU16 (addr.val + 1)) (toU8 ((val.val / 10) % 10)) }
    let s := { s with memory := s.memory.write (toU16 (addr.val + 2)) (toU8 (val.val % 10)) }
    { s with registers := s.registers.incrementPC }
  else if op.nn.val = 0x55 then
    let s := (List.range (op.x.val + 1)).foldl storeStep s
    { s with registers := s.registers.incrementPC }
  else if op.nn.val = 0x65 then
    let s := (List.range (op.x.val + 1)).foldl loadStep s
    { s with registers := s.registers.incrementPC }
  else
    { s with registers := s.registers.incrementPC }

/-- The local buffer `sprite[15]` of the `DXYN` case after the loop
`for(i = 0; i < op.n; ++i) sprite[i] = memory.read(addr + i)`. The entries the
loop does not write are indeterminate in C++; they are 0 here. -/
def fillSprite (memory : Memory) (addr : U16) (n : U8) : Nat → U8 :=
  (List.range n.val).foldl
    (fun sprite i => Function.update sprite i (memory.read (toU16 (addr.val + i))))
    (fun _ => 0)

/-- Method `InstructionSet::execute`. -/
def execute (op : Opcode) (s : Chip8) : Chip8 :=
  let c := op.full.val &&& 0xF000
  if c = 0x0000 then execute0xxx op s
  else if c = 0x1000 then
    { s with registers := s.registers.setPC op.nnn }
  else if c = 0x2000 then
    let s := { s with registers := s.registers.pushStack s.registers.getPC }
    { s with registers := s.registers.setPC op.nnn }
  else if c = 0x3000 then
    if s.registers.getV op.x = op.nn then
      { s with registers := s.registers.skipInstruction }
    else
      { s with registers := s.registers.incrementPC }
  else if c = 0x4000 then
    if s.registers.getV op.x ≠ op.nn then
      { s with registers := s.registers.skipInstruction }
    else
      { s with registers := s.registers.incrementPC }
  else if c = 0x5000 then
    if s.registers.getV op.x = s.registers.getV op.y then
      { s with registers := s.registers.skipInstruction }
    else
      { s with registers := s.registers.incrementPC }
  else if c = 0x6000 then
    let s := { s with registers := s.registers.setV op.x op.nn }
    { s with registers := s.registers.incrementPC }
  else if c = 0x7000 then
    let s := { s with registers :=
      s.registers.setV op.x (toU8 ((s.registers.getV op.x).val + op.nn.val)) }
    { s with registers := s.registers.incrementPC }
  else if c = 0x8000 then execute8xxx op s
  else if c = 0x9000 then
    if s.registers.getV op.x ≠ s.registers.getV op.y then
      { s with registers := s.registers.skipInstruction }
    else
      { s with registers := s.registers.incrementPC }
  else if c = 0xA000 then
    let s := { s with registers := s.registers.setI op.nnn }
    { s with registers := s.registers.incrementPC }
  else if c = 0xB000 then
    { s with registers := s.registers.setPC (toU16 (op.nnn.val + (s.registers.getV 0).val)) }
  else if c = 0xC000 then
    let s := { s with
      registers := s.registers.setV op.x (toU8 ((s.rng 0).val &&& op.nn.val))
      rng := fun i => s.rng (i + 1) }
    { s with registers := s.registers.incrementPC }
  else if c = 0xD000 then
    let x := s.registers.getV op.x
    let y := s.registers.getV op.y
    let addr := s.registers.getI
    let sprite := fillSprite s.memory addr op.n
    let res := s.display.drawSprite x y sprite op.n
    let s := { s with display := res.1 }
    let s := { s with registers := s.registers.setV 0xF (if res.2 then 1 else 0) }
    { s with registers := s.registers.incrementPC }
  else if c = 0xE000 then executeExxx op s
  else if c = 0xF000 then executeFxxx op s
  else
    { s with registers := s.registers.incrementPC }

end InstructionSet

namespace CPU

/-- Method `CPU::cycle`: fetch, decode and execute, then update the timers. -/
def cycle (s : Chip8) : Chip8 :=
  let pc := s.registers.getPC
  let opcode : U16 :=
    toU16 (((s.memory.read pc).val <<< 8) ||| (s.memory.read (toU16 (pc.val + 1))).val)
  let op := Opcode.decode opcode
  let s := InstructionSet.execute op s
  let s := { s with registers := s.registers.decrementDelayTimer }
  { s with registers := s.registers.decrementSoundTimer }

/-- Method `CPU::reset`. -/
def reset (s : Chip8) : Chip8 :=
  { s with registers := s.registers.reset }

end CPU

namespace Chip8

/-- Method `Chip8::initialize`. -/
def init (s : Chip8) : Chip8 :=
  { s with
    memory := s.memory.clear.loadFontset
    registers := s.registers.reset
    display := s.display.clear
    input := s.input.clear }

/-- Method `Chip8::cycle`. -/
def cycle (s : Chip8) : Chip8 := CPU.cycle s

/-- Method `Chip8::shouldBeep`. -/
def shouldBeep (s : Chip8) : Bool := decide (s.registers.getSoundTimer.val > 0)

end Chip8

/-- The constructor `Registers::Registers`: `reset()` on fresh storage. -/
def Registers.new : Registers :=
  Registers.reset
    { V := fun _ => 0, I := 0, PC := 0, SP := 0, stack := fun _ => 0,
      delayTimer := 0, soundTimer := 0 }

/-- The constructor `Chip8::Chip8`: every component freshly constructed; `rng`
is the byte stream of the engine, whose seed is taken from the clock. -/
def Chip8.new (rng : Nat → U8) : Chip8 :=
  { memory := Memory.new, registers := Registers.new, display := Display.new,
    input := Input.new, rng := rng }

/-! ## Concrete machine states used to evaluate the code -/

/-- A fresh machine with the two bytes of `word` stored at 0x200 and 0x201. -/
def machineWith (word : U16) : Chip8 :=
  { Chip8.new (fun _ => 0) with
    memory := (Memory.new.write 0x200 (toU8 (word.val / 256))).write 0x201 (toU8 word.val) }

/-- The machine `machineWith word` with `V[i] = v`. -/
def machineWithV (word : U16) (i v : U8) : Chip8 :=
  { machineWith word with registers := Registers.new.setV i v }

/-! ## The instruction table of the specification -/

/-- The opcode patterns of the specification's instruction table, as the
specification writes them: whether the word `w` is one of 00E0, 00EE, 1nnn,
2nnn, 3xnn, 4xnn, 5xy0, 6xnn, 7xnn, 8xy0..8xy7, 8xyE, 9xy0, Annn, Bnnn, Cxnn,
Dxyn, Ex9E, ExA1, Fx07, Fx0A, Fx15, Fx18, Fx1E, Fx29, Fx33, Fx55, Fx65. -/
def matchesInstructionTable (w : U16) : Bool :=
  let c := w.val / 4096
  let n := w.val % 16
  let nn := w.val % 256
  decide (w.val = 0x00E0 ∨ w.val = 0x00EE ∨ c = 0x1 ∨ c = 0x2 ∨ c = 0x3 ∨ c = 0x4 ∨
    (c = 0x5 ∧ n = 0x0) ∨ c = 0x6 ∨ c = 0x7 ∨ (c = 0x8 ∧ (n ≤ 0x7 ∨ n = 0xE)) ∨
    (c = 0x9 ∧ n = 0x0) ∨ c = 0xA ∨ c = 0xB ∨ c = 0xC ∨ c = 0xD ∨
    (c = 0xE ∧ (nn = 0x9E ∨ nn = 0xA1)) ∨
    (c = 0xF ∧ (nn = 0x07 ∨ nn = 0x0A ∨ nn = 0x15 ∨ nn = 0x18 ∨ nn = 0x1E ∨ nn = 0x29 ∨
      nn = 0x33 ∨ nn = 0x55 ∨ nn = 0x65)))

/-! ## The trace of `Display::drawSprite` -/

/-- The framebuffer index `pixelY * WIDTH + pixelX` that `Display::drawSprite`
computes for column `col` of row `row`; `x` and `y` are the reduced origin. -/
def Display.pixelIndex (x y : U8) (row col : Nat) : Nat :=
  (toU16 ((toU16 ((y.val + row) % HEIGHT)).val * WIDTH
    + (toU16 ((x.val + col) % WIDTH)).val)).val

/-- The indices `Display::drawSprite` visits while it draws row `row`, in the
order of the inner loop: one for each set bit of the row byte. -/
def Display.rowHits (x y : U8) (sprite : Nat → U8) (row : Nat) : List Nat :=
  (List.range 8).filterMap fun col =>
    if (sprite row).val &&& (0x80 >>> col) ≠ 0 then some (Display.pixelIndex x y row col)
    else none

/-- The indices `Display::drawSprite` visits while it draws `height` rows, in
the order of the two loops. -/
def Display.spriteHits (x y : U8) (sprite : Nat → U8) (height : Nat) : List Nat :=
  (List.range height).flatMap (Display.rowHits x y sprite)

/-- The effect of `Display::drawSprite` on the cell `index` it visits:
`if(pixels[index] == 1) collision = true; pixels[index] ^= 1`. -/
def Display.togglePixel (acc : (Nat → U8) × Bool) (index : Nat) : (Nat → U8) × Bool :=
  (Function.update acc.1 index (toU8 ((acc.1 index).val ^^^ 1)),
    if acc.1 index = 1 then true else acc.2)

/-! ## Sequences of stack operations -/

/-- The registers after `pushStack` is called with each address of the list,
in order. -/
def Registers.pushAll (r : Registers) (addrs : List U16) : Registers :=
  addrs.foldl Registers.pushStack r

/-- The registers after `k` calls of `popStack`, with the values the calls
returned, first call first. -/
def Registers.popN (r : Registers) : Nat → Registers × List U16
  | 0 => (r, [])
  | k + 1 =>
    let p := r.popStack
    let q := Registers.popN p.1 k
    (q.1, p.2 :: q.2)

/-! ## The array indices the code uses -/

/-- The indices `i` at which the `DXYN` case writes `sprite[i]`, in the order
of its loop `for(i = 0; i < op.n; ++i)`. -/
def InstructionSet.fillSpriteIndices (n : U8) : List Nat := List.range n.val

/-- The indices `row` at which `Display::drawSprite` reads `sprite[row]`, in
the order of its loop `for(row = 0; row < height; ++row)`. -/
def Display.rowIndices (height : U8) : List Nat := List.range height.val

/-! # Properties -/

/-! ## Bit-field arithmetic -/

/-- Masking with `j` ones shifted left by `k` and shifting back extracts the
`j` bits above bit `k`. -/
theorem and_shiftedMask (w k j : Nat) :
    (w &&& ((2 ^ j - 1) <<< k)) >>> k = w / 2 ^ k % 2 ^ j := by
  apply Nat.eq_of_testBit_eq
  intro i
  rw [← Nat.shiftRight_eq_div_pow]
  simp only [Nat.testBit_shiftRight, Nat.testBit_and, Nat.testBit_shiftLeft,
    Nat.testBit_two_pow_sub_one, Nat.testBit_mod_two_pow]
  by_cases h : i < j <;> simp [h, Bool.and_comm]

/-- A value masked with a mask shifted left by `k` has its low `k` bits clear. -/
theorem and_shiftedMask_low (w k j : Nat) :
    (w &&& ((2 ^ j - 1) <<< k)) % 2 ^ k = 0 := by
  apply Nat.eq_of_testBit_eq
  intro i
  simp only [Nat.testBit_and, Nat.testBit_shiftLeft,
    Nat.testBit_two_pow_sub_one, Nat.testBit_mod_two_pow, Nat.zero_testBit]
  by_cases h : i < k
  · have : ¬ (i ≥ k) := by omega
    simp [h, this]
  · simp [h]

theorem and_F000 (w : Nat) : w &&& 0xF000 = (w / 4096 % 16) * 4096 := by
  have h1 := and_shiftedMask w 12 4
  have h2 := and_shiftedMask_low w 12 4
  have e : ((2 ^ 4 - 1) <<< 12 : Nat) = 0xF000 := by decide
  rw [e] at h1 h2
  rw [Nat.shiftRight_eq_div_pow] at h1
  norm_num at h1 h2
  omega

theorem and_F000_shift (w : Nat) : (w &&& 0xF000) >>> 12 = w / 4096 % 16 := by
  have h1 := and_shiftedMask w 12 4
  have e : ((2 ^ 4 - 1) <<< 12 : Nat) = 0xF000 := by decide
  rw [e] at h1
  simpa using h1

theorem and_0F00_shift (w : Nat) : (w &&& 0x0F00) >>> 8 = w / 256 % 16 := by
  have h1 := and_shiftedMask w 8 4
  have e : ((2 ^ 4 - 1) <<< 8 : Nat) = 0x0F00 := by decide
  rw [e] at h1
  simpa using h1

theorem and_00F0_shift (w : Nat) : (w &&& 0x00F0) >>> 4 = w / 16 % 16 := by
  have h1 := and_shiftedMask w 4 4
  have e : ((2 ^ 4 - 1) <<< 4 : Nat) = 0x00F0 := by decide
  rw [e] at h1
  simpa using h1

theorem and_80_shift (w : Nat) : (w &&& 0x80) >>> 7 = w / 128 % 2 := by
  have h1 := and_shiftedMask w 7 1
  have e : ((2 ^ 1 - 1) <<< 7 : Nat) = 0x80 := by decide
  rw [e] at h1
  simpa using h1

theorem and_1 (w : Nat) : w &&& 0x1 = w % 2 :=
  Nat.and_pow_two_sub_one_eq_mod w 1

theorem and_000F (w : Nat) : w &&& 0x000F = w % 16 :=
  Nat.and_pow_two_sub_one_eq_mod w 4

theorem and_00FF (w : Nat) : w &&& 0x00FF = w % 256 :=
  Nat.and_pow_two_sub_one_eq_mod w 8

theorem and_0FFF (w : Nat) : w &&& 0x0FFF = w % 4096 :=
  Nat.and_pow_two_sub_one_eq_mod w 12

/-- Joining a high part and a low part that fits below it with `|||` adds them. -/
theorem shl_or (a b k : Nat) (hb : b < 2 ^ k) : (a <<< k) ||| b = a * 2 ^ k + b := by
  rw [Nat.shiftLeft_eq, Nat.mul_comm a, Nat.mul_add_lt_is_or hb]

@[simp] theorem toU8_val (n : Nat) : (toU8 n).val = n % 256 := rfl

@[simp] theorem toU16_val (n : Nat) : (toU16 n).val = n % 65536 := rfl

@[simp] theorem intToU8_val (z : Int) : (intToU8 z).val = (z % 256).toNat := rfl

/-! ## Decoder -/

theorem decode_full (w : U16) : (Opcode.decode w).full = w := rfl

theorem decode_category (w : U16) : (Opcode.decode w).category.val = w.val / 4096 := by
  have := w.isLt
  simp only [Opcode.decode, toU8_val, and_F000_shift]
  omega

theorem decode_x (w : U16) : (Opcode.decode w).x.val = w.val / 256 % 16 := by
  simp only [Opcode.decode, toU8_val, and_0F00_shift]
  omega

theorem decode_y (w : U16) : (Opcode.decode w).y.val = w.val / 16 % 16 := by
  simp only [Opcode.decode, toU8_val, and_00F0_shift]
  omega

theorem decode_n (w : U16) : (Opcode.decode w).n.val = w.val % 16 := by
  simp only [Opcode.decode, toU8_val, and_000F]
  omega

theorem decode_nn (w : U16) : (Opcode.decode w).nn.val = w.val % 256 := by
  simp only [Opcode.decode, toU8_val, and_00FF]
  omega

theorem decode_nnn (w : U16) : (Opcode.decode w).nnn.val = w.val % 4096 := by
  simp only [Opcode.decode, toU16_val, and_0FFF]
  omega

/-- The value `execute` switches on is the category nibble in place. -/
theorem decode_switch (w : U16) :
    (Opcode.decode w).full.val &&& 0xF000 = (Opcode.decode w).category.val * 4096 := by
  have := w.isLt
  rw [decode_category, decode_full, and_F000]
  omega

/-- Claim C1. Decoding a 16-bit word and reassembling
`category<<12 | x<<8 | y<<4 | n` gives the word back; `nn` is its low byte,
`nnn` its low 12 bits and `full` the word itself; the four nibble fields are
below 16 and `nnn` is below 4096. -/
theorem opcode_decode_fields (w : U16) :
    ((Opcode.decode w).category.val <<< 12 ||| (Opcode.decode w).x.val <<< 8 |||
        (Opcode.decode w).y.val <<< 4 ||| (Opcode.decode w).n.val) = w.val ∧
      (Opcode.decode w).nn.val = w.val &&& 0xFF ∧
      (Opcode.decode w).nnn.val = w.val &&& 0xFFF ∧
      (Opcode.decode w).full = w ∧
      (Opcode.decode w).category.val < 16 ∧ (Opcode.decode w).x.val < 16 ∧
      (Opcode.decode w).y.val < 16 ∧ (Opcode.decode w).n.val < 16 ∧
      (Opcode.decode w).nnn.val < 4096 := by
  have hw := w.isLt
  rw [decode_category, decode_x, decode_y, decode_n, decode_nn, decode_nnn, decode_full,
    and_00FF, and_0FFF]
  refine ⟨?_, rfl, rfl, rfl, by omega, by omega, by omega, by omega, by omega⟩
  have h1 : (w.val / 4096) <<< 12 ||| (w.val / 256 % 16) <<< 8
      = (w.val / 256) * 2 ^ 8 := by
    rw [Nat.shiftLeft_eq (w.val / 256 % 16), shl_or _ _ 12 (by omega)]
    omega
  have h2 : (w.val / 256) * 2 ^ 8 ||| (w.val / 16 % 16) <<< 4 = (w.val / 16) * 2 ^ 4 := by
    rw [Nat.shiftLeft_eq (w.val / 16 % 16), ← Nat.shiftLeft_eq, shl_or _ _ 8 (by omega)]
    omega
  rw [h1, h2, ← Nat.shiftLeft_eq, shl_or _ _ 4 (by omega)]
  omega

/-! ## Dispatch -/

/-- The switch value of `execute` for a decoded word of category `c`. -/
theorem switch_of_category (w : U16) (c : U8) (h : (Opcode.decode w).category = c) :
    (Opcode.decode w).full.val &&& 0xF000 = c.val * 4096 := by
  rw [decode_switch, h]

theorem execute_cat0 (w : U16) (s : Chip8) (h : (Opcode.decode w).category = 0x0) :
    InstructionSet.execute (Opcode.decode w) s
      = InstructionSet.execute0xxx (Opcode.decode w) s := by
  have hs : _ = 0x0000 := switch_of_category w 0x0 h
  simp [InstructionSet.execute, hs]

theorem execute_cat8 (w : U16) (s : Chip8) (h : (Opcode.decode w).category = 0x8) :
    InstructionSet.execute (Opcode.decode w) s
      = InstructionSet.execute8xxx (Opcode.decode w) s := by
  have hs : _ = 0x8000 := switch_of_category w 0x8 h
  simp [InstructionSet.execute, hs]

theorem execute_catE (w : U16) (s : Chip8) (h : (Opcode.decode w).category = 0xE) :
    InstructionSet.execute (Opcode.decode w) s
      = InstructionSet.executeExxx (Opcode.decode w) s := by
  have hs : _ = 0xE000 := switch_of_category w 0xE h
  simp [InstructionSet.execute, hs]

theorem execute_catF (w : U16) (s : Chip8) (h : (Opcode.decode w).category = 0xF) :
    InstructionSet.execute (Opcode.decode w) s
      = InstructionSet.executeFxxx (Opcode.decode w) s := by
  have hs : _ = 0xF000 := switch_of_category w 0xF h
  simp [InstructionSet.execute, hs]

/-- A decoded register operand is its own 4-bit mask. -/
theorem decode_x_mask (w : U16) :
    (Opcode.decode w).x.val &&& 0xF = (Opcode.decode w).x.val := by
  rw [and_000F, decode_x]
  omega

theorem decode_y_mask (w : U16) :
    (Opcode.decode w).y.val &&& 0xF = (Opcode.decode w).y.val := by
  rw [and_000F, decode_y]
  omega

theorem getV_decode_x (w : U16) (r : Registers) :
    r.getV (Opcode.decode w).x = r.V (Opcode.decode w).x.val := by
  simp only [Registers.getV, decode_x_mask]

theorem getV_decode_y (w : U16) (r : Registers) :
    r.getV (Opcode.decode w).y = r.V (Opcode.decode w).y.val := by
  simp only [Registers.getV, decode_y_mask]

theorem setV_decode_x (w : U16) (r : Registers) (v : U8) :
    r.setV (Opcode.decode w).x v
      = { r with V := Function.update r.V (Opcode.decode w).x.val v } := by
  simp only [Registers.setV, decode_x_mask]

theorem memory_read_eq (m : Memory) (a : U16) : m.read a = m.data (a.val % 4096) := by
  simp only [Memory.read, and_0FFF]

theorem decrementDelayTimer_val (r : Registers) :
    r.decrementDelayTimer.delayTimer.val = r.delayTimer.val - 1 := by
  have := r.delayTimer.isLt
  unfold Registers.decrementDelayTimer
  split
  · simp only [intToU8_val]; omega
  · omega

theorem decrementSoundTimer_val (r : Registers) :
    r.decrementSoundTimer.soundTimer.val = r.soundTimer.val - 1 := by
  have := r.soundTimer.isLt
  unfold Registers.decrementSoundTimer
  split
  · simp only [intToU8_val]; omega
  · omega

theorem decrementDelayTimer_frame (r : Registers) :
    r.decrementDelayTimer.V = r.V ∧ r.decrementDelayTimer.I = r.I ∧
      r.decrementDelayTimer.PC = r.PC ∧ r.decrementDelayTimer.SP = r.SP ∧
      r.decrementDelayTimer.stack = r.stack ∧
      r.decrementDelayTimer.soundTimer = r.soundTimer := by
  unfold Registers.decrementDelayTimer
  split <;> simp

theorem decrementSoundTimer_frame (r : Registers) :
    r.decrementSoundTimer.V = r.V ∧ r.decrementSoundTimer.I = r.I ∧
      r.decrementSoundTimer.PC = r.PC ∧ r.decrementSoundTimer.SP = r.SP ∧
      r.decrementSoundTimer.stack = r.stack ∧
      r.decrementSoundTimer.delayTimer = r.delayTimer := by
  unfold Registers.decrementSoundTimer
  split <;> simp

theorem cycle_aux (s : Chip8) (w : Nat)
    (hwdef : w = (s.memory.data (s.registers.PC.val % 4096)).val * 256
      + (s.memory.data ((s.registers.PC.val + 1) % 4096)).val)
    (op : Opcode) (hop : op = Opcode.decode (toU16 w))
    (s1 : Chip8) (hs1 : s1 = InstructionSet.execute op s) :
    w < 65536 ∧
    CPU.cycle s
      = { s1 with registers := s1.registers.decrementDelayTimer.decrementSoundTimer } ∧
    (CPU.cycle s).registers.delayTimer.val = s1.registers.delayTimer.val - 1 ∧
    (CPU.cycle s).registers.soundTimer.val = s1.registers.soundTimer.val - 1 ∧
    (op.category = 0xF → op.nn = 0x15 → 0 < (s.registers.V op.x.val).val →
      (CPU.cycle s).registers.delayTimer.val = (s.registers.V op.x.val).val - 1) ∧
    (op.category = 0xF → op.nn = 0x07 →
      (CPU.cycle s).registers.V op.x.val = s.registers.delayTimer) := by
  have hhi := (s.memory.data (s.registers.PC.val % 4096)).isLt
  have hlo := (s.memory.data ((s.registers.PC.val + 1) % 4096)).isLt
  have hw : w < 65536 := by omega
  have hfetch : toU16 (((s.memory.read s.registers.getPC).val <<< 8) |||
      (s.memory.read (toU16 (s.registers.getPC.val + 1))).val) = toU16 w := by
    have e : (s.registers.PC.val + 1) % 65536 % 4096 = (s.registers.PC.val + 1) % 4096 := by
      omega
    simp only [memory_read_eq, Registers.getPC, toU16_val, e]
    rw [shl_or _ _ 8 hlo, hwdef]
    norm_num
  have hcyc : CPU.cycle s
      = { s1 with registers := s1.registers.decrementDelayTimer.decrementSoundTimer } := by
    simp only [CPU.cycle, hfetch, hs1, hop]
  have hd : (CPU.cycle s).registers.delayTimer.val = s1.registers.delayTimer.val - 1 := by
    rw [hcyc]
    simp only [(decrementSoundTimer_frame _).2.2.2.2.2, decrementDelayTimer_val]
  refine ⟨hw, hcyc, hd, ?_, ?_, ?_⟩
  · rw [hcyc]
    simp only [decrementSoundTimer_val, (decrementDelayTimer_frame _).2.2.2.2.2]
  · intro hc hnn _
    rw [hd]
    subst hop
    have e : s1 = InstructionSet.executeFxxx _ s := hs1.trans (execute_catF (toU16 w) s hc)
    have hn : (Opcode.decode (toU16 w)).nn.val = 0x15 := by rw [hnn]; rfl
    rw [e]
    simp [InstructionSet.executeFxxx, hn, Registers.setDelayTimer, Registers.incrementPC,
      getV_decode_x]
  · intro hc hnn
    rw [hcyc]
    subst hop
    have e : s1 = InstructionSet.executeFxxx _ s := hs1.trans (execute_catF (toU16 w) s hc)
    have hn : (Opcode.decode (toU16 w)).nn.val = 0x07 := by rw [hnn]; rfl
    simp only [(decrementSoundTimer_frame _).1, (decrementDelayTimer_frame _).1]
    rw [e]
    simp [InstructionSet.executeFxxx, hn, Registers.setV, Registers.incrementPC,
      Registers.getDelayTimer, decode_x_mask]

/-- Claim C2. One `CPU::cycle` forms the word `mem[PC mod 4096]*256 +
mem[(PC+1) mod 4096]`, decodes it, executes it, and then decrements the delay
timer and the sound timer once each (a timer at 0 stays 0). Hence a cycle
executing Fx15 with `V[x] = v > 0` ends with delay timer `v - 1`, and a cycle
executing Fx07 stores in `V[x]` the delay timer from before the decrement. -/
theorem cycle_fetch_execute_tick (s : Chip8) :
    let w := (s.memory.data (s.registers.PC.val % 4096)).val * 256
      + (s.memory.data ((s.registers.PC.val + 1) % 4096)).val
    let op := Opcode.decode (toU16 w)
    let s1 := InstructionSet.execute op s
    w < 65536 ∧
    CPU.cycle s
      = { s1 with registers := s1.registers.decrementDelayTimer.decrementSoundTimer } ∧
    (CPU.cycle s).registers.delayTimer.val = s1.registers.delayTimer.val - 1 ∧
    (CPU.cycle s).registers.soundTimer.val = s1.registers.soundTimer.val - 1 ∧
    (op.category = 0xF → op.nn = 0x15 → 0 < (s.registers.V op.x.val).val →
      (CPU.cycle s).registers.delayTimer.val = (s.registers.V op.x.val).val - 1) ∧
    (op.category = 0xF → op.nn = 0x07 →
      (CPU.cycle s).registers.V op.x.val = s.registers.delayTimer) :=
  cycle_aux s _ rfl _ rfl _ rfl

theorem cycle_fetch_execute_tick_witness :
    ((Opcode.decode 0xF315).category = 0xF ∧ (Opcode.decode 0xF315).nn = 0x15 ∧
      0 < ((machineWithV 0xF315 3 5).registers.V 3).val ∧
      (CPU.cycle (machineWithV 0xF315 3 5)).registers.delayTimer.val = 5 - 1) ∧
    ((Opcode.decode 0xF307).category = 0xF ∧ (Opcode.decode 0xF307).nn = 0x07 ∧
      (CPU.cycle { machineWith 0xF307 with
          registers := Registers.new.setDelayTimer 9 }).registers.V 3 = 9) :=
  ⟨⟨by decide, by decide, by decide,
      (cycle_fetch_execute_tick (machineWithV 0xF315 3 5)).2.2.2.2.1
        (by decide) (by decide) (by decide)⟩,
    ⟨by decide, by decide,
      (cycle_fetch_execute_tick { machineWith 0xF307 with
          registers := Registers.new.setDelayTimer 9 }).2.2.2.2.2 (by decide) (by decide)⟩⟩

/-! ## Program counter -/

theorem execute0xxx_pc (op : Opcode) (s : Chip8) (h : op.nn ≠ 0xEE) :
    (InstructionSet.execute0xxx op s).registers.PC = toU16 (s.registers.PC.val + 2) := by
  have hn : op.nn.val ≠ 0xEE := fun e => h (Fin.ext e)
  unfold InstructionSet.execute0xxx
  split_ifs <;> simp [Registers.incrementPC]

theorem execute8xxx_pc (op : Opcode) (s : Chip8) :
    (InstructionSet.execute8xxx op s).registers.PC = toU16 (s.registers.PC.val + 2) := by
  unfold InstructionSet.execute8xxx
  simp only [Registers.incrementPC]
  split_ifs <;> simp [Registers.setV]

theorem executeExxx_pc (op : Opcode) (s : Chip8) (h1 : op.nn ≠ 0x9E) (h2 : op.nn ≠ 0xA1) :
    (InstructionSet.executeExxx op s).registers.PC = toU16 (s.registers.PC.val + 2) := by
  have hn1 : op.nn.val ≠ 0x9E := fun e => h1 (Fin.ext e)
  have hn2 : op.nn.val ≠ 0xA1 := fun e => h2 (Fin.ext e)
  unfold InstructionSet.executeExxx
  simp [hn1, hn2, Registers.incrementPC]

/-- The store loop of Fx55 writes memory only. -/
theorem storeLoop_frame (l : List Nat) (s : Chip8) :
    (l.foldl InstructionSet.storeStep s).registers = s.registers ∧
      (l.foldl InstructionSet.storeStep s).display = s.display ∧
      (l.foldl InstructionSet.storeStep s).input = s.input ∧
      (l.foldl InstructionSet.storeStep s).rng = s.rng := by
  induction l generalizing s with
  | nil => simp
  | cons i l ih =>
    have h := ih (InstructionSet.storeStep s i)
    simpa [InstructionSet.storeStep] using h

/-- The load loop of Fx65 writes the V registers only. -/
theorem loadLoop_frame (l : List Nat) (s : Chip8) :
    (l.foldl InstructionSet.loadStep s).memory = s.memory ∧
      (l.foldl InstructionSet.loadStep s).display = s.display ∧
      (l.foldl InstructionSet.loadStep s).input = s.input ∧
      (l.foldl InstructionSet.loadStep s).rng = s.rng ∧
      (l.foldl InstructionSet.loadStep s).registers.I = s.registers.I ∧
      (l.foldl InstructionSet.loadStep s).registers.PC = s.registers.PC ∧
      (l.foldl InstructionSet.loadStep s).registers.SP = s.registers.SP ∧
      (l.foldl InstructionSet.loadStep s).registers.stack = s.registers.stack ∧
      (l.foldl InstructionSet.loadStep s).registers.delayTimer = s.registers.delayTimer ∧
      (l.foldl InstructionSet.loadStep s).registers.soundTimer = s.registers.soundTimer := by
  induction l generalizing s with
  | nil => simp
  | cons i l ih =>
    have h := ih (InstructionSet.loadStep s i)
    simpa [InstructionSet.loadStep, Registers.setV] using h

/-- Method `getAnyKeyPressed` finds a key as soon as one is pressed. -/
theorem getAnyKeyPressed_nonneg (inp : Input) (k : U8) (h : inp.isKeyPressed k = true) :
    inp.getAnyKeyPressed ≥ 0 := by
  unfold Input.getAnyKeyPressed
  cases hf : (List.range KEY_COUNT).find? (fun i => decide (inp.keys i ≠ 0)) with
  | some i => simp
  | none =>
    exfalso
    rw [List.find?_eq_none] at hf
    simp only [Input.isKeyPressed, Bool.and_eq_true, decide_eq_true_eq] at h
    have := hf k.val (List.mem_range.mpr h.1)
    simp only [decide_eq_true_eq] at this
    exact this h.2

theorem executeFxxx_pc (op : Opcode) (s : Chip8)
    (h : op.nn ≠ 0x0A ∨ ∃ k : U8, s.input.isKeyPressed k = true) :
    (InstructionSet.executeFxxx op s).registers.PC = toU16 (s.registers.PC.val + 2) := by
  unfold InstructionSet.executeFxxx
  by_cases h2 : op.nn.val = 0x0A
  · have h3 : s.input.getAnyKeyPressed ≥ 0 := by
      rcases h with h | ⟨k, hk⟩
      · exact absurd (Fin.ext h2) h
      · exact getAnyKeyPressed_nonneg _ k hk
    simp [h2, h3, Registers.incrementPC, Registers.setV]
  · simp only [h2, if_false, Registers.incrementPC]
    repeat' split
    all_goals first
      | rw [(storeLoop_frame _ s).1]
      | rw [(loadLoop_frame _ s).2.2.2.2.2.1]
      | simp [Registers.setV, Registers.setDelayTimer, Registers.setSoundTimer,
          Registers.addI, Registers.setI]

/-- Claim C3. For every instruction word that is not a jump, call, return or
skip and not a blocked Fx0A (category 6, 7, 8, A, C or D; category 0 with
`nn != 0xEE`; category E with `nn` not 0x9E or 0xA1; category F with
`nn != 0x0A`; or Fx0A when some key is pressed), `execute` leaves PC equal to
`(old PC + 2) mod 2^16`. -/
theorem execute_advances_pc (w : U16) (s : Chip8)
    (h : (Opcode.decode w).category = 0x6 ∨ (Opcode.decode w).category = 0x7 ∨
      (Opcode.decode w).category = 0x8 ∨ (Opcode.decode w).category = 0xA ∨
      (Opcode.decode w).category = 0xC ∨ (Opcode.decode w).category = 0xD ∨
      ((Opcode.decode w).category = 0x0 ∧ (Opcode.decode w).nn ≠ 0xEE) ∨
      ((Opcode.decode w).category = 0xE ∧ (Opcode.decode w).nn ≠ 0x9E ∧
        (Opcode.decode w).nn ≠ 0xA1) ∨
      ((Opcode.decode w).category = 0xF ∧
        ((Opcode.decode w).nn ≠ 0x0A ∨ ∃ k : U8, s.input.isKeyPressed k = true))) :
    (InstructionSet.execute (Opcode.decode w) s).registers.PC.val
      = (s.registers.PC.val + 2) % 65536 := by
  rw [← toU16_val]
  congr 1
  rcases h with h | h | h | h | h | h | ⟨h, hn⟩ | ⟨h, hn1, hn2⟩ | ⟨h, hn⟩
  · have hs : _ = 0x6000 := switch_of_category w 0x6 h
    simp [InstructionSet.execute, hs, Registers.incrementPC, Registers.setV]
  · have hs : _ = 0x7000 := switch_of_category w 0x7 h
    simp [InstructionSet.execute, hs, Registers.incrementPC, Registers.setV]
  · rw [execute_cat8 w s h, execute8xxx_pc]
  · have hs : _ = 0xA000 := switch_of_category w 0xA h
    simp [InstructionSet.execute, hs, Registers.incrementPC, Registers.setI]
  · have hs : _ = 0xC000 := switch_of_category w 0xC h
    simp [InstructionSet.execute, hs, Registers.incrementPC, Registers.setV]
  · have hs : _ = 0xD000 := switch_of_category w 0xD h
    simp [InstructionSet.execute, hs, Registers.incrementPC, Registers.setV]
  · rw [execute_cat0 w s h, execute0xxx_pc _ _ hn]
  · rw [execute_catE w s h, executeExxx_pc _ _ hn1 hn2]
  · rw [execute_catF w s h, executeFxxx_pc _ _ hn]

theorem execute_advances_pc_witness :
    ((Opcode.decode 0xF30A).category = 0xF ∧
      ∃ k : U8, (Input.new.setKey 7 true).isKeyPressed k = true) ∧
    (InstructionSet.execute (Opcode.decode 0xF30A)
        { machineWith 0xF30A with input := Input.new.setKey 7 true }).registers.PC.val
      = (0x200 + 2) % 65536 :=
  ⟨⟨by decide, ⟨7, by decide⟩⟩,
    execute_advances_pc 0xF30A { machineWith 0xF30A with input := Input.new.setKey 7 true }
      (Or.inr (Or.inr (Or.inr (Or.inr (Or.inr (Or.inr (Or.inr (Or.inr
        ⟨by decide, Or.inr ⟨7, by decide⟩⟩))))))))⟩

/-! ## Conditional skips -/

/-- Claim C4. Each conditional skip 3xnn, 4xnn, 5xy0, 9xy0, Ex9E, ExA1 sets PC
to `(PC+4) mod 2^16` when its condition holds (`V[x]==nn`; `V[x]!=nn`;
`V[x]==V[y]`; `V[x]!=V[y]`; key `V[x]` pressed; key `V[x]` not pressed) and to
`(PC+2) mod 2^16` otherwise, and changes nothing else in the machine; the two
outcomes differ, so exactly one of them occurs. -/
theorem skip_instructions (w : U16) (s : Chip8) :
    let op := Opcode.decode w
    let vx := s.registers.V op.x.val
    let vy := s.registers.V op.y.val
    let skip : Chip8 :=
      { s with registers := { s.registers with PC := toU16 (s.registers.PC.val + 4) } }
    let next : Chip8 :=
      { s with registers := { s.registers with PC := toU16 (s.registers.PC.val + 2) } }
    (op.category = 0x3 →
      InstructionSet.execute op s = if vx = op.nn then skip else next) ∧
    (op.category = 0x4 →
      InstructionSet.execute op s = if vx ≠ op.nn then skip else next) ∧
    (op.category = 0x5 → op.n = 0x0 →
      InstructionSet.execute op s = if vx = vy then skip else next) ∧
    (op.category = 0x9 → op.n = 0x0 →
      InstructionSet.execute op s = if vx ≠ vy then skip else next) ∧
    (op.category = 0xE → op.nn = 0x9E →
      InstructionSet.execute op s = if s.input.isKeyPressed vx = true then skip else next) ∧
    (op.category = 0xE → op.nn = 0xA1 →
      InstructionSet.execute op s = if s.input.isKeyPressed vx = false then skip else next) ∧
    skip.registers.PC ≠ next.registers.PC := by
  intro op vx vy skip next
  refine ⟨?_, ?_, ?_, ?_, ?_, ?_, ?_⟩
  · intro hc
    have hs : _ = 0x3000 := switch_of_category w 0x3 hc
    simp [InstructionSet.execute, hs, getV_decode_x, Registers.skipInstruction,
      Registers.incrementPC, op, vx, skip, next]
  · intro hc
    have hs : _ = 0x4000 := switch_of_category w 0x4 hc
    simp [InstructionSet.execute, hs, getV_decode_x, Registers.skipInstruction,
      Registers.incrementPC, op, vx, skip, next]
  · intro hc _
    have hs : _ = 0x5000 := switch_of_category w 0x5 hc
    simp [InstructionSet.execute, hs, getV_decode_x, getV_decode_y, Registers.skipInstruction,
      Registers.incrementPC, op, vx, vy, skip, next]
  · intro hc _
    have hs : _ = 0x9000 := switch_of_category w 0x9 hc
    simp [InstructionSet.execute, hs, getV_decode_x, getV_decode_y, Registers.skipInstruction,
      Registers.incrementPC, op, vx, vy, skip, next]
  · intro hc hnn
    have hn : (Opcode.decode w).nn.val = 0x9E := by rw [hnn]; rfl
    rw [execute_catE w s hc]
    simp [InstructionSet.executeExxx, hn, getV_decode_x, Registers.skipInstruction,
      Registers.incrementPC, op, vx, skip, next]
  · intro hc hnn
    have hn : (Opcode.decode w).nn.val = 0xA1 := by rw [hnn]; rfl
    rw [execute_catE w s hc]
    simp [InstructionSet.executeExxx, hn, getV_decode_x, Registers.skipInstruction,
      Registers.incrementPC, op, vx, skip, next]
  · intro h
    have h1 := congrArg Fin.val h
    simp only [toU16_val, skip, next] at h1
    omega

theorem skip_instructions_witness :
    ((Opcode.decode 0x3A05).category = 0x3 ∧
      InstructionSet.execute (Opcode.decode 0x3A05) (machineWithV 0x3A05 0xA 5)
        = { machineWithV 0x3A05 0xA 5 with
            registers := { (machineWithV 0x3A05 0xA 5).registers with PC := 0x204 } }) ∧
    ((Opcode.decode 0x4A05).category = 0x4 ∧
      InstructionSet.execute (Opcode.decode 0x4A05) (machineWithV 0x4A05 0xA 5)
        = { machineWithV 0x4A05 0xA 5 with
            registers := { (machineWithV 0x4A05 0xA 5).registers with PC := 0x202 } }) ∧
    ((Opcode.decode 0x5AB0).category = 0x5 ∧ (Opcode.decode 0x5AB0).n = 0x0 ∧
      InstructionSet.execute (Opcode.decode 0x5AB0) (machineWithV 0x5AB0 0xA 5)
        = { machineWithV 0x5AB0 0xA 5 with
            registers := { (machineWithV 0x5AB0 0xA 5).registers with PC := 0x202 } }) ∧
    ((Opcode.decode 0x9AB0).category = 0x9 ∧ (Opcode.decode 0x9AB0).n = 0x0 ∧
      InstructionSet.execute (Opcode.decode 0x9AB0) (machineWithV 0x9AB0 0xA 5)
        = { machineWithV 0x9AB0 0xA 5 with
            registers := { (machineWithV 0x9AB0 0xA 5).registers with PC := 0x204 } }) ∧
    ((Opcode.decode 0xEA9E).category = 0xE ∧ (Opcode.decode 0xEA9E).nn = 0x9E ∧
      InstructionSet.execute (Opcode.decode 0xEA9E)
          { machineWithV 0xEA9E 0xA 5 with input := Input.new.setKey 5 true }
        = { machineWithV 0xEA9E 0xA 5 with
            input := Input.new.setKey 5 true
            registers := { (machineWithV 0xEA9E 0xA 5).registers with PC := 0x204 } }) ∧
    ((Opcode.decode 0xEAA1).category = 0xE ∧ (Opcode.decode 0xEAA1).nn = 0xA1 ∧
      InstructionSet.execute (Opcode.decode 0xEAA1)
          { machineWithV 0xEAA1 0xA 5 with input := Input.new.setKey 5 true }
        = { machineWithV 0xEAA1 0xA 5 with
            input := Input.new.setKey 5 true
            registers := { (machineWithV 0xEAA1 0xA 5).registers with PC := 0x202 } }) :=
  ⟨⟨by decide, (skip_instructions 0x3A05 (machineWithV 0x3A05 0xA 5)).1 (by decide)⟩,
    ⟨by decide, (skip_instructions 0x4A05 (machineWithV 0x4A05 0xA 5)).2.1 (by decide)⟩,
    ⟨by decide, by decide,
      (skip_instructions 0x5AB0 (machineWithV 0x5AB0 0xA 5)).2.2.1 (by decide) (by decide)⟩,
    ⟨by decide, by decide,
      (skip_instructions 0x9AB0 (machineWithV 0x9AB0 0xA 5)).2.2.2.1 (by decide) (by decide)⟩,
    ⟨by decide, by decide,
      (skip_instructions 0xEA9E
        { machineWithV 0xEA9E 0xA 5 with input := Input.new.setKey 5 true }).2.2.2.2.1
        (by decide) (by decide)⟩,
    ⟨by decide, by decide,
      (skip_instructions 0xEAA1
        { machineWithV 0xEAA1 0xA 5 with input := Input.new.setKey 5 true }).2.2.2.2.2.1
        (by decide) (by decide)⟩⟩

/-! ## Subroutine call and return -/

/-- Claim C5. With `SP < 16` and `PC = p`, executing 2nnn sets `PC = nnn`,
stores `p` in the stack slot at the old SP and increments SP; a later 00EE
executed in any state with that SP and with that slot still holding `p` sets
`PC = (p + 2) mod 2^16` and restores SP to its value before the call. -/
theorem call_then_return (w : U16) (s : Chip8)
    (hc : (Opcode.decode w).category = 0x2) (hsp : s.registers.SP.val < 16) :
    let s1 := InstructionSet.execute (Opcode.decode w) s
    s1.registers.PC = (Opcode.decode w).nnn ∧
    s1.registers.PC.val = w.val % 4096 ∧
    s1.registers.stack s.registers.SP.val = s.registers.PC ∧
    s1.registers.SP.val = s.registers.SP.val + 1 ∧
    ∀ s2 : Chip8, s2.registers.SP = s1.registers.SP →
      s2.registers.stack s.registers.SP.val = s.registers.PC →
      (InstructionSet.execute (Opcode.decode 0x00EE) s2).registers.PC.val
          = (s.registers.PC.val + 2) % 65536 ∧
        (InstructionSet.execute (Opcode.decode 0x00EE) s2).registers.SP = s.registers.SP := by
  intro s1
  have hs : _ = 0x2000 := switch_of_category w 0x2 hc
  have e1 : s1 = { s with registers :=
      (s.registers.pushStack s.registers.getPC).setPC (Opcode.decode w).nnn } := by
    simp [s1, InstructionSet.execute, hs]
  have hSP : s1.registers.SP.val = s.registers.SP.val + 1 := by
    rw [e1]
    simp only [Registers.setPC, Registers.pushStack, toU8_val]
    omega
  refine ⟨by rw [e1]; rfl, ?_, ?_, hSP, ?_⟩
  · rw [e1]
    exact decode_nnn w
  · rw [e1]
    simp [Registers.setPC, Registers.pushStack, Registers.getPC]
  · intro s2 h2 h3
    have hpop : intToU8 ((s2.registers.SP.val : Int) - 1) = s.registers.SP := by
      apply Fin.ext
      rw [h2, intToU8_val, hSP]
      omega
    have hn : (Opcode.decode 0x00EE).nn.val = 0xEE := by decide
    rw [execute_cat0 0x00EE s2 (by decide)]
    simp only [InstructionSet.execute0xxx, hn, Registers.popStack, hpop, h3,
      Registers.setPC, Registers.incrementPC, toU16_val]
    simp

theorem call_then_return_witness :
    ((Opcode.decode 0x2345).category = 0x2 ∧ (machineWith 0x2345).registers.SP.val < 16) ∧
    (InstructionSet.execute (Opcode.decode 0x2345) (machineWith 0x2345)).registers.PC.val
      = 0x2345 % 4096 ∧
    (InstructionSet.execute (Opcode.decode 0x00EE)
        (InstructionSet.execute (Opcode.decode 0x2345) (machineWith 0x2345))).registers.PC.val
      = (0x200 + 2) % 65536 :=
  ⟨⟨by decide, by decide⟩,
    (call_then_return 0x2345 (machineWith 0x2345) (by decide) (by decide)).2.1,
    ((call_then_return 0x2345 (machineWith 0x2345) (by decide) (by decide)).2.2.2.2
      (InstructionSet.execute (Opcode.decode 0x2345) (machineWith 0x2345)) rfl
      (by decide)).1⟩

/-! ## Words outside the instruction table -/

/-- Claim C6, counterexample. Four words that match no pattern of the
instruction table do more than advance PC by 2: on a fresh machine 0x5001
skips (PC + 4); with `V[0] = 1` and `V[1] = 0` the word 0x9011 skips; 0x01E0
clears a lit pixel; 0x01EE returns to the pushed address 0x400. -/
theorem unmatched_word_counterexample :
    (matchesInstructionTable 0x5001 = false ∧
      (InstructionSet.execute (Opcode.decode 0x5001) (machineWith 0x5001)).registers.PC.val
        ≠ (0x200 + 2) % 65536) ∧
    (matchesInstructionTable 0x9011 = false ∧
      (InstructionSet.execute (Opcode.decode 0x9011)
          (machineWithV 0x9011 0 1)).registers.PC.val ≠ (0x200 + 2) % 65536) ∧
    (matchesInstructionTable 0x01E0 = false ∧
      ({ machineWith 0x01E0 with
          display := { pixels := fun _ => 1, needsRedraw := false } } : Chip8).display.pixels 0
        = 1 ∧
      (InstructionSet.execute (Opcode.decode 0x01E0)
          { machineWith 0x01E0 with
            display := { pixels := fun _ => 1, needsRedraw := false } }).display.pixels 0
        = 0) ∧
    (matchesInstructionTable 0x01EE = false ∧
      (InstructionSet.execute (Opcode.decode 0x01EE)
          { machineWith 0x01EE with
            registers := Registers.new.pushStack 0x400 }).registers.PC.val
        ≠ (0x200 + 2) % 65536) := by
  decide

/-- Claim C6, amended. A word that matches no pattern of the instruction
table, and is neither of category 0 with low byte 0xE0 or 0xEE nor of
category 5 or 9, advances PC by 2 and has no other effect on the machine. -/
theorem unrecognized_word_advances (w : U16) (s : Chip8)
    (hm : matchesInstructionTable w = false)
    (h0 : (Opcode.decode w).category = 0x0 →
      (Opcode.decode w).nn ≠ 0xE0 ∧ (Opcode.decode w).nn ≠ 0xEE)
    (h5 : (Opcode.decode w).category ≠ 0x5) (h9 : (Opcode.decode w).category ≠ 0x9) :
    InstructionSet.execute (Opcode.decode w) s
      = { s with registers := { s.registers with PC := toU16 (s.registers.PC.val + 2) } } := by
  have hw := w.isLt
  have hc := decode_category w
  have hn := decode_n w
  have hnn := decode_nn w
  have h5v : w.val / 4096 ≠ 5 := fun e => h5 (Fin.ext (hc.trans e))
  have h9v : w.val / 4096 ≠ 9 := fun e => h9 (Fin.ext (hc.trans e))
  simp only [matchesInstructionTable, decide_eq_false_iff_not, not_or, not_and] at hm
  obtain ⟨-, -, m1, m2, m3, m4, -, m6, m7, m8, -, mA, mB, mC, mD, mE, mF⟩ := hm
  have hcases : w.val / 4096 = 0x0 ∨ w.val / 4096 = 0x8 ∨ w.val / 4096 = 0xE ∨
      w.val / 4096 = 0xF := by omega
  rcases hcases with h | h | h | h
  · have hcat : (Opcode.decode w).category = 0x0 := Fin.ext (hc.trans h)
    obtain ⟨n1, n2⟩ := h0 hcat
    have v1 : (Opcode.decode w).nn.val ≠ 0xE0 := fun e => n1 (Fin.ext e)
    have v2 : (Opcode.decode w).nn.val ≠ 0xEE := fun e => n2 (Fin.ext e)
    rw [execute_cat0 w s hcat]
    simp [InstructionSet.execute0xxx, v1, v2, Registers.incrementPC]
  · have hcat : (Opcode.decode w).category = 0x8 := Fin.ext (hc.trans h)
    have m := m8 h
    rw [execute_cat8 w s hcat]
    have k0 : (Opcode.decode w).n.val ≠ 0x0 := by omega
    have k1 : (Opcode.decode w).n.val ≠ 0x1 := by omega
    have k2 : (Opcode.decode w).n.val ≠ 0x2 := by omega
    have k3 : (Opcode.decode w).n.val ≠ 0x3 := by omega
    have k4 : (Opcode.decode w).n.val ≠ 0x4 := by omega
    have k5 : (Opcode.decode w).n.val ≠ 0x5 := by omega
    have k6 : (Opcode.decode w).n.val ≠ 0x6 := by omega
    have k7 : (Opcode.decode w).n.val ≠ 0x7 := by omega
    have kE : (Opcode.decode w).n.val ≠ 0xE := by omega
    simp only [InstructionSet.execute8xxx, k0, k1, k2, k3, k4, k5, k6, k7, kE, if_false,
      Registers.incrementPC]
  · have hcat : (Opcode.decode w).category = 0xE := Fin.ext (hc.trans h)
    have m := mE h
    have v1 : (Opcode.decode w).nn.val ≠ 0x9E := by omega
    have v2 : (Opcode.decode w).nn.val ≠ 0xA1 := by omega
    rw [execute_catE w s hcat]
    simp [InstructionSet.executeExxx, v1, v2, Registers.incrementPC]
  · have hcat : (Opcode.decode w).category = 0xF := Fin.ext (hc.trans h)
    have m := mF h
    have v1 : (Opcode.decode w).nn.val ≠ 0x07 := by omega
    have v2 : (Opcode.decode w).nn.val ≠ 0x0A := by omega
    have v3 : (Opcode.decode w).nn.val ≠ 0x15 := by omega
    have v4 : (Opcode.decode w).nn.val ≠ 0x18 := by omega
    have v5 : (Opcode.decode w).nn.val ≠ 0x1E := by omega
    have v6 : (Opcode.decode w).nn.val ≠ 0x29 := by omega
    have v7 : (Opcode.decode w).nn.val ≠ 0x33 := by omega
    have v8 : (Opcode.decode w).nn.val ≠ 0x55 := by omega
    have v9 : (Opcode.decode w).nn.val ≠ 0x65 := by omega
    rw [execute_catF w s hcat]
    simp only [InstructionSet.executeFxxx, v1, v2, v3, v4, v5, v6, v7, v8, v9, if_false,
      Registers.incrementPC]

theorem unrecognized_word_advances_witness :
    (matchesInstructionTable 0x8128 = false ∧
      ((Opcode.decode 0x8128).category = 0x0 →
        (Opcode.decode 0x8128).nn ≠ 0xE0 ∧ (Opcode.decode 0x8128).nn ≠ 0xEE) ∧
      (Opcode.decode 0x8128).category ≠ 0x5 ∧ (Opcode.decode 0x8128).category ≠ 0x9) ∧
    InstructionSet.execute (Opcode.decode 0x8128) (machineWith 0x8128)
      = { machineWith 0x8128 with
          registers := { (machineWith 0x8128).registers with PC := 0x202 } } :=
  ⟨⟨by decide, by decide, by decide, by decide⟩,
    unrecognized_word_advances 0x8128 (machineWith 0x8128)
      (by decide) (by decide) (by decide) (by decide)⟩

/-! ## Arithmetic instructions -/

/-- The flag index 0xF is its own 4-bit mask. -/
theorem setV_F (r : Registers) (v : U8) :
    r.setV 0xF v = { r with V := Function.update r.V 15 v } := rfl

/-- The state after 8xy4: the flag is written first, then the result. -/
theorem execute_8xy4 (w : U16) (s : Chip8)
    (hc : (Opcode.decode w).category = 0x8) (hn : (Opcode.decode w).n = 0x4) :
    InstructionSet.execute (Opcode.decode w) s
      = { s with registers := { s.registers with
            V := Function.update
              (Function.update s.registers.V 15
                (if (s.registers.V (Opcode.decode w).x.val).val
                    + (s.registers.V (Opcode.decode w).y.val).val > 255 then 1 else 0))
              (Opcode.decode w).x.val
              (toU8 ((s.registers.V (Opcode.decode w).x.val).val
                + (s.registers.V (Opcode.decode w).y.val).val))
            PC := toU16 (s.registers.PC.val + 2) } } := by
  have hx := (s.registers.V (Opcode.decode w).x.val).isLt
  have hy := (s.registers.V (Opcode.decode w).y.val).isLt
  have hnv : (Opcode.decode w).n.val = 0x4 := by rw [hn]; rfl
  have hsum : ((s.registers.V (Opcode.decode w).x.val).val
      + (s.registers.V (Opcode.decode w).y.val).val) % 65536
      = (s.registers.V (Opcode.decode w).x.val).val
        + (s.registers.V (Opcode.decode w).y.val).val := by omega
  have hres : toU8 (((s.registers.V (Opcode.decode w).x.val).val
      + (s.registers.V (Opcode.decode w).y.val).val) % 256)
      = toU8 ((s.registers.V (Opcode.decode w).x.val).val
        + (s.registers.V (Opcode.decode w).y.val).val) := by
    apply Fin.ext
    simp only [toU8_val]
    omega
  rw [execute_cat8 w s hc]
  simp only [InstructionSet.execute8xxx, hnv, getV_decode_x, getV_decode_y, setV_F,
    setV_decode_x, Registers.incrementPC, toU16_val, and_00FF, hsum, hres]
  simp

/-- Claim C7. After 8xy4, `V[x]` holds `(old V[x] + old V[y]) mod 256`; when
`x != 0xF`, VF holds 1 if `old V[x] + old V[y] > 255` and 0 otherwise, so that
`V[x]' + 256*VF' = old V[x] + old V[y]`; every V register other than `V[x]`
and VF is unchanged, and PC advances by 2. -/
theorem add_with_carry (w : U16) (s : Chip8)
    (hc : (Opcode.decode w).category = 0x8) (hn : (Opcode.decode w).n = 0x4) :
    let op := Opcode.decode w
    let vx := (s.registers.V op.x.val).val
    let vy := (s.registers.V op.y.val).val
    let s1 := InstructionSet.execute op s
    (s1.registers.V op.x.val).val = (vx + vy) % 256 ∧
    (op.x ≠ 0xF →
      (s1.registers.V 0xF).val = (if vx + vy > 255 then 1 else 0) ∧
      (s1.registers.V op.x.val).val + 256 * (s1.registers.V 0xF).val = vx + vy) ∧
    (∀ j : Nat, j ≠ op.x.val → j ≠ 0xF → s1.registers.V j = s.registers.V j) ∧
    s1.registers.PC.val = (s.registers.PC.val + 2) % 65536 := by
  intro op vx vy s1
  have e : s1 = _ := execute_8xy4 w s hc hn
  have hx := (s.registers.V (Opcode.decode w).x.val).isLt
  have hy := (s.registers.V (Opcode.decode w).y.val).isLt
  have h1 : (s1.registers.V op.x.val).val = (vx + vy) % 256 := by
    rw [e]
    simp [op, vx, vy]
  refine ⟨h1, ?_, ?_, ?_⟩
  · intro hxF
    have hne : (15 : Nat) ≠ (Opcode.decode w).x.val := fun h => hxF (Fin.ext h.symm)
    have h2 : (s1.registers.V 0xF).val = (if vx + vy > 255 then 1 else 0) := by
      rw [e]
      simp only [Function.update_noteq hne, Function.update_same, vx, vy, op]
      split <;> rfl
    refine ⟨h2, ?_⟩
    rw [h1, h2]
    have hx' : vx < 256 := hx
    have hy' : vy < 256 := hy
    split <;> omega
  · intro j hj hjF
    rw [e]
    simp only [Function.update_noteq hj, Function.update_noteq hjF, op]
  · rw [e]
    rfl

theorem add_with_carry_witness :
    ((Opcode.decode 0x8014).category = 0x8 ∧ (Opcode.decode 0x8014).n = 0x4) ∧
    ((InstructionSet.execute (Opcode.decode 0x8014)
        { machineWith 0x8014 with
          registers := (Registers.new.setV 0 0xFF).setV 1 0x01 }).registers.V 0).val
      = (0xFF + 0x01) % 256 :=
  ⟨⟨by decide, by decide⟩,
    (add_with_carry 0x8014
      { machineWith 0x8014 with registers := (Registers.new.setV 0 0xFF).setV 1 0x01 }
      (by decide) (by decide)).1⟩

/-- The state after 8xy5: the flag is written first, then the difference. -/
theorem execute_8xy5 (w : U16) (s : Chip8)
    (hc : (Opcode.decode w).category = 0x8) (hn : (Opcode.decode w).n = 0x5) :
    InstructionSet.execute (Opcode.decode w) s
      = { s with registers := { s.registers with
            V := Function.update
              (Function.update s.registers.V 15
                (if (s.registers.V (Opcode.decode w).x.val).val
                    > (s.registers.V (Opcode.decode w).y.val).val then 1 else 0))
              (Opcode.decode w).x.val
              (intToU8 (((s.registers.V (Opcode.decode w).x.val).val : Int)
                - ((s.registers.V (Opcode.decode w).y.val).val : Int)))
            PC := toU16 (s.registers.PC.val + 2) } } := by
  have hnv : (Opcode.decode w).n.val = 0x5 := by rw [hn]; rfl
  rw [execute_cat8 w s hc]
  simp only [InstructionSet.execute8xxx, hnv, getV_decode_x, getV_decode_y, setV_F,
    setV_decode_x, Registers.incrementPC]
  simp

/-- The state after 8xy7: the flag is written first, then the difference. -/
theorem execute_8xy7 (w : U16) (s : Chip8)
    (hc : (Opcode.decode w).category = 0x8) (hn : (Opcode.decode w).n = 0x7) :
    InstructionSet.execute (Opcode.decode w) s
      = { s with registers := { s.registers with
            V := Function.update
              (Function.update s.registers.V 15
                (if (s.registers.V (Opcode.decode w).y.val).val
                    > (s.registers.V (Opcode.decode w).x.val).val then 1 else 0))
              (Opcode.decode w).x.val
              (intToU8 (((s.registers.V (Opcode.decode w).y.val).val : Int)
                - ((s.registers.V (Opcode.decode w).x.val).val : Int)))
            PC := toU16 (s.registers.PC.val + 2) } } := by
  have hnv : (Opcode.decode w).n.val = 0x7 := by rw [hn]; rfl
  rw [execute_cat8 w s hc]
  simp only [InstructionSet.execute8xxx, hnv, getV_decode_x, getV_decode_y, setV_F,
    setV_decode_x, Registers.incrementPC]
  simp

/-- Claim C8. For `x != 0xF`: after 8xy5, `V[x]` holds
`(old V[x] - old V[y]) mod 256` and VF holds 1 if `old V[x] > old V[y]`
strictly and 0 otherwise, so VF is 0 when the two are equal; 8xy7 mirrors it
with `V[x] = (old V[y] - old V[x]) mod 256` and VF = 1 iff
`old V[y] > old V[x]`. -/
theorem sub_with_borrow (w : U16) (s : Chip8)
    (hc : (Opcode.decode w).category = 0x8) (hxF : (Opcode.decode w).x ≠ 0xF) :
    let op := Opcode.decode w
    let vx := (s.registers.V op.x.val).val
    let vy := (s.registers.V op.y.val).val
    let s1 := InstructionSet.execute op s
    (op.n = 0x5 →
      ((s1.registers.V op.x.val).val : Int) = ((vx : Int) - (vy : Int)) % 256 ∧
      (s1.registers.V 0xF).val = (if vx > vy then 1 else 0) ∧
      (vx = vy → (s1.registers.V 0xF).val = 0)) ∧
    (op.n = 0x7 →
      ((s1.registers.V op.x.val).val : Int) = ((vy : Int) - (vx : Int)) % 256 ∧
      (s1.registers.V 0xF).val = (if vy > vx then 1 else 0) ∧
      (vx = vy → (s1.registers.V 0xF).val = 0)) := by
  intro op vx vy s1
  have hne : (15 : Nat) ≠ (Opcode.decode w).x.val := fun h => hxF (Fin.ext h.symm)
  constructor
  · intro hn
    have e : s1 = _ := execute_8xy5 w s hc hn
    have h2 : (s1.registers.V 0xF).val = (if vx > vy then 1 else 0) := by
      rw [e]
      simp only [Function.update_noteq hne, Function.update_same, vx, vy, op]
      split <;> rfl
    refine ⟨?_, h2, ?_⟩
    · rw [e]
      simp only [Function.update_same, intToU8_val, vx, vy, op]
      omega
    · intro heq
      rw [h2, if_neg (by omega)]
  · intro hn
    have e : s1 = _ := execute_8xy7 w s hc hn
    have h2 : (s1.registers.V 0xF).val = (if vy > vx then 1 else 0) := by
      rw [e]
      simp only [Function.update_noteq hne, Function.update_same, vx, vy, op]
      split <;> rfl
    refine ⟨?_, h2, ?_⟩
    · rw [e]
      simp only [Function.update_same, intToU8_val, vx, vy, op]
      omega
    · intro heq
      rw [h2, if_neg (by omega)]

theorem sub_with_borrow_witness :
    ((Opcode.decode 0x8015).category = 0x8 ∧ (Opcode.decode 0x8015).x ≠ 0xF ∧
      (Opcode.decode 0x8015).n = 0x5) ∧
    (((InstructionSet.execute (Opcode.decode 0x8015)
        { machineWith 0x8015 with
          registers := (Registers.new.setV 0 0x10).setV 1 0x20 }).registers.V 0).val : Int)
      = ((0x10 : Int) - (0x20 : Int)) % 256 ∧
    ((InstructionSet.execute (Opcode.decode 0x8015)
        { machineWith 0x8015 with
          registers := (Registers.new.setV 0 0x10).setV 1 0x20 }).registers.V 0xF).val = 0 :=
  ⟨⟨by decide, by decide, by decide⟩,
    ((sub_with_borrow 0x8015
      { machineWith 0x8015 with registers := (Registers.new.setV 0 0x10).setV 1 0x20 }
      (by decide) (by decide)).1 (by decide)).1,
    ((sub_with_borrow 0x8015
      { machineWith 0x8015 with registers := (Registers.new.setV 0 0x10).setV 1 0x20 }
      (by decide) (by decide)).1 (by decide)).2.1⟩

/-- Claim C9. Executing 7xnn sets `V[x]` to `(old V[x] + nn) mod 256` and
advances PC by 2; every other V register (so VF too when `x != 0xF`), I, the
timers, the stack, memory, the display and the keys are unchanged. -/
theorem add_immediate (w : U16) (s : Chip8) (hc : (Opcode.decode w).category = 0x7) :
    let op := Opcode.decode w
    let vx := (s.registers.V op.x.val).val
    let s1 := InstructionSet.execute op s
    s1 = { s with registers := { s.registers with
            V := Function.update s.registers.V op.x.val (toU8 (vx + op.nn.val))
            PC := toU16 (s.registers.PC.val + 2) } } ∧
    (s1.registers.V op.x.val).val = (vx + op.nn.val) % 256 ∧
    (∀ j : Nat, j ≠ op.x.val → s1.registers.V j = s.registers.V j) ∧
    (op.x ≠ 0xF → s1.registers.V 0xF = s.registers.V 0xF) ∧
    s1.registers.PC.val = (s.registers.PC.val + 2) % 65536 := by
  intro op vx s1
  have hs : _ = 0x7000 := switch_of_category w 0x7 hc
  have e : s1 = { s with registers := { s.registers with
            V := Function.update s.registers.V op.x.val (toU8 (vx + op.nn.val))
            PC := toU16 (s.registers.PC.val + 2) } } := by
    simp [s1, op, vx, InstructionSet.execute, hs, getV_decode_x, setV_decode_x,
      Registers.incrementPC]
  refine ⟨e, ?_, ?_, ?_, ?_⟩
  · rw [e]
    simp
  · intro j hj
    rw [e]
    simp only [Function.update_noteq hj]
  · intro hxF
    have hne : (15 : Nat) ≠ op.x.val := fun h => hxF (Fin.ext h.symm)
    rw [e]
    exact Function.update_noteq hne _ _
  · rw [e]
    rfl

theorem add_immediate_witness :
    (Opcode.decode 0x7301).category = 0x7 ∧
    ((InstructionSet.execute (Opcode.decode 0x7301)
        (machineWithV 0x7301 3 0xFF)).registers.V 3).val = (0xFF + 0x01) % 256 ∧
    (InstructionSet.execute (Opcode.decode 0x7301)
        (machineWithV 0x7301 3 0xFF)).registers.V 0xF
      = (machineWithV 0x7301 3 0xFF).registers.V 0xF :=
  ⟨by decide,
    (add_immediate 0x7301 (machineWithV 0x7301 3 0xFF) (by decide)).2.1,
    (add_immediate 0x7301 (machineWithV 0x7301 3 0xFF) (by decide)).2.2.2.1 (by decide)⟩

/-- The state after 8xy6: the flag is written first, then the shifted value. -/
theorem execute_8xy6 (w : U16) (s : Chip8)
    (hc : (Opcode.decode w).category = 0x8) (hn : (Opcode.decode w).n = 0x6) :
    InstructionSet.execute (Opcode.decode w) s
      = { s with registers := { s.registers with
            V := Function.update
              (Function.update s.registers.V 15
                (toU8 ((s.registers.V (Opcode.decode w).x.val).val % 2)))
              (Opcode.decode w).x.val
              (toU8 ((s.registers.V (Opcode.decode w).x.val).val / 2))
            PC := toU16 (s.registers.PC.val + 2) } } := by
  have hnv : (Opcode.decode w).n.val = 0x6 := by rw [hn]; rfl
  rw [execute_cat8 w s hc]
  simp only [InstructionSet.execute8xxx, hnv, getV_decode_x, setV_F,
    setV_decode_x, Registers.incrementPC, and_1, Nat.shiftRight_eq_div_pow]
  simp

/-- The state after 8xyE: the flag is written first, then the shifted value. -/
theorem execute_8xyE (w : U16) (s : Chip8)
    (hc : (Opcode.decode w).category = 0x8) (hn : (Opcode.decode w).n = 0xE) :
    InstructionSet.execute (Opcode.decode w) s
      = { s with registers := { s.registers with
            V := Function.update
              (Function.update s.registers.V 15
                (toU8 ((s.registers.V (Opcode.decode w).x.val).val / 128 % 2)))
              (Opcode.decode w).x.val
              (toU8 ((s.registers.V (Opcode.decode w).x.val).val * 2))
            PC := toU16 (s.registers.PC.val + 2) } } := by
  have hnv : (Opcode.decode w).n.val = 0xE := by rw [hn]; rfl
  rw [execute_cat8 w s hc]
  simp only [InstructionSet.execute8xxx, hnv, getV_decode_x, setV_F,
    setV_decode_x, Registers.incrementPC, and_80_shift, Nat.shiftLeft_eq]
  simp

/-- Claim C10. The shifts lose no bit: for `x != 0xF` (whatever `y` is),
after 8xy6 `old V[x] = 2*V[x]' + VF'` and after 8xyE
`2*old V[x] = 256*VF' + V[x]'`, with `VF'` in {0, 1} in both cases. -/
theorem shifts_lose_no_bit (w : U16) (s : Chip8)
    (hc : (Opcode.decode w).category = 0x8) (hxF : (Opcode.decode w).x ≠ 0xF) :
    let op := Opcode.decode w
    let vx := (s.registers.V op.x.val).val
    let s1 := InstructionSet.execute op s
    (op.n = 0x6 →
      vx = 2 * (s1.registers.V op.x.val).val + (s1.registers.V 0xF).val ∧
      ((s1.registers.V 0xF).val = 0 ∨ (s1.registers.V 0xF).val = 1)) ∧
    (op.n = 0xE →
      2 * vx = 256 * (s1.registers.V 0xF).val + (s1.registers.V op.x.val).val ∧
      ((s1.registers.V 0xF).val = 0 ∨ (s1.registers.V 0xF).val = 1)) := by
  intro op vx s1
  have hne : (15 : Nat) ≠ (Opcode.decode w).x.val := fun h => hxF (Fin.ext h.symm)
  have hx : vx < 256 := (s.registers.V (Opcode.decode w).x.val).isLt
  constructor
  · intro hn
    have e : s1 = _ := execute_8xy6 w s hc hn
    have h1 : (s1.registers.V op.x.val).val = vx / 2 % 256 := by
      rw [e]
      simp [op, vx]
    have h2 : (s1.registers.V 0xF).val = vx % 2 % 256 := by
      rw [e]
      simp only [Function.update_noteq hne, Function.update_same, toU8_val, vx, op]
    rw [h1, h2]
    omega
  · intro hn
    have e : s1 = _ := execute_8xyE w s hc hn
    have h1 : (s1.registers.V op.x.val).val = vx * 2 % 256 := by
      rw [e]
      simp [op, vx]
    have h2 : (s1.registers.V 0xF).val = vx / 128 % 2 % 256 := by
      rw [e]
      simp only [Function.update_noteq hne, Function.update_same, toU8_val, vx, op]
    rw [h1, h2]
    omega

theorem shifts_lose_no_bit_witness :
    ((Opcode.decode 0x8306).category = 0x8 ∧ (Opcode.decode 0x8306).x ≠ 0xF ∧
      (Opcode.decode 0x8306).n = 0x6 ∧
      0x85 = 2 * ((InstructionSet.execute (Opcode.decode 0x8306)
          (machineWithV 0x8306 3 0x85)).registers.V 3).val
        + ((InstructionSet.execute (Opcode.decode 0x8306)
          (machineWithV 0x8306 3 0x85)).registers.V 0xF).val) ∧
    ((Opcode.decode 0x830E).category = 0x8 ∧ (Opcode.decode 0x830E).x ≠ 0xF ∧
      (Opcode.decode 0x830E).n = 0xE ∧
      2 * 0x85 = 256 * ((InstructionSet.execute (Opcode.decode 0x830E)
          (machineWithV 0x830E 3 0x85)).registers.V 0xF).val
        + ((InstructionSet.execute (Opcode.decode 0x830E)
          (machineWithV 0x830E 3 0x85)).registers.V 3).val) :=
  ⟨⟨by decide, by decide, by decide,
      ((shifts_lose_no_bit 0x8306 (machineWithV 0x8306 3 0x85) (by decide) (by decide)).1
        (by decide)).1⟩,
    ⟨by decide, by decide, by decide,
      ((shifts_lose_no_bit 0x830E (machineWithV 0x830E 3 0x85) (by decide) (by decide)).2
        (by decide)).1⟩⟩

/-! ## The display -/

theorem pixelIndex_eq (x y : U8) (row col : Nat) :
    Display.pixelIndex x y row col = ((y.val + row) % 32) * 64 + (x.val + col) % 64 := by
  simp only [Display.pixelIndex, toU16_val, WIDTH, HEIGHT]
  omega

theorem pixelIndex_lt (x y : U8) (row col : Nat) : Display.pixelIndex x y row col < 2048 := by
  rw [pixelIndex_eq]
  omega

theorem drawPixel_eq (x y : U8) (spriteData : U8) (row col : Nat) (acc : (Nat → U8) × Bool) :
    Display.drawPixel x y spriteData row col acc
      = if spriteData.val &&& (0x80 >>> col) ≠ 0 then
          Display.togglePixel acc (Display.pixelIndex x y row col)
        else acc := rfl

/-- The inner loop of `drawSprite` toggles the cells of the row's set bits. -/
theorem foldl_drawPixel (x y : U8) (sprite : Nat → U8) (row : Nat) (l : List Nat)
    (acc : (Nat → U8) × Bool) :
    l.foldl (fun a col => Display.drawPixel x y (sprite row) row col a) acc
      = (l.filterMap fun col =>
          if (sprite row).val &&& (0x80 >>> col) ≠ 0 then
            some (Display.pixelIndex x y row col)
          else none).foldl Display.togglePixel acc := by
  induction l generalizing acc with
  | nil => rfl
  | cons col l ih =>
    rw [List.foldl_cons, ih, drawPixel_eq]
    by_cases hb : (sprite row).val &&& (0x80 >>> col) ≠ 0
    · simp [List.filterMap_cons, hb]
    · simp [List.filterMap_cons, hb]

theorem drawRow_eq (x y : U8) (sprite : Nat → U8) (acc : (Nat → U8) × Bool) (row : Nat) :
    Display.drawRow x y sprite acc row
      = (Display.rowHits x y sprite row).foldl Display.togglePixel acc :=
  foldl_drawPixel x y sprite row (List.range 8) acc

/-- The two loops of `drawSprite` toggle the visited cells one after another. -/
theorem foldl_drawRow (x y : U8) (sprite : Nat → U8) (rows : List Nat)
    (acc : (Nat → U8) × Bool) :
    rows.foldl (Display.drawRow x y sprite) acc
      = (rows.flatMap (Display.rowHits x y sprite)).foldl Display.togglePixel acc := by
  induction rows generalizing acc with
  | nil => rfl
  | cons row rows ih =>
    rw [List.foldl_cons, ih, List.flatMap_cons, List.foldl_append, drawRow_eq]

theorem drawSprite_eq (d : Display) (x y : U8) (sprite : Nat → U8) (height : U8) :
    d.drawSprite x y sprite height
      = ({ pixels := ((Display.spriteHits (toU8 (x.val % 64)) (toU8 (y.val % 32)) sprite
              height.val).foldl Display.togglePixel (d.pixels, false)).1
           needsRedraw := true },
         ((Display.spriteHits (toU8 (x.val % 64)) (toU8 (y.val % 32)) sprite
              height.val).foldl Display.togglePixel (d.pixels, false)).2) := by
  simp only [Display.drawSprite, foldl_drawRow, Display.spriteHits, WIDTH, HEIGHT]

/-- XOR with 1 on a byte. -/
theorem toggle_val (v : U8) : (toU8 (v.val ^^^ 1)).val = v.val ^^^ 1 := by
  have h : v.val ^^^ 1 < 2 ^ 8 := Nat.xor_lt_two_pow v.isLt (by decide)
  simp only [toU8_val]
  omega

theorem toggle_toggle (v : U8) : toU8 ((toU8 (v.val ^^^ 1)).val ^^^ 1) = v := by
  apply Fin.ext
  rw [toggle_val, toggle_val, Nat.xor_assoc, Nat.xor_self, Nat.xor_zero]

/-- A cell that is not visited keeps its value. -/
theorem foldl_toggle_not_mem (l : List Nat) (acc : (Nat → U8) × Bool) (i : Nat)
    (hi : i ∉ l) : (l.foldl Display.togglePixel acc).1 i = acc.1 i := by
  induction l generalizing acc with
  | nil => rfl
  | cons a l ih =>
    rw [List.foldl_cons, ih _ (fun h => hi (List.mem_cons_of_mem _ h))]
    have hne : i ≠ a := fun h => hi (h ▸ List.mem_cons_self _ _)
    simp only [Display.togglePixel, Function.update_noteq hne]

/-- A cell that is visited once is XORed with 1. -/
theorem foldl_toggle_mem (l : List Nat) (acc : (Nat → U8) × Bool) (i : Nat)
    (hl : l.Nodup) (hi : i ∈ l) :
    (l.foldl Display.togglePixel acc).1 i = toU8 ((acc.1 i).val ^^^ 1) := by
  induction l generalizing acc with
  | nil => simp at hi
  | cons a l ih =>
    rw [List.nodup_cons] at hl
    rw [List.foldl_cons]
    rcases List.mem_cons.mp hi with h | h
    · subst h
      rw [foldl_toggle_not_mem _ _ _ hl.1]
      simp only [Display.togglePixel, Function.update_same]
    · have hne : i ≠ a := fun e => hl.1 (e ▸ h)
      rw [ih _ hl.2 h]
      simp only [Display.togglePixel, Function.update_noteq hne]

/-- Visiting the same cells twice restores the framebuffer. -/
theorem foldl_toggle_twice (l : List Nat) (p : Nat → U8) (c c' : Bool) (i : Nat) :
    (l.foldl Display.togglePixel ((l.foldl Display.togglePixel (p, c)).1, c')).1 i = p i := by
  suffices h : ∀ (l : List Nat) (p : Nat → U8) (c : Bool),
      (l.foldl Display.togglePixel (p, c)).1 i
        = (fun v : U8 => toU8 (v.val ^^^ 1))^[l.count i] (p i) by
    rw [h, h, ← Function.iterate_add_apply, ← two_mul, Function.iterate_mul]
    have hid : (fun v : U8 => toU8 (v.val ^^^ 1))^[2] = id := by
      funext v
      exact toggle_toggle v
    rw [hid, Function.iterate_id]
    rfl
  intro l
  induction l with
  | nil => intro p c; rfl
  | cons a l ih =>
    intro p c
    rw [List.foldl_cons]
    show (l.foldl Display.togglePixel
      (Function.update p a (toU8 ((p a).val ^^^ 1)), if p a = 1 then true else c)).1 i = _
    rw [ih, List.count_cons]
    by_cases h : a = i
    · subst h
      simp only [Function.update_same, beq_self_eq_true, if_true,
        Function.iterate_succ_apply]
    · have hne : i ≠ a := fun e => h e.symm
      simp [Function.update_noteq hne, h]

/-- With all visited cells distinct, a collision is a visited cell holding 1. -/
theorem foldl_toggle_collision (l : List Nat) (p : Nat → U8) (c : Bool) (hl : l.Nodup) :
    (l.foldl Display.togglePixel (p, c)).2 = true ↔ c = true ∨ ∃ i ∈ l, p i = 1 := by
  induction l generalizing p c with
  | nil => simp
  | cons a l ih =>
    rw [List.nodup_cons] at hl
    rw [List.foldl_cons]
    show (l.foldl Display.togglePixel
      (Function.update p a (toU8 ((p a).val ^^^ 1)), if p a = 1 then true else c)).2 = true ↔ _
    rw [ih _ _ hl.2]
    have hupd : ∀ i ∈ l, Function.update p a (toU8 ((p a).val ^^^ 1)) i = p i := by
      intro i hi
      have hne : i ≠ a := fun e => hl.1 (by rw [← e]; exact hi)
      exact Function.update_noteq hne _ _
    constructor
    · rintro (h | ⟨i, hi, h1⟩)
      · by_cases ha : p a = 1
        · exact Or.inr ⟨a, List.mem_cons_self _ _, ha⟩
        · rw [if_neg ha] at h
          exact Or.inl h
      · rw [hupd i hi] at h1
        exact Or.inr ⟨i, List.mem_cons_of_mem _ hi, h1⟩
    · rintro (h | ⟨i, hi, h1⟩)
      · left
        split
        · rfl
        · exact h
      · rcases List.mem_cons.mp hi with e | hi'
        · subst e
          left
          rw [if_pos h1]
        · right
          exact ⟨i, hi', by rw [hupd i hi']; exact h1⟩

theorem shiftRight_80_eq_zero (col : Nat) (h : 8 ≤ col) : 0x80 >>> col = 0 := by
  rw [Nat.shiftRight_eq_div_pow]
  apply Nat.div_eq_of_lt
  calc 0x80 < 2 ^ 8 := by decide
    _ ≤ 2 ^ col := Nat.pow_le_pow_right (by decide) h

theorem mem_rowHits (x y : U8) (sprite : Nat → U8) (row i : Nat) :
    i ∈ Display.rowHits x y sprite row ↔
      ∃ col, col < 8 ∧ (sprite row).val &&& (0x80 >>> col) ≠ 0 ∧
        i = Display.pixelIndex x y row col := by
  simp only [Display.rowHits, List.mem_filterMap, List.mem_range]
  constructor
  · rintro ⟨col, hc, h⟩
    by_cases hb : (sprite row).val &&& (0x80 >>> col) ≠ 0
    · rw [if_pos hb] at h
      exact ⟨col, hc, hb, (Option.some.inj h).symm⟩
    · rw [if_neg hb] at h
      cases h
  · rintro ⟨col, hc, hb, rfl⟩
    exact ⟨col, hc, by rw [if_pos hb]⟩

theorem mem_spriteHits (x y : U8) (sprite : Nat → U8) (height i : Nat) :
    i ∈ Display.spriteHits x y sprite height ↔
      ∃ row col, row < height ∧ col < 8 ∧ (sprite row).val &&& (0x80 >>> col) ≠ 0 ∧
        i = Display.pixelIndex x y row col := by
  simp only [Display.spriteHits, List.mem_flatMap, List.mem_range, mem_rowHits]
  constructor
  · rintro ⟨row, hr, col, hc, hb, e⟩
    exact ⟨row, col, hr, hc, hb, e⟩
  · rintro ⟨row, col, hr, hc, hb, e⟩
    exact ⟨row, hr, col, hc, hb, e⟩

theorem nodup_rowHits (x y : U8) (sprite : Nat → U8) (row : Nat) :
    (Display.rowHits x y sprite row).Nodup := by
  apply List.Nodup.filterMap _ (List.nodup_range 8)
  intro a a' b hb hb'
  have key : ∀ c : Nat, b ∈ (if (sprite row).val &&& (0x80 >>> c) ≠ 0 then
      some (Display.pixelIndex x y row c) else none) →
      c < 8 ∧ b = Display.pixelIndex x y row c := by
    intro c hc
    by_cases hbit : (sprite row).val &&& (0x80 >>> c) ≠ 0
    · rw [if_pos hbit] at hc
      refine ⟨?_, (Option.some.inj hc).symm⟩
      by_contra hlt
      apply hbit
      rw [shiftRight_80_eq_zero c (by omega), Nat.and_zero]
    · rw [if_neg hbit] at hc
      cases hc
  obtain ⟨h1, e1⟩ := key a hb
  obtain ⟨h2, e2⟩ := key a' hb'
  rw [pixelIndex_eq] at e1 e2
  omega

/-- A sprite of at most 32 rows visits no cell twice. -/
theorem nodup_spriteHits (x y : U8) (sprite : Nat → U8) (height : Nat) (hh : height ≤ 32) :
    (Display.spriteHits x y sprite height).Nodup := by
  rw [Display.spriteHits, List.nodup_flatMap]
  refine ⟨fun row _ => nodup_rowHits x y sprite row, ?_⟩
  refine List.Pairwise.imp_of_mem ?_ (List.pairwise_lt_range height)
  intro a b ha hb hlt i hia hib
  rw [List.mem_range] at ha hb
  obtain ⟨c1, hc1, -, e1⟩ := (mem_rowHits x y sprite a i).mp hia
  obtain ⟨c2, hc2, -, e2⟩ := (mem_rowHits x y sprite b i).mp hib
  rw [pixelIndex_eq] at e1 e2
  omega

theorem rowHits_congr (x y : U8) (sp1 sp2 : Nat → U8) (row : Nat) (h : sp1 row = sp2 row) :
    Display.rowHits x y sp1 row = Display.rowHits x y sp2 row := by
  simp only [Display.rowHits, h]

/-- The trace of `drawSprite` depends on the rows below `height` only. -/
theorem spriteHits_congr (x y : U8) (sp1 sp2 : Nat → U8) (height : Nat)
    (h : ∀ i, i < height → sp1 i = sp2 i) :
    Display.spriteHits x y sp1 height = Display.spriteHits x y sp2 height := by
  apply List.flatMap_congr
  intro row hrow
  exact rowHits_congr x y sp1 sp2 row (h row (List.mem_range.mp hrow))

theorem drawSprite_congr (d : Display) (x y : U8) (sp1 sp2 : Nat → U8) (height : U8)
    (h : ∀ i, i < height.val → sp1 i = sp2 i) :
    d.drawSprite x y sp1 height = d.drawSprite x y sp2 height := by
  rw [drawSprite_eq, drawSprite_eq, spriteHits_congr _ _ sp1 sp2 _ h]

/-- The buffer filled by the `DXYN` loop holds `memory.read(addr + i)` at `i < n`. -/
theorem fillSprite_apply (m : Memory) (addr : U16) (n : U8) (i : Nat) (hi : i < n.val) :
    InstructionSet.fillSprite m addr n i = m.read (toU16 (addr.val + i)) := by
  unfold InstructionSet.fillSprite
  generalize n.val = k at hi
  induction k with
  | zero => omega
  | succ k ih =>
    rw [List.range_succ, List.foldl_concat]
    by_cases h : i = k
    · subst h
      simp only [Function.update_same]
    · rw [Function.update_noteq h]
      exact ih (by omega)

/-- The cell in column `cx` of row `cy` is visited exactly when a set sprite
bit lands on it. -/
theorem cell_mem_spriteHits (x y : U8) (sprite : Nat → U8) (height cx cy : Nat)
    (hcx : cx < 64) (hcy : cy < 32) :
    cy * 64 + cx ∈ Display.spriteHits (toU8 (x.val % 64)) (toU8 (y.val % 32)) sprite height ↔
      ∃ row col, row < height ∧ col < 8 ∧ (sprite row).val &&& (0x80 >>> col) ≠ 0 ∧
        cx = (x.val % 64 + col) % 64 ∧ cy = (y.val % 32 + row) % 32 := by
  rw [mem_spriteHits]
  constructor
  · rintro ⟨row, col, hr, hc, hb, e⟩
    refine ⟨row, col, hr, hc, hb, ?_⟩
    rw [pixelIndex_eq] at e
    simp only [toU8_val] at e
    omega
  · rintro ⟨row, col, hr, hc, hb, e1, e2⟩
    refine ⟨row, col, hr, hc, hb, ?_⟩
    rw [pixelIndex_eq]
    simp only [toU8_val]
    omega

/-- The state after Dxyn, in terms of the buffer the instruction fills. -/
theorem execute_Dxyn (w : U16) (s : Chip8) (hc : (Opcode.decode w).category = 0xD) :
    InstructionSet.execute (Opcode.decode w) s
      = { s with
          display := (s.display.drawSprite (s.registers.V (Opcode.decode w).x.val)
            (s.registers.V (Opcode.decode w).y.val)
            (InstructionSet.fillSprite s.memory s.registers.I (Opcode.decode w).n)
            (Opcode.decode w).n).1
          registers := { s.registers with
            V := Function.update s.registers.V 15
              (if (s.display.drawSprite (s.registers.V (Opcode.decode w).x.val)
                (s.registers.V (Opcode.decode w).y.val)
                (InstructionSet.fillSprite s.memory s.registers.I (Opcode.decode w).n)
                (Opcode.decode w).n).2 then 1 else 0)
            PC := toU16 (s.registers.PC.val + 2) } } := by
  have hs : _ = 0xD000 := switch_of_category w 0xD hc
  simp [InstructionSet.execute, hs, getV_decode_x, getV_decode_y, setV_F, Registers.getI,
    Registers.incrementPC]

/-- Claim C11. Executing Dxyn makes the display equal to `drawSprite` applied
to the old display with origin `(old V[x], old V[y])`, height `n` and any
sprite whose rows `i = 0..n-1` are `mem[(I+i) mod 4096]`; VF becomes 1 if that
draw reported a collision and 0 otherwise; I, memory and every V register
other than VF are unchanged; PC advances by 2. -/
theorem draw_instruction (w : U16) (s : Chip8) (rows : Nat → U8)
    (hc : (Opcode.decode w).category = 0xD)
    (hrows : ∀ i, i < (Opcode.decode w).n.val →
      rows i = s.memory.data ((s.registers.I.val + i) % 4096)) :
    let op := Opcode.decode w
    let res := s.display.drawSprite (s.registers.V op.x.val) (s.registers.V op.y.val) rows op.n
    let s1 := InstructionSet.execute op s
    s1 = { s with
        display := res.1
        registers := { s.registers with
          V := Function.update s.registers.V 15 (if res.2 then 1 else 0)
          PC := toU16 (s.registers.PC.val + 2) } } ∧
    s1.display = res.1 ∧
    s1.registers.V 0xF = (if res.2 then 1 else 0) ∧
    (∀ j : Nat, j ≠ 0xF → s1.registers.V j = s.registers.V j) ∧
    s1.registers.I = s.registers.I ∧ s1.memory = s.memory ∧
    s1.registers.PC.val = (s.registers.PC.val + 2) % 65536 := by
  intro op res s1
  have hcongr : s.display.drawSprite (s.registers.V op.x.val) (s.registers.V op.y.val)
      (InstructionSet.fillSprite s.memory s.registers.I op.n) op.n = res := by
    apply drawSprite_congr
    intro i hi
    rw [fillSprite_apply _ _ _ _ hi, hrows i hi, memory_read_eq, toU16_val]
    congr 1
    omega
  have e : s1 = { s with
        display := res.1
        registers := { s.registers with
          V := Function.update s.registers.V 15 (if res.2 then 1 else 0)
          PC := toU16 (s.registers.PC.val + 2) } } := by
    rw [← hcongr]
    exact execute_Dxyn w s hc
  refine ⟨e, ?_, ?_, ?_, ?_, ?_, ?_⟩
  · rw [e]
  · rw [e]
    simp only [Function.update_same]
  · intro j hj
    rw [e]
    simp only [Function.update_noteq hj]
  · rw [e]
  · rw [e]
  · rw [e]
    rfl

theorem draw_instruction_witness :
    ((Opcode.decode 0xD015).category = 0xD ∧
      ∀ i, i < (Opcode.decode 0xD015).n.val →
        (fun i => (machineWith 0xD015).memory.data
            (((machineWith 0xD015).registers.I.val + i) % 4096)) i
          = (machineWith 0xD015).memory.data
            (((machineWith 0xD015).registers.I.val + i) % 4096)) ∧
    (InstructionSet.execute (Opcode.decode 0xD015) (machineWith 0xD015)).registers.PC.val
      = (0x200 + 2) % 65536 :=
  ⟨⟨by decide, fun _ _ => rfl⟩,
    (draw_instruction 0xD015 (machineWith 0xD015)
      (fun i => (machineWith 0xD015).memory.data
        (((machineWith 0xD015).registers.I.val + i) % 4096))
      (by decide) (fun _ _ => rfl)).2.2.2.2.2.2⟩

/-- The pixel array after `drawSprite`: the visited cells toggled in order. -/
theorem drawSprite_pixels (d : Display) (x y : U8) (sprite : Nat → U8) (height : U8) :
    (d.drawSprite x y sprite height).1.pixels
      = ((Display.spriteHits (toU8 (x.val % 64)) (toU8 (y.val % 32)) sprite
          height.val).foldl Display.togglePixel (d.pixels, false)).1 := by
  rw [drawSprite_eq]

/-- The collision flag after `drawSprite`. -/
theorem drawSprite_flag (d : Display) (x y : U8) (sprite : Nat → U8) (height : U8) :
    (d.drawSprite x y sprite height).2
      = ((Display.spriteHits (toU8 (x.val % 64)) (toU8 (y.val % 32)) sprite
          height.val).foldl Display.togglePixel (d.pixels, false)).2 := by
  rw [drawSprite_eq]

/-- The effect of `drawSprite` with at most 32 rows on the cell in column `cx`
of row `cy`. -/
theorem drawSprite_cell (d : Display) (x y : U8) (sprite : Nat → U8) (h : U8)
    (hh : h.val ≤ 32) (cx cy : Nat) (hcx : cx < 64) (hcy : cy < 32) :
    ((∃ row col, row < h.val ∧ col < 8 ∧ (sprite row).val &&& (0x80 >>> col) ≠ 0 ∧
        cx = (x.val % 64 + col) % 64 ∧ cy = (y.val % 32 + row) % 32) →
      ((d.drawSprite x y sprite h).1.pixels (cy * 64 + cx)).val
        = (d.pixels (cy * 64 + cx)).val ^^^ 1) ∧
    ((¬ ∃ row col, row < h.val ∧ col < 8 ∧ (sprite row).val &&& (0x80 >>> col) ≠ 0 ∧
        cx = (x.val % 64 + col) % 64 ∧ cy = (y.val % 32 + row) % 32) →
      (d.drawSprite x y sprite h).1.pixels (cy * 64 + cx) = d.pixels (cy * 64 + cx)) := by
  rw [drawSprite_pixels, ← cell_mem_spriteHits x y sprite h.val cx cy hcx hcy]
  constructor
  · intro hm
    rw [foldl_toggle_mem _ _ _ (nodup_spriteHits _ _ _ _ hh) hm, toggle_val]
  · intro hm
    rw [foldl_toggle_not_mem _ _ _ hm]

/-- Claim C12. For a sprite of `h <= 32` rows drawn at an 8-bit origin
`(x, y)`, the cell in column `cx` of row `cy` is XORed with 1 exactly when
some `row < h` and `col < 8` have bit `0x80 >> col` of `sprite[row]` set,
`cx = ((x mod 64) + col) mod 64` and `cy = ((y mod 32) + row) mod 32`; every
other cell is unchanged. In particular a row byte 0xFF drawn at origin
`x = 63` toggles column 63 and columns 0..6 of its row and no other column
of that row. -/
theorem drawSprite_toggles (d : Display) (x y : U8) (sprite : Nat → U8) (h : U8)
    (hh : h.val ≤ 32) :
    (∀ cx cy : Nat, cx < 64 → cy < 32 →
      ((∃ row col, row < h.val ∧ col < 8 ∧ (sprite row).val &&& (0x80 >>> col) ≠ 0 ∧
          cx = (x.val % 64 + col) % 64 ∧ cy = (y.val % 32 + row) % 32) →
        ((d.drawSprite x y sprite h).1.pixels (cy * 64 + cx)).val
          = (d.pixels (cy * 64 + cx)).val ^^^ 1) ∧
      ((¬ ∃ row col, row < h.val ∧ col < 8 ∧ (sprite row).val &&& (0x80 >>> col) ≠ 0 ∧
          cx = (x.val % 64 + col) % 64 ∧ cy = (y.val % 32 + row) % 32) →
        (d.drawSprite x y sprite h).1.pixels (cy * 64 + cx) = d.pixels (cy * 64 + cx))) ∧
    (∀ row : Nat, row < h.val → sprite row = 0xFF → x = 63 → ∀ cx : Nat, cx < 64 →
      ((cx = 63 ∨ cx ≤ 6) →
        ((d.drawSprite x y sprite h).1.pixels ((y.val % 32 + row) % 32 * 64 + cx)).val
          = (d.pixels ((y.val % 32 + row) % 32 * 64 + cx)).val ^^^ 1) ∧
      (¬ (cx = 63 ∨ cx ≤ 6) →
        (d.drawSprite x y sprite h).1.pixels ((y.val % 32 + row) % 32 * 64 + cx)
          = d.pixels ((y.val % 32 + row) % 32 * 64 + cx))) := by
  refine ⟨fun cx cy hcx hcy => drawSprite_cell d x y sprite h hh cx cy hcx hcy, ?_⟩
  intro row hrow hFF hx cx hcx
  have hcy : (y.val % 32 + row) % 32 < 32 := Nat.mod_lt _ (by decide)
  have hcell := drawSprite_cell d x y sprite h hh cx _ hcx hcy
  have hxv : x.val = 63 := by rw [hx]; rfl
  have hbits : ∀ col : Nat, col < 8 → 0xFF &&& (0x80 >>> col) ≠ 0 := by decide
  constructor
  · intro hc
    apply hcell.1
    refine ⟨row, (cx + 1) % 64, hrow, by omega, ?_, by omega, rfl⟩
    rw [hFF]
    exact hbits _ (by omega)
  · intro hc
    apply hcell.2
    rintro ⟨row2, col, hr2, hcol, -, e1, e2⟩
    omega

theorem drawSprite_toggles_witness :
    ((1 : U8).val ≤ 32 ∧ (0 : Nat) < (1 : U8).val) ∧
    ((Display.new.drawSprite 63 0 (fun _ => 0xFF) 1).1.pixels 63).val = 1 ∧
    ((Display.new.drawSprite 63 0 (fun _ => 0xFF) 1).1.pixels 0).val = 1 ∧
    (Display.new.drawSprite 63 0 (fun _ => 0xFF) 1).1.pixels 7 = 0 :=
  ⟨⟨by decide, by decide⟩,
    ((drawSprite_toggles Display.new 63 0 (fun _ => 0xFF) 1 (by decide)).2
      0 (by decide) rfl rfl 63 (by decide)).1 (Or.inl rfl),
    ((drawSprite_toggles Display.new 63 0 (fun _ => 0xFF) 1 (by decide)).2
      0 (by decide) rfl rfl 0 (by decide)).1 (Or.inr (by decide)),
    ((drawSprite_toggles Display.new 63 0 (fun _ => 0xFF) 1 (by decide)).2
      0 (by decide) rfl rfl 7 (by decide)).2 (by decide)⟩

/-- Claim C13. On every framebuffer (so also on one whose cells are all 0 or
1), `drawSprite` with `h <= 32` rows returns true if and only if some set
sprite bit lands on a cell that held 1 before the call, that is, if and only
if the draw turned some already-set cell off; it returns false for `h = 0`
and for an all-zero sprite. -/
theorem drawSprite_collision (d : Display) (x y : U8) (sprite : Nat → U8) (h : U8)
    (hh : h.val ≤ 32) :
    ((d.drawSprite x y sprite h).2 = true ↔
      ∃ row col, row < h.val ∧ col < 8 ∧ (sprite row).val &&& (0x80 >>> col) ≠ 0 ∧
        d.pixels ((y.val % 32 + row) % 32 * 64 + (x.val % 64 + col) % 64) = 1) ∧
    ((d.drawSprite x y sprite h).2 = true ↔
      ∃ i : Nat, i < 2048 ∧ d.pixels i = 1 ∧ (d.drawSprite x y sprite h).1.pixels i = 0) ∧
    (h.val = 0 → (d.drawSprite x y sprite h).2 = false) ∧
    ((∀ row : Nat, row < h.val → sprite row = 0) → (d.drawSprite x y sprite h).2 = false) := by
  have hnd := nodup_spriteHits (toU8 (x.val % 64)) (toU8 (y.val % 32)) sprite h.val hh
  have hidx : ∀ row col : Nat,
      Display.pixelIndex (toU8 (x.val % 64)) (toU8 (y.val % 32)) row col
        = (y.val % 32 + row) % 32 * 64 + (x.val % 64 + col) % 64 := by
    intro row col
    rw [pixelIndex_eq]
    simp only [toU8_val]
    omega
  have hA : (d.drawSprite x y sprite h).2 = true ↔
      ∃ row col, row < h.val ∧ col < 8 ∧ (sprite row).val &&& (0x80 >>> col) ≠ 0 ∧
        d.pixels ((y.val % 32 + row) % 32 * 64 + (x.val % 64 + col) % 64) = 1 := by
    rw [drawSprite_flag, foldl_toggle_collision _ _ _ hnd]
    constructor
    · rintro (hf | ⟨i, hi, h1⟩)
      · cases hf
      · obtain ⟨row, col, hr, hc, hb, e⟩ := (mem_spriteHits _ _ _ _ _).mp hi
        rw [hidx] at e
        exact ⟨row, col, hr, hc, hb, e ▸ h1⟩
    · rintro ⟨row, col, hr, hc, hb, h1⟩
      right
      refine ⟨_, (mem_spriteHits _ _ _ _ _).mpr ⟨row, col, hr, hc, hb, rfl⟩, ?_⟩
      rw [hidx]
      exact h1
  refine ⟨hA, ?_, ?_, ?_⟩
  · rw [drawSprite_flag, foldl_toggle_collision _ _ _ hnd, drawSprite_pixels]
    constructor
    · rintro (hf | ⟨i, hi, h1⟩)
      · cases hf
      · refine ⟨i, ?_, h1, ?_⟩
        · obtain ⟨row, col, -, -, -, e⟩ := (mem_spriteHits _ _ _ _ _).mp hi
          rw [e]
          exact pixelIndex_lt _ _ _ _
        · rw [foldl_toggle_mem _ _ _ hnd hi]
          show toU8 ((d.pixels i).val ^^^ 1) = 0
          rw [h1]
          rfl
    · rintro ⟨i, -, h1, h0⟩
      right
      refine ⟨i, ?_, h1⟩
      by_contra hni
      rw [foldl_toggle_not_mem _ _ _ hni] at h0
      rw [show (d.pixels, false).1 i = d.pixels i from rfl, h1] at h0
      exact absurd h0 (by decide)
  · intro h0
    cases hb : (d.drawSprite x y sprite h).2 with
    | false => rfl
    | true =>
      obtain ⟨row, col, hr, -⟩ := hA.mp hb
      omega
  · intro hz
    cases hb : (d.drawSprite x y sprite h).2 with
    | false => rfl
    | true =>
      obtain ⟨row, col, hr, -, hbit, -⟩ := hA.mp hb
      rw [hz row hr] at hbit
      exact absurd (Nat.zero_and _) hbit

theorem drawSprite_collision_witness :
    ((1 : U8).val ≤ 32 ∧ ∀ row : Nat, row < (1 : U8).val → (fun _ : Nat => (0 : U8)) row = 0) ∧
    (Display.new.drawSprite 0 0 (fun _ => 0) 1).2 = false :=
  ⟨⟨by decide, fun _ _ => rfl⟩,
    (drawSprite_collision Display.new 0 0 (fun _ => 0) 1 (by decide)).2.2.2 (fun _ _ => rfl)⟩

set_option maxRecDepth 100000 in
/-- A non-zero byte has one of its eight bits set. -/
theorem byte_has_set_bit :
    ∀ v : Fin 256, v ≠ 0 → ∃ col : Fin 8, v.val &&& (0x80 >>> col.val) ≠ 0 := by
  decide

/-- Claim C14. Drawing is an XOR involution: `drawSprite` called twice with
the same arguments (any height 0..255) restores every cell; and on a display
whose cells are all 0, with height `h <= 32` and a sprite with a set bit in
one of its `h` rows, the first draw reports no collision, the second reports
a collision and leaves every cell 0. -/
theorem drawSprite_involution (d : Display) (x y : U8) (sprite : Nat → U8) (h : U8) :
    (∀ i : Nat, ((d.drawSprite x y sprite h).1.drawSprite x y sprite h).1.pixels i
        = d.pixels i) ∧
    (h.val ≤ 32 → (∀ i : Nat, i < 2048 → d.pixels i = 0) →
      (∃ row : Nat, row < h.val ∧ sprite row ≠ 0) →
      (d.drawSprite x y sprite h).2 = false ∧
      ((d.drawSprite x y sprite h).1.drawSprite x y sprite h).2 = true ∧
      ∀ i : Nat, i < 2048 →
        ((d.drawSprite x y sprite h).1.drawSprite x y sprite h).1.pixels i = 0) := by
  have hinv : ∀ i : Nat, ((d.drawSprite x y sprite h).1.drawSprite x y sprite h).1.pixels i
      = d.pixels i := by
    intro i
    rw [drawSprite_pixels, drawSprite_pixels]
    exact foldl_toggle_twice _ _ _ _ i
  refine ⟨hinv, ?_⟩
  rintro hh hzero ⟨row, hrow, hne⟩
  have hnd := nodup_spriteHits (toU8 (x.val % 64)) (toU8 (y.val % 32)) sprite h.val hh
  obtain ⟨col, hbit⟩ := byte_has_set_bit (sprite row) hne
  have hmem : Display.pixelIndex (toU8 (x.val % 64)) (toU8 (y.val % 32)) row col.val
      ∈ Display.spriteHits (toU8 (x.val % 64)) (toU8 (y.val % 32)) sprite h.val :=
    (mem_spriteHits _ _ _ _ _).mpr ⟨row, col.val, hrow, col.isLt, hbit, rfl⟩
  have hlt := pixelIndex_lt (toU8 (x.val % 64)) (toU8 (y.val % 32)) row col.val
  refine ⟨?_, ?_, fun i hi => (hinv i).trans (hzero i hi)⟩
  · cases hb : (d.drawSprite x y sprite h).2 with
    | false => rfl
    | true =>
      rw [drawSprite_flag, foldl_toggle_collision _ _ _ hnd] at hb
      rcases hb with hf | ⟨i, hi, h1⟩
      · cases hf
      · obtain ⟨r, c, -, -, -, e⟩ := (mem_spriteHits _ _ _ _ _).mp hi
        rw [hzero i (e ▸ pixelIndex_lt _ _ _ _)] at h1
        exact absurd h1 (by decide)
  · rw [drawSprite_flag, foldl_toggle_collision _ _ _ hnd]
    right
    refine ⟨_, hmem, ?_⟩
    rw [drawSprite_pixels, foldl_toggle_mem _ _ _ hnd hmem]
    show toU8 ((d.pixels _).val ^^^ 1) = 1
    rw [hzero _ hlt]
    rfl

theorem drawSprite_involution_witness :
    ((1 : U8).val ≤ 32 ∧ (∀ i : Nat, i < 2048 → Display.new.pixels i = 0) ∧
      ∃ row : Nat, row < (1 : U8).val ∧ (fun _ : Nat => (0x80 : U8)) row ≠ 0) ∧
    (Display.new.drawSprite 0 0 (fun _ => 0x80) 1).2 = false ∧
    ((Display.new.drawSprite 0 0 (fun _ => 0x80) 1).1.drawSprite 0 0
      (fun _ => 0x80) 1).2 = true :=
  ⟨⟨by decide, fun i hi => if_pos hi, ⟨0, by decide, by decide⟩⟩,
    ((drawSprite_involution Display.new 0 0 (fun _ => 0x80) 1).2 (by decide)
      (fun i hi => if_pos hi) ⟨0, by decide, by decide⟩).1,
    ((drawSprite_involution Display.new 0 0 (fun _ => 0x80) 1).2 (by decide)
      (fun i hi => if_pos hi) ⟨0, by decide, by decide⟩).2.1⟩

/-! ## Waiting for a key -/

/-- With no key pressed `getAnyKeyPressed` returns -1. -/
theorem getAnyKeyPressed_none (inp : Input)
    (h : ∀ key : U8, inp.isKeyPressed key = false) : inp.getAnyKeyPressed = -1 := by
  unfold Input.getAnyKeyPressed
  have hf : (List.range KEY_COUNT).find? (fun i => decide (inp.keys i ≠ 0)) = none := by
    rw [List.find?_eq_none]
    intro i hi
    rw [List.mem_range] at hi
    have hi16 : i < 16 := hi
    have hk := h (toU8 i)
    have hv : (toU8 i).val = i := by simp only [toU8_val]; omega
    simp only [Input.isKeyPressed, hv, hi, decide_True, Bool.true_and,
      decide_eq_false_iff_not] at hk
    simpa using hk
  rw [hf]

/-- The lowest pressed key is the one `getAnyKeyPressed` returns. -/
theorem getAnyKeyPressed_lowest (inp : Input) (k : U8) (hk : inp.isKeyPressed k = true)
    (hlow : ∀ j : U8, j.val < k.val → inp.isKeyPressed j = false) :
    inp.getAnyKeyPressed = (k.val : Int) := by
  unfold Input.getAnyKeyPressed
  simp only [Input.isKeyPressed, Bool.and_eq_true, decide_eq_true_eq] at hk
  have hf : (List.range KEY_COUNT).find? (fun i => decide (inp.keys i ≠ 0)) = some k.val := by
    rw [List.find?_range_eq_some]
    refine ⟨by simpa using hk.2, List.mem_range.mpr hk.1, ?_⟩
    intro j hj
    have hj16 : j < 16 := Nat.lt_trans hj hk.1
    have hv : (toU8 j).val = j := by simp only [toU8_val]; omega
    have h := hlow (toU8 j) (by rw [hv]; exact hj)
    have hjk : j < KEY_COUNT := hj16
    simp only [Input.isKeyPressed, hv, hjk, decide_True, Bool.true_and,
      decide_eq_false_iff_not] at h
    simpa using h
  rw [hf]

/-- The word fetched by a cycle when the byte at PC is `0xF?` and the next
byte is `0x0A`. -/
theorem fetch_Fx0A (s : Chip8)
    (hhi : (s.memory.data (s.registers.PC.val % 4096)).val / 16 = 0xF)
    (hlo : (s.memory.data ((s.registers.PC.val + 1) % 4096)).val = 0x0A) :
    (Opcode.decode (toU16 ((s.memory.data (s.registers.PC.val % 4096)).val * 256
        + (s.memory.data ((s.registers.PC.val + 1) % 4096)).val))).category = 0xF ∧
    (Opcode.decode (toU16 ((s.memory.data (s.registers.PC.val % 4096)).val * 256
        + (s.memory.data ((s.registers.PC.val + 1) % 4096)).val))).nn.val = 0x0A ∧
    (Opcode.decode (toU16 ((s.memory.data (s.registers.PC.val % 4096)).val * 256
        + (s.memory.data ((s.registers.PC.val + 1) % 4096)).val))).x.val
      = (s.memory.data (s.registers.PC.val % 4096)).val % 16 := by
  have h1 := (s.memory.data (s.registers.PC.val % 4096)).isLt
  refine ⟨?_, ?_, ?_⟩
  · apply Fin.ext
    rw [decode_category, toU16_val]
    show _ = 15
    omega
  · rw [decode_nn, toU16_val]
    omega
  · rw [decode_x, toU16_val]
    omega

/-- A cycle on a blocked Fx0A only counts the timers down. -/
theorem cycle_Fx0A_blocked (s : Chip8)
    (hhi : (s.memory.data (s.registers.PC.val % 4096)).val / 16 = 0xF)
    (hlo : (s.memory.data ((s.registers.PC.val + 1) % 4096)).val = 0x0A)
    (hkeys : ∀ key : U8, s.input.isKeyPressed key = false) :
    CPU.cycle s
      = { s with registers := s.registers.decrementDelayTimer.decrementSoundTimer } := by
  obtain ⟨hc, hn, -⟩ := fetch_Fx0A s hhi hlo
  have hcyc := (cycle_aux s _ rfl _ rfl _ rfl).2.1
  rw [hcyc, execute_catF _ s hc]
  simp [InstructionSet.executeFxxx, hn, getAnyKeyPressed_none _ hkeys]

/-- Repeated cycles on a blocked Fx0A. -/
theorem cycles_Fx0A_blocked (s : Chip8)
    (hhi : (s.memory.data (s.registers.PC.val % 4096)).val / 16 = 0xF)
    (hlo : (s.memory.data ((s.registers.PC.val + 1) % 4096)).val = 0x0A)
    (hkeys : ∀ key : U8, s.input.isKeyPressed key = false) (k : Nat) :
    (CPU.cycle^[k] s).memory = s.memory ∧ (CPU.cycle^[k] s).display = s.display ∧
    (CPU.cycle^[k] s).input = s.input ∧ (CPU.cycle^[k] s).rng = s.rng ∧
    (CPU.cycle^[k] s).registers.PC = s.registers.PC ∧
    (CPU.cycle^[k] s).registers.V = s.registers.V ∧
    (CPU.cycle^[k] s).registers.I = s.registers.I ∧
    (CPU.cycle^[k] s).registers.SP = s.registers.SP ∧
    (CPU.cycle^[k] s).registers.stack = s.registers.stack ∧
    (CPU.cycle^[k] s).registers.delayTimer.val = s.registers.delayTimer.val - k ∧
    (CPU.cycle^[k] s).registers.soundTimer.val = s.registers.soundTimer.val - k := by
  induction k with
  | zero => simp
  | succ k ih =>
    obtain ⟨h1, h2, h3, h4, h5, h6, h7, h8, h9, h10, h11⟩ := ih
    rw [Function.iterate_succ_apply']
    have hstep := cycle_Fx0A_blocked (CPU.cycle^[k] s)
      (by rw [h1, h5]; exact hhi) (by rw [h1, h5]; exact hlo) (by rw [h3]; exact hkeys)
    rw [hstep]
    have fd := decrementDelayTimer_frame (CPU.cycle^[k] s).registers
    have fs := decrementSoundTimer_frame (CPU.cycle^[k] s).registers.decrementDelayTimer
    refine ⟨h1, h2, h3, h4, ?_, ?_, ?_, ?_, ?_, ?_, ?_⟩
    · exact (fs.2.2.1.trans fd.2.2.1).trans h5
    · exact (fs.1.trans fd.1).trans h6
    · exact (fs.2.1.trans fd.2.1).trans h7
    · exact (fs.2.2.2.1.trans fd.2.2.2.1).trans h8
    · exact (fs.2.2.2.2.1.trans fd.2.2.2.2.1).trans h9
    · show (((CPU.cycle^[k] s).registers.decrementDelayTimer).decrementSoundTimer).delayTimer.val
        = _
      rw [fs.2.2.2.2.2, decrementDelayTimer_val, h10]
      omega
    · show (((CPU.cycle^[k] s).registers.decrementDelayTimer).decrementSoundTimer).soundTimer.val
        = _
      rw [decrementSoundTimer_val, fd.2.2.2.2.2, h11]
      omega

/-- Claim C15. Fx0A is a non-blocking poll. In a state whose memory holds an
Fx0A word at PC: if no key is pressed, any number `k` of CPU cycles leaves PC,
the V registers, I, the stack and its pointer, memory, the display and the
keys unchanged, and each timer has counted down by `k` (stopping at 0); if a
key is pressed, one cycle sets `V[x]` to the index of the lowest-numbered
pressed key and PC to `(PC + 2) mod 2^16`. -/
theorem fx0A_poll (s : Chip8)
    (hhi : (s.memory.data (s.registers.PC.val % 4096)).val / 16 = 0xF)
    (hlo : (s.memory.data ((s.registers.PC.val + 1) % 4096)).val = 0x0A) :
    ((∀ key : U8, s.input.isKeyPressed key = false) → ∀ k : Nat, 1 ≤ k →
      (CPU.cycle^[k] s).registers.PC = s.registers.PC ∧
      (CPU.cycle^[k] s).registers.V = s.registers.V ∧
      (CPU.cycle^[k] s).registers.I = s.registers.I ∧
      (CPU.cycle^[k] s).registers.stack = s.registers.stack ∧
      (CPU.cycle^[k] s).registers.SP = s.registers.SP ∧
      (CPU.cycle^[k] s).memory = s.memory ∧
      (CPU.cycle^[k] s).display = s.display ∧
      (CPU.cycle^[k] s).input = s.input ∧
      (CPU.cycle^[k] s).registers.delayTimer.val = s.registers.delayTimer.val - k ∧
      (CPU.cycle^[k] s).registers.soundTimer.val = s.registers.soundTimer.val - k) ∧
    (∀ key : U8, s.input.isKeyPressed key = true →
      (∀ j : U8, j.val < key.val → s.input.isKeyPressed j = false) →
      (CPU.cycle s).registers.V ((s.memory.data (s.registers.PC.val % 4096)).val % 16) = key ∧
      (CPU.cycle s).registers.PC.val = (s.registers.PC.val + 2) % 65536) := by
  constructor
  · intro hkeys k _
    obtain ⟨h1, h2, h3, -, h5, h6, h7, h8, h9, h10, h11⟩ :=
      cycles_Fx0A_blocked s hhi hlo hkeys k
    exact ⟨h5, h6, h7, h9, h8, h1, h2, h3, h10, h11⟩
  · intro key hkey hlow
    obtain ⟨hc, hn, hx⟩ := fetch_Fx0A s hhi hlo
    have hcyc := (cycle_aux s _ rfl _ rfl _ rfl).2.1
    have hget := getAnyKeyPressed_lowest s.input key hkey hlow
    have hkv : intToU8 (key.val : Int) = key := by
      apply Fin.ext
      have := key.isLt
      rw [intToU8_val]
      omega
    have hge : (key.val : Int) ≥ 0 := Int.natCast_nonneg _
    rw [hcyc, execute_catF _ s hc, ← hx]
    simp only [(decrementSoundTimer_frame _).1, (decrementDelayTimer_frame _).1,
      (decrementSoundTimer_frame _).2.2.1, (decrementDelayTimer_frame _).2.2.1]
    simp [InstructionSet.executeFxxx, hn, hget, hge, hkv, setV_decode_x,
      Registers.incrementPC]

set_option maxRecDepth 100000 in
theorem fx0A_poll_witness :
    (((machineWith 0xF30A).memory.data ((machineWith 0xF30A).registers.PC.val % 4096)).val / 16
        = 0xF ∧
      ((machineWith 0xF30A).memory.data
        (((machineWith 0xF30A).registers.PC.val + 1) % 4096)).val = 0x0A ∧
      (∀ key : U8, (machineWith 0xF30A).input.isKeyPressed key = false) ∧
      (CPU.cycle^[3] (machineWith 0xF30A)).registers.PC = 0x200) ∧
    ((Input.new.setKey 7 true).isKeyPressed 7 = true ∧
      (∀ j : U8, j.val < (7 : U8).val → (Input.new.setKey 7 true).isKeyPressed j = false) ∧
      (CPU.cycle { machineWith 0xF30A with input := Input.new.setKey 7 true }).registers.V 3
        = 7) :=
  ⟨⟨by decide, by decide, by decide,
      ((fx0A_poll (machineWith 0xF30A) (by decide) (by decide)).1 (by decide) 3
        (by decide)).1⟩,
    ⟨by decide, by decide,
      ((fx0A_poll { machineWith 0xF30A with input := Input.new.setKey 7 true }
        (by decide) (by decide)).2 7 (by decide) (by decide)).1⟩⟩

/-! ## Memory instructions -/

theorem memory_write_data (m : Memory) (a : U16) (v : U8) :
    (m.write a v).data = Function.update m.data (a.val % 4096) v := by
  simp only [Memory.write, and_0FFF]

/-- The state after Fx33. -/
theorem execute_Fx33 (w : U16) (s : Chip8)
    (hc : (Opcode.decode w).category = 0xF) (hn : (Opcode.decode w).nn = 0x33) :
    InstructionSet.execute (Opcode.decode w) s
      = { s with
          memory :=
            { data := Function.update
                (Function.update
                  (Function.update s.memory.data (s.registers.I.val % 4096)
                    (toU8 ((s.registers.V (Opcode.decode w).x.val).val / 100)))
                  ((s.registers.I.val + 1) % 4096)
                  (toU8 ((s.registers.V (Opcode.decode w).x.val).val / 10 % 10)))
                ((s.registers.I.val + 2) % 4096)
                (toU8 ((s.registers.V (Opcode.decode w).x.val).val % 10)) }
          registers := { s.registers with PC := toU16 (s.registers.PC.val + 2) } } := by
  have hnv : (Opcode.decode w).nn.val = 0x33 := by rw [hn]; rfl
  have e1 : (s.registers.I.val + 1) % 65536 % 4096 = (s.registers.I.val + 1) % 4096 := by
    omega
  have e2 : (s.registers.I.val + 2) % 65536 % 4096 = (s.registers.I.val + 2) % 4096 := by
    omega
  rw [execute_catF w s hc]
  simp [InstructionSet.executeFxxx, hnv, getV_decode_x, Registers.getI, Registers.incrementPC,
    Memory.write, and_0FFF, e1, e2]

/-- Claim C16. After Fx33 the bytes `a = mem[I mod 4096]`,
`b = mem[(I+1) mod 4096]`, `c = mem[(I+2) mod 4096]` are the decimal digits of
`V[x]`: `100*a + 10*b + c = V[x]` with `a <= 2`, `b <= 9`, `c <= 9`; every
other memory byte, every V register and I are unchanged; PC advances by 2. -/
theorem store_bcd (w : U16) (s : Chip8)
    (hc : (Opcode.decode w).category = 0xF) (hn : (Opcode.decode w).nn = 0x33) :
    let op := Opcode.decode w
    let i := s.registers.I.val
    let s1 := InstructionSet.execute op s
    let a := (s1.memory.data (i % 4096)).val
    let b := (s1.memory.data ((i + 1) % 4096)).val
    let c := (s1.memory.data ((i + 2) % 4096)).val
    100 * a + 10 * b + c = (s.registers.V op.x.val).val ∧ a ≤ 2 ∧ b ≤ 9 ∧ c ≤ 9 ∧
    (∀ j : Nat, j ≠ i % 4096 → j ≠ (i + 1) % 4096 → j ≠ (i + 2) % 4096 →
      s1.memory.data j = s.memory.data j) ∧
    s1.registers.V = s.registers.V ∧ s1.registers.I = s.registers.I ∧
    s1.registers.PC.val = (s.registers.PC.val + 2) % 65536 := by
  intro op i s1 a b c
  have e : s1 = _ := execute_Fx33 w s hc hn
  have hv := (s.registers.V (Opcode.decode w).x.val).isLt
  have h01 : i % 4096 ≠ (i + 1) % 4096 := by omega
  have h02 : i % 4096 ≠ (i + 2) % 4096 := by omega
  have h12 : (i + 1) % 4096 ≠ (i + 2) % 4096 := by omega
  have ha : a = (s.registers.V (Opcode.decode w).x.val).val / 100 % 256 := by
    simp only [a, e, Function.update_noteq h02, Function.update_noteq h01,
      Function.update_same, toU8_val, i]
  have hb : b = (s.registers.V (Opcode.decode w).x.val).val / 10 % 10 % 256 := by
    simp only [b, e, Function.update_noteq h12, Function.update_same, toU8_val, i]
  have hcc : c = (s.registers.V (Opcode.decode w).x.val).val % 10 % 256 := by
    simp only [c, e, Function.update_same, toU8_val, i]
  refine ⟨?_, ?_, ?_, ?_, ?_, ?_, ?_, ?_⟩
  · rw [ha, hb, hcc]; show _ = (s.registers.V (Opcode.decode w).x.val).val; omega
  · rw [ha]; omega
  · rw [hb]; omega
  · rw [hcc]; omega
  · intro j j0 j1 j2
    rw [e]
    simp only [Function.update_noteq j2, Function.update_noteq j1, Function.update_noteq j0]
  · rw [e]
  · rw [e]
  · rw [e]
    rfl

theorem store_bcd_witness :
    ((Opcode.decode 0xF333).category = 0xF ∧ (Opcode.decode 0xF333).nn = 0x33) ∧
    100 * ((InstructionSet.execute (Opcode.decode 0xF333)
        { machineWithV 0xF333 3 234 with
          registers := (Registers.new.setV 3 234).setI 0x300 }).memory.data 0x300).val
      + 10 * ((InstructionSet.execute (Opcode.decode 0xF333)
        { machineWithV 0xF333 3 234 with
          registers := (Registers.new.setV 3 234).setI 0x300 }).memory.data 0x301).val
      + ((InstructionSet.execute (Opcode.decode 0xF333)
        { machineWithV 0xF333 3 234 with
          registers := (Registers.new.setV 3 234).setI 0x300 }).memory.data 0x302).val
      = 234 :=
  ⟨⟨by decide, by decide⟩,
    (store_bcd 0xF333
      { machineWithV 0xF333 3 234 with registers := (Registers.new.setV 3 234).setI 0x300 }
      (by decide) (by decide)).1⟩

/-- Claim C20. Memory addressing wraps modulo 4096 and never fails: after
`write(a, v)`, `read(b)` is `v` when `b mod 4096 = a mod 4096` and is the old
`read(b)` otherwise; so a write at 0x1000 is observed at 0x000. -/
theorem memory_write_then_read (m : Memory) (a b : U16) (v : U8) :
    (m.write a v).read b = (if b.val % 4096 = a.val % 4096 then v else m.read b) ∧
    (m.write 0x1000 v).read 0x000 = v := by
  constructor
  · rw [memory_read_eq, memory_read_eq, memory_write_data]
    split
    · next h => rw [h, Function.update_same]
    · next h => rw [Function.update_noteq h]
  · rfl

/-- The memory after `k <= 16` rounds of the store loop of Fx55. -/
theorem storeLoop_data (s : Chip8) (k : Nat) (hk : k ≤ 16) :
    (∀ i : Nat, i < k →
      ((List.range k).foldl InstructionSet.storeStep s).memory.data
        ((s.registers.I.val + i) % 4096) = s.registers.V i) ∧
    (∀ j : Nat, (∀ i : Nat, i < k → j ≠ (s.registers.I.val + i) % 4096) →
      ((List.range k).foldl InstructionSet.storeStep s).memory.data j = s.memory.data j) := by
  induction k with
  | zero =>
    exact ⟨fun i hi => absurd hi (Nat.not_lt_zero i), fun j _ => rfl⟩
  | succ k ih =>
    obtain ⟨ih1, ih2⟩ := ih (by omega)
    have hreg := (storeLoop_frame (List.range k) s).1
    have hidx : k % 256 &&& 0xF = k := by rw [and_000F]; omega
    have haddr : (s.registers.I.val + k) % 65536 % 4096 = (s.registers.I.val + k) % 4096 := by
      omega
    have hstep : ((List.range (k + 1)).foldl InstructionSet.storeStep s).memory.data
        = Function.update ((List.range k).foldl InstructionSet.storeStep s).memory.data
            ((s.registers.I.val + k) % 4096) (s.registers.V k) := by
      rw [List.range_succ, List.foldl_concat]
      simp only [InstructionSet.storeStep, hreg, memory_write_data, Registers.getI,
        Registers.getV, toU16_val, toU8_val, hidx, haddr]
    constructor
    · intro i hi
      rw [hstep]
      by_cases h : i = k
      · subst h
        rw [Function.update_same]
      · have hne : (s.registers.I.val + i) % 4096 ≠ (s.registers.I.val + k) % 4096 := by
          omega
        rw [Function.update_noteq hne]
        exact ih1 i (by omega)
    · intro j hj
      rw [hstep, Function.update_noteq (hj k (by omega))]
      exact ih2 j (fun i hi => hj i (by omega))

/-- The V registers after `k <= 16` rounds of the load loop of Fx65. -/
theorem loadLoop_V (s : Chip8) (k : Nat) (hk : k ≤ 16) :
    (∀ i : Nat, i < k →
      ((List.range k).foldl InstructionSet.loadStep s).registers.V i
        = s.memory.data ((s.registers.I.val + i) % 4096)) ∧
    (∀ j : Nat, k ≤ j →
      ((List.range k).foldl InstructionSet.loadStep s).registers.V j = s.registers.V j) := by
  induction k with
  | zero =>
    exact ⟨fun i hi => absurd hi (Nat.not_lt_zero i), fun j _ => rfl⟩
  | succ k ih =>
    obtain ⟨ih1, ih2⟩ := ih (by omega)
    have hfr := loadLoop_frame (List.range k) s
    have hidx : k % 256 &&& 0xF = k := by rw [and_000F]; omega
    have haddr : (s.registers.I.val + k) % 65536 % 4096 = (s.registers.I.val + k) % 4096 := by
      omega
    have hstep : ((List.range (k + 1)).foldl InstructionSet.loadStep s).registers.V
        = Function.update ((List.range k).foldl InstructionSet.loadStep s).registers.V
            k (s.memory.data ((s.registers.I.val + k) % 4096)) := by
      rw [List.range_succ, List.foldl_concat]
      simp only [InstructionSet.loadStep, Registers.setV, Registers.getI, hfr.1,
        hfr.2.2.2.2.1, memory_read_eq, toU16_val, toU8_val, hidx, haddr]
    constructor
    · intro i hi
      rw [hstep]
      by_cases h : i = k
      · subst h
        rw [Function.update_same]
      · rw [Function.update_noteq h]
        exact ih1 i (by omega)
    · intro j hj
      have hne : j ≠ k := by omega
      rw [hstep, Function.update_noteq hne]
      exact ih2 j (by omega)

/-- The state after Fx55. -/
theorem execute_Fx55 (w : U16) (s : Chip8)
    (hc : (Opcode.decode w).category = 0xF) (hn : (Opcode.decode w).nn = 0x55) :
    InstructionSet.execute (Opcode.decode w) s
      = { s with
          memory := ((List.range ((Opcode.decode w).x.val + 1)).foldl
            InstructionSet.storeStep s).memory
          registers := { s.registers with PC := toU16 (s.registers.PC.val + 2) } } := by
  have hnv : (Opcode.decode w).nn.val = 0x55 := by rw [hn]; rfl
  have hfr := storeLoop_frame (List.range ((Opcode.decode w).x.val + 1)) s
  rw [execute_catF w s hc]
  simp [InstructionSet.executeFxxx, hnv, Registers.incrementPC, hfr.1, hfr.2.1, hfr.2.2.1,
    hfr.2.2.2]

/-- The state after Fx65. -/
theorem execute_Fx65 (w : U16) (s : Chip8)
    (hc : (Opcode.decode w).category = 0xF) (hn : (Opcode.decode w).nn = 0x65) :
    InstructionSet.execute (Opcode.decode w) s
      = { s with
          registers := { s.registers with
            V := ((List.range ((Opcode.decode w).x.val + 1)).foldl
              InstructionSet.loadStep s).registers.V
            PC := toU16 (s.registers.PC.val + 2) } } := by
  have hnv : (Opcode.decode w).nn.val = 0x65 := by rw [hn]; rfl
  have hfr := loadLoop_frame (List.range ((Opcode.decode w).x.val + 1)) s
  rw [execute_catF w s hc]
  simp [InstructionSet.executeFxxx, hnv, Registers.incrementPC, hfr.1, hfr.2.1, hfr.2.2.1,
    hfr.2.2.2.1, hfr.2.2.2.2.1, hfr.2.2.2.2.2.1, hfr.2.2.2.2.2.2.1, hfr.2.2.2.2.2.2.2.1,
    hfr.2.2.2.2.2.2.2.2.1, hfr.2.2.2.2.2.2.2.2.2]

theorem decode_x_succ_le (w : U16) : (Opcode.decode w).x.val + 1 ≤ 16 := by
  rw [decode_x]
  omega

/-- Claim C17. After Fx55, `mem[(I+i) mod 4096] = V[i]` for every `i` in
0..x inclusive; every memory byte at any other address is unchanged; I and
all V registers are unchanged; PC advances by 2. -/
theorem store_registers (w : U16) (s : Chip8)
    (hc : (Opcode.decode w).category = 0xF) (hn : (Opcode.decode w).nn = 0x55) :
    let op := Opcode.decode w
    let s1 := InstructionSet.execute op s
    (∀ i : Nat, i ≤ op.x.val →
      s1.memory.data ((s.registers.I.val + i) % 4096) = s.registers.V i) ∧
    (∀ j : Nat, (∀ i : Nat, i ≤ op.x.val → j ≠ (s.registers.I.val + i) % 4096) →
      s1.memory.data j = s.memory.data j) ∧
    s1.registers.I = s.registers.I ∧ s1.registers.V = s.registers.V ∧
    s1.registers.PC.val = (s.registers.PC.val + 2) % 65536 := by
  intro op s1
  have e : s1 = _ := execute_Fx55 w s hc hn
  obtain ⟨h1, h2⟩ := storeLoop_data s ((Opcode.decode w).x.val + 1) (decode_x_succ_le w)
  refine ⟨?_, ?_, ?_, ?_, ?_⟩
  · intro i hi
    rw [e]
    exact h1 i (Nat.lt_succ_of_le hi)
  · intro j hj
    rw [e]
    exact h2 j (fun i hi => hj i (Nat.le_of_lt_succ hi))
  · rw [e]
  · rw [e]
  · rw [e]
    rfl

theorem store_registers_witness :
    ((Opcode.decode 0xF155).category = 0xF ∧ (Opcode.decode 0xF155).nn = 0x55) ∧
    (InstructionSet.execute (Opcode.decode 0xF155)
        { machineWith 0xF155 with
          registers := ((Registers.new.setV 0 0x11).setV 1 0x22).setI 0xFFF }).memory.data
      ((0xFFF + 1) % 4096) = 0x22 :=
  ⟨⟨by decide, by decide⟩,
    (store_registers 0xF155
      { machineWith 0xF155 with
        registers := ((Registers.new.setV 0 0x11).setV 1 0x22).setI 0xFFF }
      (by decide) (by decide)).1 1 (by decide)⟩

/-- Claim C18. After Fx65, `V[i] = mem[(I+i) mod 4096]` for every `i` in
0..x inclusive; `V[j]` for `j > x`, I and all of memory are unchanged; PC
advances by 2. Hence if Fx55 was executed in a state `s0` and Fx65 is later
executed with the same `x` and the same I in a state where those `x+1` bytes
are still as Fx55 left them, `V[0..x]` hold again the values stored from
`s0`. -/
theorem load_registers (w : U16) (s : Chip8)
    (hc : (Opcode.decode w).category = 0xF) (hn : (Opcode.decode w).nn = 0x65) :
    let op := Opcode.decode w
    let s1 := InstructionSet.execute op s
    (∀ i : Nat, i ≤ op.x.val →
      s1.registers.V i = s.memory.data ((s.registers.I.val + i) % 4096)) ∧
    (∀ j : Nat, op.x.val < j → s1.registers.V j = s.registers.V j) ∧
    s1.registers.I = s.registers.I ∧ s1.memory = s.memory ∧
    s1.registers.PC.val = (s.registers.PC.val + 2) % 65536 ∧
    (∀ (w0 : U16) (s0 : Chip8), (Opcode.decode w0).category = 0xF →
      (Opcode.decode w0).nn = 0x55 → (Opcode.decode w0).x = op.x →
      s.registers.I = s0.registers.I →
      (∀ i : Nat, i ≤ op.x.val →
        s.memory.data ((s0.registers.I.val + i) % 4096)
          = (InstructionSet.execute (Opcode.decode w0) s0).memory.data
              ((s0.registers.I.val + i) % 4096)) →
      ∀ i : Nat, i ≤ op.x.val → s1.registers.V i = s0.registers.V i) := by
  intro op s1
  have e : s1 = _ := execute_Fx65 w s hc hn
  obtain ⟨h1, h2⟩ := loadLoop_V s ((Opcode.decode w).x.val + 1) (decode_x_succ_le w)
  have hload : ∀ i : Nat, i ≤ op.x.val →
      s1.registers.V i = s.memory.data ((s.registers.I.val + i) % 4096) := by
    intro i hi
    rw [e]
    exact h1 i (Nat.lt_succ_of_le hi)
  refine ⟨hload, ?_, ?_, ?_, ?_, ?_⟩
  · intro j hj
    rw [e]
    exact h2 j hj
  · rw [e]
  · rw [e]
  · rw [e]
    rfl
  · intro w0 s0 hc0 hn0 hx hI hmem i hi
    have e0 := execute_Fx55 w0 s0 hc0 hn0
    obtain ⟨g1, -⟩ := storeLoop_data s0 ((Opcode.decode w0).x.val + 1) (decode_x_succ_le w0)
    rw [hload i hi, hI, hmem i hi, e0]
    apply g1 i
    rw [hx]
    exact Nat.lt_succ_of_le hi

theorem load_registers_witness :
    ((Opcode.decode 0xF165).category = 0xF ∧ (Opcode.decode 0xF165).nn = 0x65) ∧
    (InstructionSet.execute (Opcode.decode 0xF165)
        { machineWith 0xF165 with registers := Registers.new.setI 0x200 }).registers.V 1
      = 0x65 :=
  ⟨⟨by decide, by decide⟩,
    (load_registers 0xF165 { machineWith 0xF165 with registers := Registers.new.setI 0x200 }
      (by decide) (by decide)).1 1 (by decide)⟩

/-- The state after Fx29. -/
theorem execute_Fx29 (w : U16) (s : Chip8)
    (hc : (Opcode.decode w).category = 0xF) (hn : (Opcode.decode w).nn = 0x29) :
    InstructionSet.execute (Opcode.decode w) s
      = { s with registers := { s.registers with
            I := toU16 ((s.registers.V (Opcode.decode w).x.val).val * 5)
            PC := toU16 (s.registers.PC.val + 2) } } := by
  have hnv : (Opcode.decode w).nn.val = 0x29 := by rw [hn]; rfl
  rw [execute_catF w s hc]
  simp [InstructionSet.executeFxxx, hnv, getV_decode_x, Registers.setI, Registers.incrementPC]

/-- Claim C19. Glyph lookup: in a state whose memory bytes 0..79 hold the font
table and with `V[x] = d <= 15`, after Fx29 the index register is `I = 5*d`
and the five bytes `mem[I..I+4]` are entries `5*d .. 5*d+4` of the font table,
the five rows of the glyph of digit `d` (for `d = 0xF`: F0 80 F0 80 80); PC
advances by 2. -/
theorem glyph_lookup (w : U16) (s : Chip8)
    (hc : (Opcode.decode w).category = 0xF) (hn : (Opcode.decode w).nn = 0x29)
    (hfont : ∀ i : Nat, i < 80 → s.memory.data i = FONTSET.getD i 0)
    (hd : (s.registers.V (Opcode.decode w).x.val).val ≤ 15) :
    let op := Opcode.decode w
    let d := (s.registers.V op.x.val).val
    let s1 := InstructionSet.execute op s
    s1.registers.I.val = 5 * d ∧
    (∀ j : Nat, j < 5 →
      s1.memory.read (toU16 (s1.registers.I.val + j)) = FONTSET.getD (5 * d + j) 0) ∧
    (d = 0xF →
      s1.memory.read (toU16 (s1.registers.I.val + 0)) = 0xF0 ∧
      s1.memory.read (toU16 (s1.registers.I.val + 1)) = 0x80 ∧
      s1.memory.read (toU16 (s1.registers.I.val + 2)) = 0xF0 ∧
      s1.memory.read (toU16 (s1.registers.I.val + 3)) = 0x80 ∧
      s1.memory.read (toU16 (s1.registers.I.val + 4)) = 0x80) ∧
    s1.registers.PC.val = (s.registers.PC.val + 2) % 65536 := by
  intro op d s1
  have e : s1 = _ := execute_Fx29 w s hc hn
  have hd' : d ≤ 15 := hd
  have hI : s1.registers.I.val = 5 * d := by
    rw [e]
    show (d * 5) % 65536 = 5 * d
    omega
  have hmem : s1.memory = s.memory := by rw [e]
  have hrows : ∀ j : Nat, j < 5 →
      s1.memory.read (toU16 (s1.registers.I.val + j)) = FONTSET.getD (5 * d + j) 0 := by
    intro j hj
    rw [hI, hmem, memory_read_eq, toU16_val]
    have ha : (5 * d + j) % 65536 % 4096 = 5 * d + j := by omega
    rw [ha]
    exact hfont _ (by omega)
  refine ⟨hI, hrows, ?_, ?_⟩
  · intro hF
    have r0 := hrows 0 (by decide)
    have r1 := hrows 1 (by decide)
    have r2 := hrows 2 (by decide)
    have r3 := hrows 3 (by decide)
    have r4 := hrows 4 (by decide)
    rw [hF] at r0 r1 r2 r3 r4
    exact ⟨r0, r1, r2, r3, r4⟩
  · rw [e]
    rfl

set_option maxRecDepth 100000 in
theorem glyph_lookup_witness :
    ((Opcode.decode 0xF329).category = 0xF ∧ (Opcode.decode 0xF329).nn = 0x29 ∧
      (∀ i : Nat, i < 80 → (machineWithV 0xF329 3 0xF).memory.data i = FONTSET.getD i 0) ∧
      ((machineWithV 0xF329 3 0xF).registers.V (Opcode.decode 0xF329).x.val).val ≤ 15) ∧
    (InstructionSet.execute (Opcode.decode 0xF329)
        (machineWithV 0xF329 3 0xF)).registers.I.val = 5 * 0xF :=
  ⟨⟨by decide, by decide, by decide, by decide⟩,
    (glyph_lookup 0xF329 (machineWithV 0xF329 3 0xF) (by decide) (by decide) (by decide)
      (by decide)).1⟩

/-! ## Program loading and the font -/

/-- The result of `loadProgram` on a program that fits. -/
theorem loadProgram_fits (m : Memory) (p : List U8) (hlen : p.length ≤ 3584) :
    m.loadProgram p
      = ({ data := fun i =>
            if 0x200 ≤ i ∧ i < 0x200 + p.length then p.getD (i - 0x200) 0 else m.data i },
          true) := by
  have hnot : ¬ p.length > MEMORY_SIZE - PROGRAM_START := by
    show ¬ p.length > 3584
    omega
  unfold Memory.loadProgram
  rw [if_neg hnot]
  rfl

/-- Claim C21. For a program `p` of length `len <= 3584`, `loadProgram`
returns true, afterwards `read(0x200 + i) = p[i]` for every `i < len`, and
every byte at an address outside `[0x200, 0x200 + len)`, the 80 font bytes
included, is unchanged. -/
theorem loadProgram_copies (m : Memory) (p : List U8) (hlen : p.length ≤ 3584) :
    (m.loadProgram p).2 = true ∧
    (∀ i : Nat, i < p.length →
      some ((m.loadProgram p).1.read (toU16 (0x200 + i))) = p.get? i) ∧
    (∀ j : Nat, ¬ (0x200 ≤ j ∧ j < 0x200 + p.length) →
      (m.loadProgram p).1.data j = m.data j) ∧
    (∀ j : Nat, j < 80 → (m.loadProgram p).1.data j = m.data j) := by
  have e := loadProgram_fits m p hlen
  have hother : ∀ j : Nat, ¬ (0x200 ≤ j ∧ j < 0x200 + p.length) →
      (m.loadProgram p).1.data j = m.data j := by
    intro j hj
    rw [e]
    show (if 0x200 ≤ j ∧ j < 0x200 + p.length then p.getD (j - 0x200) 0 else m.data j) = _
    rw [if_neg hj]
  refine ⟨?_, ?_, hother, ?_⟩
  · rw [e]
  · intro i hi
    have ha : (0x200 + i) % 65536 % 4096 = 0x200 + i := by omega
    have hin : 0x200 ≤ 0x200 + i ∧ 0x200 + i < 0x200 + p.length := by omega
    rw [memory_read_eq, toU16_val, ha, e]
    show some (if 0x200 ≤ 0x200 + i ∧ 0x200 + i < 0x200 + p.length then
      p.getD (0x200 + i - 0x200) 0 else m.data (0x200 + i)) = _
    rw [if_pos hin]
    simp only [Nat.add_sub_cancel_left, List.getD_eq_getElem?_getD,
      List.get?_eq_getElem?, List.getElem?_eq_getElem hi, Option.getD_some]
  · intro j hj
    exact hother j (by omega)

theorem loadProgram_copies_witness :
    ([0x12, 0x34, 0x56, 0x78, 0x9A] : List U8).length ≤ 3584 ∧
    (Memory.new.loadProgram [0x12, 0x34, 0x56, 0x78, 0x9A]).2 = true ∧
    some ((Memory.new.loadProgram [0x12, 0x34, 0x56, 0x78, 0x9A]).1.read (toU16 (0x200 + 4)))
      = ([0x12, 0x34, 0x56, 0x78, 0x9A] : List U8).get? 4 :=
  ⟨by decide,
    (loadProgram_copies Memory.new [0x12, 0x34, 0x56, 0x78, 0x9A] (by decide)).1,
    (loadProgram_copies Memory.new [0x12, 0x34, 0x56, 0x78, 0x9A] (by decide)).2.1 4
      (by decide)⟩

/-- Claim C22. The call `loadProgram` returns false if and only if the program
is longer than 3584 bytes (exactly 3584 succeeds, 3585 fails), and whenever it
returns false every memory byte is unchanged. -/
theorem loadProgram_fails_iff (m : Memory) (p : List U8) :
    ((m.loadProgram p).2 = false ↔ p.length > 3584) ∧
    (p.length = 3584 → (m.loadProgram p).2 = true) ∧
    (p.length = 3585 → (m.loadProgram p).2 = false) ∧
    ((m.loadProgram p).2 = false → (m.loadProgram p).1 = m) := by
  have hiff : (m.loadProgram p).2 = false ↔ p.length > 3584 := by
    by_cases h : p.length > MEMORY_SIZE - PROGRAM_START
    · have h' : p.length > 3584 := h
      simp [Memory.loadProgram, h, h']
    · have h' : ¬ p.length > 3584 := h
      simp [Memory.loadProgram, h, h']
  refine ⟨hiff, ?_, ?_, ?_⟩
  · intro h
    cases hb : (m.loadProgram p).2 with
    | true => rfl
    | false =>
      have := hiff.mp hb
      omega
  · intro h
    exact hiff.mpr (by omega)
  · intro h
    have hgt : p.length > MEMORY_SIZE - PROGRAM_START := hiff.mp h
    simp only [Memory.loadProgram, if_pos hgt]

theorem loadProgram_fails_iff_witness :
    ((List.replicate 3584 (0 : U8)).length = 3584 ∧
      (Memory.new.loadProgram (List.replicate 3584 0)).2 = true) ∧
    ((List.replicate 3585 (0 : U8)).length = 3585 ∧
      (Memory.new.loadProgram (List.replicate 3585 0)).2 = false ∧
      (Memory.new.loadProgram (List.replicate 3585 0)).1 = Memory.new) :=
  ⟨⟨List.length_replicate _ _,
      (loadProgram_fails_iff Memory.new (List.replicate 3584 0)).2.1
        (List.length_replicate _ _)⟩,
    ⟨List.length_replicate _ _,
      (loadProgram_fails_iff Memory.new (List.replicate 3585 0)).2.2.1
        (List.length_replicate _ _),
      (loadProgram_fails_iff Memory.new (List.replicate 3585 0)).2.2.2
        ((loadProgram_fails_iff Memory.new (List.replicate 3585 0)).2.2.1
          (List.length_replicate _ _))⟩⟩

/-- The memory after the first `n` rounds of the loop of `loadFontset`. -/
theorem loadFontset_loop (m : Memory) (n : Nat) (i : Nat) :
    ((List.range n).foldl
      (fun acc i => ({ data := Function.update acc.data (FONT_START + i) (FONTSET.getD i 0) } :
        Memory)) m).data i
      = if i < n then FONTSET.getD i 0 else m.data i := by
  induction n with
  | zero => simp
  | succ n ih =>
    rw [List.range_succ, List.foldl_concat]
    show (Function.update _ (FONT_START + n) (FONTSET.getD n 0) : Nat → U8) i = _
    by_cases h : i = n
    · subst h
      have e : FONT_START + i = i := Nat.zero_add i
      rw [e, Function.update_same, if_pos (Nat.lt_succ_self i)]
    · have hne : i ≠ FONT_START + n := by
        rw [show FONT_START + n = n from Nat.zero_add n]
        exact h
      rw [Function.update_noteq hne, ih]
      by_cases hlt : i < n
      · rw [if_pos hlt, if_pos (by omega)]
      · rw [if_neg hlt, if_neg (by omega)]

/-- The memory after `loadFontset`: the font table in bytes 0..79. -/
theorem loadFontset_data (m : Memory) (i : Nat) :
    m.loadFontset.data i = if i < 80 then FONTSET.getD i 0 else m.data i :=
  loadFontset_loop m 80 i

/-- The memory after `clear` followed by `loadFontset`. -/
theorem clear_loadFontset_data (m : Memory) (i : Nat) (hi : i < 4096) :
    m.clear.loadFontset.data i = if i < 80 then FONTSET.getD i 0 else 0 := by
  rw [loadFontset_data]
  have h : m.clear.data i = 0 := if_pos hi
  rw [h]

/-- Claim C23. After constructing a `Memory`, and after `Chip8::initialize`
from any prior state, `read(5k + j)` is entry `5k + j` of the glyph table for
every glyph `k` in 0..15 and row `j` in 0..4, and every byte at addresses
80..4095 is 0. -/
theorem font_after_init (s : Chip8) :
    (∀ k j : Nat, k < 16 → j < 5 →
      Memory.new.read (toU16 (5 * k + j)) = FONTSET.getD (5 * k + j) 0 ∧
      (Chip8.init s).memory.read (toU16 (5 * k + j)) = FONTSET.getD (5 * k + j) 0) ∧
    (∀ a : Nat, 80 ≤ a → a < 4096 →
      Memory.new.read (toU16 a) = 0 ∧ (Chip8.init s).memory.read (toU16 a) = 0) := by
  constructor
  · intro k j hk hj
    have ha : (5 * k + j) % 65536 % 4096 = 5 * k + j := by omega
    have hlt : 5 * k + j < 80 := by omega
    constructor
    · rw [memory_read_eq, toU16_val, ha]
      show (Memory.clear _).loadFontset.data _ = _
      rw [clear_loadFontset_data _ _ (by omega), if_pos hlt]
    · rw [memory_read_eq, toU16_val, ha]
      show s.memory.clear.loadFontset.data _ = _
      rw [clear_loadFontset_data _ _ (by omega), if_pos hlt]
  · intro a h80 h4096
    have ha : a % 65536 % 4096 = a := by omega
    have hge : ¬ a < 80 := by omega
    constructor
    · rw [memory_read_eq, toU16_val, ha]
      show (Memory.clear _).loadFontset.data _ = _
      rw [clear_loadFontset_data _ _ h4096, if_neg hge]
    · rw [memory_read_eq, toU16_val, ha]
      show s.memory.clear.loadFontset.data _ = _
      rw [clear_loadFontset_data _ _ h4096, if_neg hge]

theorem font_after_init_witness :
    ((15 : Nat) < 16 ∧ (4 : Nat) < 5) ∧
    Memory.new.read (toU16 (5 * 15 + 4)) = FONTSET.getD (5 * 15 + 4) 0 ∧
    (Chip8.init (machineWith 0x1234)).memory.read (toU16 0x200) = 0 :=
  ⟨⟨by decide, by decide⟩,
    ((font_after_init (machineWith 0x1234)).1 15 4 (by decide) (by decide)).1,
    ((font_after_init (machineWith 0x1234)).2 0x200 (by decide) (by decide)).2⟩

/-- Claim C25, evaluated on the code. After a `Memory` is constructed and
`clear()` is then called, the ten bytes the `FontsetIsLoaded` test reads are
all 0: `clear` erased the font, which the constructor had loaded. -/
theorem clear_erases_font :
    (Memory.new.read 0x000 = 0xF0 ∧ Memory.new.read 0x04B = 0xF0) ∧
    (Memory.new.clear.read 0x000 = 0 ∧ Memory.new.clear.read 0x001 = 0 ∧
      Memory.new.clear.read 0x002 = 0 ∧ Memory.new.clear.read 0x003 = 0 ∧
      Memory.new.clear.read 0x004 = 0) ∧
    (Memory.new.clear.read 0x04B = 0 ∧ Memory.new.clear.read 0x04C = 0 ∧
      Memory.new.clear.read 0x04D = 0 ∧ Memory.new.clear.read 0x04E = 0 ∧
      Memory.new.clear.read 0x04F = 0) ∧
    Memory.new.clear.read 0x000 ≠ 0xF0 := by
  decide

/-! ## Which instructions write memory -/

theorem execute0xxx_memory (op : Opcode) (s : Chip8) :
    (InstructionSet.execute0xxx op s).memory = s.memory := by
  unfold InstructionSet.execute0xxx
  split_ifs <;> rfl

theorem execute8xxx_memory (op : Opcode) (s : Chip8) :
    (InstructionSet.execute8xxx op s).memory = s.memory := rfl

theorem executeExxx_memory (op : Opcode) (s : Chip8) :
    (InstructionSet.executeExxx op s).memory = s.memory := by
  simp only [InstructionSet.executeExxx]
  split_ifs <;> rfl

theorem executeFxxx_memory (op : Opcode) (s : Chip8)
    (h33 : op.nn.val ≠ 0x33) (h55 : op.nn.val ≠ 0x55) :
    (InstructionSet.executeFxxx op s).memory = s.memory := by
  unfold InstructionSet.executeFxxx
  simp only [h33, h55, if_false]
  repeat' split
  all_goals first
    | rfl
    | exact (loadLoop_frame _ s).1

/-- The cases of `execute` that are not sub-dispatched leave memory as it is. -/
theorem execute_direct_memory (op : Opcode) (s : Chip8)
    (h0 : op.full.val &&& 0xF000 ≠ 0x0000) (h8 : op.full.val &&& 0xF000 ≠ 0x8000)
    (hE : op.full.val &&& 0xF000 ≠ 0xE000) (hF : op.full.val &&& 0xF000 ≠ 0xF000) :
    (InstructionSet.execute op s).memory = s.memory := by
  simp only [InstructionSet.execute, h0, h8, hE, hF, if_false, apply_ite Chip8.memory,
    ite_self]

/-- Every instruction other than Fx33 and Fx55 leaves memory as it is. -/
theorem execute_memory (w : U16) (s : Chip8)
    (h : (Opcode.decode w).category = 0xF →
      (Opcode.decode w).nn ≠ 0x33 ∧ (Opcode.decode w).nn ≠ 0x55) :
    (InstructionSet.execute (Opcode.decode w) s).memory = s.memory := by
  have hsw := decode_switch w
  by_cases c0 : (Opcode.decode w).category = 0x0
  · rw [execute_cat0 w s c0, execute0xxx_memory]
  by_cases c8 : (Opcode.decode w).category = 0x8
  · rw [execute_cat8 w s c8, execute8xxx_memory]
  by_cases cE : (Opcode.decode w).category = 0xE
  · rw [execute_catE w s cE, executeExxx_memory]
  by_cases cF : (Opcode.decode w).category = 0xF
  · obtain ⟨n1, n2⟩ := h cF
    rw [execute_catF w s cF,
      executeFxxx_memory _ _ (fun e => n1 (Fin.ext e)) (fun e => n2 (Fin.ext e))]
  have v0 : (Opcode.decode w).category.val ≠ 0x0 := fun e => c0 (Fin.ext e)
  have v8 : (Opcode.decode w).category.val ≠ 0x8 := fun e => c8 (Fin.ext e)
  have vE : (Opcode.decode w).category.val ≠ 0xE := fun e => cE (Fin.ext e)
  have vF : (Opcode.decode w).category.val ≠ 0xF := fun e => cF (Fin.ext e)
  apply execute_direct_memory <;> rw [hsw] <;> omega

/-- A cycle leaves in memory what executing the fetched word leaves there. -/
theorem cycle_memory (s : Chip8) :
    (CPU.cycle s).memory
      = (InstructionSet.execute
          (Opcode.decode (toU16 ((s.memory.data (s.registers.PC.val % 4096)).val * 256
            + (s.memory.data ((s.registers.PC.val + 1) % 4096)).val))) s).memory := by
  rw [(cycle_aux s _ rfl _ rfl _ rfl).2.1]

set_option maxRecDepth 100000 in
/-- Claim C24, counterexample. On a fresh machine, whose bytes 0..79 hold the
glyph table and whose I is 0, executing F033 (and a cycle that fetches it)
overwrites font byte 0 with a decimal digit of `V[0]`, and so does F055 with
`V[0]` itself. -/
theorem font_region_counterexample :
    (∀ i : Fin 80, (machineWith 0xF033).memory.data i.val = FONTSET.getD i.val 0) ∧
    (machineWith 0xF033).memory.data 0 = 0xF0 ∧
    (InstructionSet.execute (Opcode.decode 0xF033) (machineWith 0xF033)).memory.data 0 = 0 ∧
    (CPU.cycle (machineWith 0xF033)).memory.data 0 = 0 ∧
    (∀ i : Fin 80, (machineWith 0xF055).memory.data i.val = FONTSET.getD i.val 0) ∧
    (InstructionSet.execute (Opcode.decode 0xF055) (machineWith 0xF055)).memory.data 0 = 0 := by
  decide

/-- What `execute` does to the font region. -/
theorem execute_font_region (w : U16) (s : Chip8)
    (h33 : (Opcode.decode w).category = 0xF → (Opcode.decode w).nn = 0x33 →
      ∀ i : Nat, i ≤ 2 → 80 ≤ (s.registers.I.val + i) % 4096)
    (h55 : (Opcode.decode w).category = 0xF → (Opcode.decode w).nn = 0x55 →
      ∀ i : Nat, i ≤ (Opcode.decode w).x.val → 80 ≤ (s.registers.I.val + i) % 4096)
    (j : Nat) (hj : j < 80) :
    (InstructionSet.execute (Opcode.decode w) s).memory.data j = s.memory.data j := by
  by_cases hF : (Opcode.decode w).category = 0xF
  · by_cases n33 : (Opcode.decode w).nn = 0x33
    · have hI := h33 hF n33
      have a0 := hI 0 (by omega)
      have a1 := hI 1 (by omega)
      have a2 := hI 2 (by omega)
      have j0 : j ≠ s.registers.I.val % 4096 := by
        rw [Nat.add_zero] at a0
        omega
      have j1 : j ≠ (s.registers.I.val + 1) % 4096 := by omega
      have j2 : j ≠ (s.registers.I.val + 2) % 4096 := by omega
      rw [execute_Fx33 w s hF n33]
      simp only [Function.update_noteq j2, Function.update_noteq j1, Function.update_noteq j0]
    · by_cases n55 : (Opcode.decode w).nn = 0x55
      · have hI := h55 hF n55
        rw [execute_Fx55 w s hF n55]
        apply (storeLoop_data s ((Opcode.decode w).x.val + 1) (decode_x_succ_le w)).2
        intro i hi
        have := hI i (Nat.le_of_lt_succ hi)
        omega
      · rw [execute_memory w s (fun _ => ⟨n33, n55⟩)]
  · rw [execute_memory w s (fun h => absurd h hF)]

/-- Claim C24, amended. An instruction word leaves memory bytes 0..79
unchanged when executed, and so does the cycle that fetches it, unless it is
an Fx33 with one of the addresses `(I+i) mod 4096`, `i = 0..2`, below 80 or an
Fx55 with one of the addresses `(I+i) mod 4096`, `i = 0..x`, below 80. -/
theorem font_region_preserved (s : Chip8) :
    (∀ w : U16,
      ((Opcode.decode w).category = 0xF → (Opcode.decode w).nn = 0x33 →
        ∀ i : Nat, i ≤ 2 → 80 ≤ (s.registers.I.val + i) % 4096) →
      ((Opcode.decode w).category = 0xF → (Opcode.decode w).nn = 0x55 →
        ∀ i : Nat, i ≤ (Opcode.decode w).x.val → 80 ≤ (s.registers.I.val + i) % 4096) →
      ∀ j : Nat, j < 80 →
        (InstructionSet.execute (Opcode.decode w) s).memory.data j = s.memory.data j) ∧
    (∀ w : U16,
      w = toU16 ((s.memory.data (s.registers.PC.val % 4096)).val * 256
        + (s.memory.data ((s.registers.PC.val + 1) % 4096)).val) →
      ((Opcode.decode w).category = 0xF → (Opcode.decode w).nn = 0x33 →
        ∀ i : Nat, i ≤ 2 → 80 ≤ (s.registers.I.val + i) % 4096) →
      ((Opcode.decode w).category = 0xF → (Opcode.decode w).nn = 0x55 →
        ∀ i : Nat, i ≤ (Opcode.decode w).x.val → 80 ≤ (s.registers.I.val + i) % 4096) →
      ∀ j : Nat, j < 80 → (CPU.cycle s).memory.data j = s.memory.data j) := by
  constructor
  · intro w h33 h55 j hj
    exact execute_font_region w s h33 h55 j hj
  · intro w hw h33 h55 j hj
    rw [cycle_memory, ← hw]
    exact execute_font_region w s h33 h55 j hj

theorem font_region_preserved_witness :
    (((Opcode.decode 0xF033).category = 0xF → (Opcode.decode 0xF033).nn = 0x33 →
        ∀ i : Nat, i ≤ 2 →
          80 ≤ (({ machineWith 0xF033 with
            registers := Registers.new.setI 0x300 } : Chip8).registers.I.val + i) % 4096) ∧
      ((Opcode.decode 0xF033).category = 0xF → (Opcode.decode 0xF033).nn = 0x55 →
        ∀ i : Nat, i ≤ (Opcode.decode 0xF033).x.val →
          80 ≤ (({ machineWith 0xF033 with
            registers := Registers.new.setI 0x300 } : Chip8).registers.I.val + i) % 4096)) ∧
    (InstructionSet.execute (Opcode.decode 0xF033)
        { machineWith 0xF033 with registers := Registers.new.setI 0x300 }).memory.data 0
      = ({ machineWith 0xF033 with
          registers := Registers.new.setI 0x300 } : Chip8).memory.data 0 :=
  ⟨⟨fun _ _ i hi => by
        show 80 ≤ (0x300 + i) % 4096
        omega,
      fun _ h => absurd h (by decide)⟩,
    (font_region_preserved { machineWith 0xF033 with registers := Registers.new.setI 0x300 }).1
      0xF033
      (fun _ _ i hi => by
        show 80 ≤ (0x300 + i) % 4096
        omega)
      (fun _ h => absurd h (by decide)) 0 (by decide)⟩

/-! ## Registers -/

/-- Claim C26. From every prior register state `reset` yields the same fixed
state: all 16 V registers 0, all 16 stack slots 0, `I = 0`, `PC = 0x200`,
`SP = 0`, both timers 0; so two resets agree on all of it, and `reset` is
idempotent. -/
theorem reset_fixed_state (r r2 : Registers) :
    (∀ i : Fin 16, r.reset.V i.val = 0) ∧ (∀ i : Fin 16, r.reset.stack i.val = 0) ∧
    r.reset.I = 0 ∧ r.reset.PC = 0x200 ∧ r.reset.SP = 0 ∧
    r.reset.delayTimer = 0 ∧ r.reset.soundTimer = 0 ∧
    (∀ i : Fin 16, r.reset.V i.val = r2.reset.V i.val) ∧
    (∀ i : Fin 16, r.reset.stack i.val = r2.reset.stack i.val) ∧
    r.reset.I = r2.reset.I ∧ r.reset.PC = r2.reset.PC ∧ r.reset.SP = r2.reset.SP ∧
    r.reset.delayTimer = r2.reset.delayTimer ∧ r.reset.soundTimer = r2.reset.soundTimer ∧
    r.reset.reset = r.reset := by
  have hV : ∀ (q : Registers) (i : Fin 16), q.reset.V i.val = 0 := fun q i => if_pos i.isLt
  have hS : ∀ (q : Registers) (i : Fin 16), q.reset.stack i.val = 0 := fun q i => if_pos i.isLt
  refine ⟨hV r, hS r, rfl, rfl, rfl, rfl, rfl, ?_, ?_, rfl, rfl, rfl, rfl, rfl, ?_⟩
  · intro i
    rw [hV r i, hV r2 i]
  · intro i
    rw [hS r i, hS r2 i]
  · have e1 : r.reset.reset.V = r.reset.V := by
      funext i
      show (if i < 16 then (0 : U8) else if i < 16 then 0 else r.V i)
        = if i < 16 then 0 else r.V i
      split <;> rfl
    have e2 : r.reset.reset.stack = r.reset.stack := by
      funext i
      show (if i < 16 then (0 : U16) else if i < 16 then 0 else r.stack i)
        = if i < 16 then 0 else r.stack i
      split <;> rfl
    show Registers.mk r.reset.reset.V 0 0x200 0 r.reset.reset.stack 0 0
      = Registers.mk r.reset.V 0 0x200 0 r.reset.stack 0 0
    rw [e1, e2]

/-- Claim C27. Register indices are masked to 4 bits: after `setV(i, v)`,
`getV(j)` is `v` when `j mod 16 = i mod 16` and is unchanged otherwise; so
index 0x10 aliases V0 and 0x1F aliases VF. -/
theorem register_index_masking (r : Registers) (i j : U8) (v : U8) :
    (r.setV i v).getV j = (if j.val % 16 = i.val % 16 then v else r.getV j) ∧
    (r.setV 0x10 v).getV 0x0 = v ∧ (r.setV 0x1F v).getV 0xF = v := by
  have key : ∀ a b : U8,
      (r.setV a v).getV b = (if b.val % 16 = a.val % 16 then v else r.getV b) := by
    intro a b
    simp only [Registers.getV, Registers.setV, and_000F]
    split
    · next h => rw [h, Function.update_same]
    · next h => rw [Function.update_noteq h]
  refine ⟨key i j, ?_, ?_⟩
  · rw [key]
    rfl
  · rw [key]
    rfl

/-- The registers after a sequence of pushes: only the stack and its pointer
change. -/
theorem pushAll_eq (r : Registers) (l : List U16) :
    r.pushAll l
      = { r with stack := (r.pushAll l).stack, SP := toU8 (r.SP.val + l.length) } := by
  induction l generalizing r with
  | nil =>
    have e : toU8 (r.SP.val + ([] : List U16).length) = r.SP := by
      apply Fin.ext
      have := r.SP.isLt
      simp only [toU8_val, List.length_nil]
      omega
    rw [e]
    rfl
  | cons a l ih =>
    have h := ih (r.pushStack a)
    have e : toU8 ((r.pushStack a).SP.val + l.length)
        = toU8 (r.SP.val + (a :: l).length) := by
      apply Fin.ext
      simp only [Registers.pushStack, toU8_val, List.length_cons]
      omega
    rw [e] at h
    exact h

/-- Pushes that stay below index 256 leave the slots under the pointer alone. -/
theorem pushAll_stack_below (r : Registers) (l : List U16)
    (h : r.SP.val + l.length < 256) (i : Nat) (hi : i < r.SP.val) :
    (r.pushAll l).stack i = r.stack i := by
  induction l generalizing r with
  | nil => rfl
  | cons a l ih =>
    have hlen : r.SP.val + (l.length + 1) < 256 := h
    have hsp : (r.pushStack a).SP.val = r.SP.val + 1 := by
      simp only [Registers.pushStack, toU8_val]
      omega
    have h1 := ih (r.pushStack a) (by rw [hsp]; omega) (by rw [hsp]; omega)
    have hne : i ≠ r.SP.val := by omega
    show ((r.pushStack a).pushAll l).stack i = r.stack i
    rw [h1]
    exact Function.update_noteq hne _ _

theorem popN_add (r : Registers) (a b : Nat) :
    r.popN (a + b) = ((r.popN a).1.popN b |>.1, (r.popN a).2 ++ ((r.popN a).1.popN b).2) := by
  induction a generalizing r with
  | zero =>
    rw [Nat.zero_add]
    rfl
  | succ a ih =>
    have e : a + 1 + b = (a + b) + 1 := by omega
    rw [e]
    show ((r.popStack.1.popN (a + b)).1, r.popStack.2 :: (r.popStack.1.popN (a + b)).2) = _
    rw [ih]
    rfl

/-- Pushing a list and popping as many values gives the list back reversed
and the registers with the old stack pointer. -/
theorem popN_pushAll (r : Registers) (l : List U16) (h : r.SP.val + l.length ≤ 16) :
    (r.pushAll l).popN l.length = ({ r with stack := (r.pushAll l).stack }, l.reverse) := by
  induction l generalizing r with
  | nil => rfl
  | cons a l ih =>
    have hlen : r.SP.val + (l.length + 1) ≤ 16 := h
    have hsp : (r.pushStack a).SP.val = r.SP.val + 1 := by
      simp only [Registers.pushStack, toU8_val]
      omega
    have h1 := ih (r.pushStack a) (by rw [hsp]; omega)
    have hslot : ((r.pushStack a).pushAll l).stack r.SP.val = a := by
      rw [pushAll_stack_below (r.pushStack a) l (by rw [hsp]; omega) r.SP.val
        (by rw [hsp]; omega)]
      exact Function.update_same _ _ _
    have hpop : intToU8 (((r.pushStack a).SP.val : Int) - 1) = r.SP := by
      apply Fin.ext
      rw [intToU8_val, hsp]
      omega
    show ((r.pushStack a).pushAll l).popN (l.length + 1) = _
    rw [popN_add, h1]
    simp only [Registers.popN, Registers.popStack, hpop, hslot, List.reverse_cons]
    rfl

/-- Claim C28. The call stack is LIFO: from a register state with stack
pointer `s`, pushing `k` addresses with `s + k <= 16` in order and then
popping `k` times returns them in reverse order and leaves the stack pointer
at `s` and the slots below `s` unchanged. -/
theorem stack_lifo (r : Registers) (addrs : List U16)
    (h : r.SP.val + addrs.length ≤ 16) :
    ((r.pushAll addrs).popN addrs.length).2 = addrs.reverse ∧
    ((r.pushAll addrs).popN addrs.length).1.SP = r.SP ∧
    (∀ i : Nat, i < r.SP.val →
      ((r.pushAll addrs).popN addrs.length).1.stack i = r.stack i) := by
  rw [popN_pushAll r addrs h]
  refine ⟨rfl, rfl, ?_⟩
  intro i hi
  exact pushAll_stack_below r addrs (by omega) i hi

theorem stack_lifo_witness :
    (Registers.new.SP.val + ([0x1234, 0xABCD, 0x0042] : List U16).length ≤ 16) ∧
    ((Registers.new.pushAll [0x1234, 0xABCD, 0x0042]).popN
      ([0x1234, 0xABCD, 0x0042] : List U16).length).2 = [0x0042, 0xABCD, 0x1234] :=
  ⟨by decide, (stack_lifo Registers.new [0x1234, 0xABCD, 0x0042] (by decide)).1⟩

/-! ## Timers -/

/-- The timers after `k` calls of `decrementDelayTimer`. -/
theorem decrementDelayTimer_iterate (r : Registers) (k : Nat) :
    ((Registers.decrementDelayTimer^[k] r).delayTimer.val : Int)
      = max ((r.delayTimer.val : Int) - (k : Int)) 0 ∧
    (Registers.decrementDelayTimer^[k] r).soundTimer = r.soundTimer := by
  induction k with
  | zero =>
    refine ⟨?_, rfl⟩
    simp
  | succ k ih =>
    rw [Function.iterate_succ_apply']
    refine ⟨?_, ((decrementDelayTimer_frame _).2.2.2.2.2).trans ih.2⟩
    rw [decrementDelayTimer_val]
    have h1 := ih.1
    rw [max_def] at h1 ⊢
    split at h1 <;> split <;> push_cast <;> omega

/-- The timers after `k` calls of `decrementSoundTimer`. -/
theorem decrementSoundTimer_iterate (r : Registers) (k : Nat) :
    ((Registers.decrementSoundTimer^[k] r).soundTimer.val : Int)
      = max ((r.soundTimer.val : Int) - (k : Int)) 0 ∧
    (Registers.decrementSoundTimer^[k] r).delayTimer = r.delayTimer := by
  induction k with
  | zero =>
    refine ⟨?_, rfl⟩
    simp
  | succ k ih =>
    rw [Function.iterate_succ_apply']
    refine ⟨?_, ((decrementSoundTimer_frame _).2.2.2.2.2).trans ih.2⟩
    rw [decrementSoundTimer_val]
    have h1 := ih.1
    rw [max_def] at h1 ⊢
    split at h1 <;> split <;> push_cast <;> omega

/-- Claim C29. Timers saturate at zero: `k` calls of `decrementDelayTimer`
leave the delay timer at `max(t - k, 0)` and the sound timer unchanged, and
symmetrically for `decrementSoundTimer`; decrementing a timer that is 0
changes nothing. -/
theorem timers_saturate (r : Registers) (k : Nat) :
    ((Registers.decrementDelayTimer^[k] r).delayTimer.val : Int)
      = max ((r.delayTimer.val : Int) - (k : Int)) 0 ∧
    (Registers.decrementDelayTimer^[k] r).soundTimer = r.soundTimer ∧
    ((Registers.decrementSoundTimer^[k] r).soundTimer.val : Int)
      = max ((r.soundTimer.val : Int) - (k : Int)) 0 ∧
    (Registers.decrementSoundTimer^[k] r).delayTimer = r.delayTimer ∧
    ({ r with delayTimer := 0 } : Registers).decrementDelayTimer = { r with delayTimer := 0 } ∧
    ({ r with soundTimer := 0 } : Registers).decrementSoundTimer
      = { r with soundTimer := 0 } :=
  ⟨(decrementDelayTimer_iterate r k).1, (decrementDelayTimer_iterate r k).2,
    (decrementSoundTimer_iterate r k).1, (decrementSoundTimer_iterate r k).2, rfl, rfl⟩

/-! ## Keys -/

/-- Claim C30. Out-of-range key indices are ignored on write and read as not
pressed: `setKey(k, p)` with `k >= 16` leaves the key table unchanged; with
`k < 16` it makes `isKeyPressed(k) = p` and leaves `isKeyPressed(j)` unchanged
for every `j != k`; and `isKeyPressed(j)` is false for every `j >= 16`. -/
theorem key_index_range (inp : Input) (k j : U8) (p : Bool) :
    (16 ≤ k.val → inp.setKey k p = inp) ∧
    (k.val < 16 →
      (inp.setKey k p).isKeyPressed k = p ∧
      (j ≠ k → (inp.setKey k p).isKeyPressed j = inp.isKeyPressed j)) ∧
    (16 ≤ j.val → inp.isKeyPressed j = false) := by
  refine ⟨?_, ?_, ?_⟩
  · intro hk
    have hn : ¬ k.val < KEY_COUNT := by
      show ¬ k.val < 16
      omega
    simp only [Input.setKey, if_neg hn]
  · intro hk
    have hk' : k.val < KEY_COUNT := hk
    constructor
    · simp only [Input.setKey, if_pos hk', Input.isKeyPressed, Function.update_same]
      cases p <;> simp [hk']
    · intro hjk
      have hne : j.val ≠ k.val := fun e => hjk (Fin.ext e)
      simp only [Input.setKey, if_pos hk', Input.isKeyPressed, Function.update_noteq hne]
  · intro hj
    have hn : ¬ j.val < KEY_COUNT := by
      show ¬ j.val < 16
      omega
    simp [Input.isKeyPressed, hn]

theorem key_index_range_witness :
    ((16 : Nat) ≤ (100 : U8).val ∧ Input.new.setKey 100 true = Input.new ∧
      Input.new.isKeyPressed 100 = false) ∧
    ((5 : U8).val < 16 ∧ (Input.new.setKey 5 true).isKeyPressed 5 = true) :=
  ⟨⟨by decide, (key_index_range Input.new 100 100 true).1 (by decide),
      (key_index_range Input.new 100 100 true).2.2 (by decide)⟩,
    ⟨by decide, ((key_index_range Input.new 5 5 true).2.1 (by decide)).1⟩⟩

/-! ## Scanning the keys -/

/-- Claim C31. The call `getAnyKeyPressed` returns -1 if and only if no key
in 0..15 is pressed, and otherwise returns the smallest index `i` in 0..15
for which `isKeyPressed(i)` is true. -/
theorem getAnyKeyPressed_spec (inp : Input) :
    (inp.getAnyKeyPressed = -1 ↔ ∀ i : Fin 16, inp.isKeyPressed (toU8 i.val) = false) ∧
    ((∃ i : Fin 16, inp.isKeyPressed (toU8 i.val) = true) →
      ∃ k : Fin 16, inp.getAnyKeyPressed = (k.val : Int) ∧
        inp.isKeyPressed (toU8 k.val) = true ∧
        ∀ j : Fin 16, j.val < k.val → inp.isKeyPressed (toU8 j.val) = false) := by
  have hval : ∀ i : Fin 16, (toU8 i.val).val = i.val := by
    intro i
    have := i.isLt
    simp only [toU8_val]
    omega
  have hall : (∀ i : Fin 16, inp.isKeyPressed (toU8 i.val) = false) →
      ∀ key : U8, inp.isKeyPressed key = false := by
    intro h key
    by_cases hk : key.val < 16
    · have e : toU8 (⟨key.val, hk⟩ : Fin 16).val = key := by
        apply Fin.ext
        have := key.isLt
        simp only [toU8_val]
        omega
      have := h ⟨key.val, hk⟩
      rw [e] at this
      exact this
    · have hn : ¬ key.val < KEY_COUNT := hk
      simp [Input.isKeyPressed, hn]
  constructor
  · constructor
    · intro hm i
      cases hp : inp.isKeyPressed (toU8 i.val) with
      | false => rfl
      | true =>
        have := getAnyKeyPressed_nonneg inp _ hp
        omega
    · intro h
      exact getAnyKeyPressed_none inp (hall h)
  · rintro ⟨i0, hi0⟩
    have hex : ∃ n : Nat, ∃ h : n < 16, inp.isKeyPressed (toU8 n) = true :=
      ⟨i0.val, i0.isLt, hi0⟩
    classical
    let m := Nat.find hex
    obtain ⟨hm16, hmp⟩ := Nat.find_spec hex
    have hmin : ∀ j : Fin 16, j.val < m → inp.isKeyPressed (toU8 j.val) = false := by
      intro j hj
      cases hp : inp.isKeyPressed (toU8 j.val) with
      | false => rfl
      | true => exact absurd ⟨j.isLt, hp⟩ (Nat.find_min hex hj)
    have hmv : (toU8 m).val = m := hval ⟨m, hm16⟩
    refine ⟨⟨m, hm16⟩, ?_, hmp, hmin⟩
    have hlow : ∀ j : U8, j.val < (toU8 m).val → inp.isKeyPressed j = false := by
      intro j hj
      rw [hmv] at hj
      have hj16 : j.val < 16 := by omega
      have e : toU8 (⟨j.val, hj16⟩ : Fin 16).val = j := by
        apply Fin.ext
        simp only [toU8_val]
        omega
      have := hmin ⟨j.val, hj16⟩ hj
      rw [e] at this
      exact this
    have hget := getAnyKeyPressed_lowest inp (toU8 m) hmp hlow
    rw [hget, hmv]

theorem getAnyKeyPressed_spec_witness :
    (∃ i : Fin 16, ((Input.new.setKey 9 true).setKey 7 true).isKeyPressed (toU8 i.val) = true) ∧
    ∃ k : Fin 16, ((Input.new.setKey 9 true).setKey 7 true).getAnyKeyPressed = (k.val : Int) ∧
      ((Input.new.setKey 9 true).setKey 7 true).isKeyPressed (toU8 k.val) = true ∧
      ∀ j : Fin 16, j.val < k.val →
        ((Input.new.setKey 9 true).setKey 7 true).isKeyPressed (toU8 j.val) = false :=
  ⟨⟨7, by decide⟩,
    (getAnyKeyPressed_spec ((Input.new.setKey 9 true).setKey 7 true)).2 ⟨7, by decide⟩⟩

/-! ## Which instructions touch the display -/

theorem execute0xxx_display (op : Opcode) (s : Chip8) :
    (InstructionSet.execute0xxx op s).display
      = if op.nn.val = 0xE0 then s.display.clear else s.display := by
  unfold InstructionSet.execute0xxx
  split_ifs <;> rfl

theorem execute8xxx_display (op : Opcode) (s : Chip8) :
    (InstructionSet.execute8xxx op s).display = s.display := rfl

theorem executeExxx_display (op : Opcode) (s : Chip8) :
    (InstructionSet.executeExxx op s).display = s.display := by
  simp only [InstructionSet.executeExxx]
  split_ifs <;> rfl

theorem executeFxxx_display (op : Opcode) (s : Chip8) :
    (InstructionSet.executeFxxx op s).display = s.display := by
  simp only [InstructionSet.executeFxxx]
  repeat' split
  all_goals first
    | rfl
    | exact (storeLoop_frame _ s).2.1
    | exact (loadLoop_frame _ s).2.1

/-- The cases of `execute` that are neither sub-dispatched nor `DXYN` leave the
display component as it is; for a 2nnn call with `SP >= 16`, whose write is
outside the array `stack`, this is a property of the embedding only. -/
theorem execute_direct_display (op : Opcode) (s : Chip8)
    (h0 : op.full.val &&& 0xF000 ≠ 0x0000) (h8 : op.full.val &&& 0xF000 ≠ 0x8000)
    (hD : op.full.val &&& 0xF000 ≠ 0xD000)
    (hE : op.full.val &&& 0xF000 ≠ 0xE000) (hF : op.full.val &&& 0xF000 ≠ 0xF000) :
    (InstructionSet.execute op s).display = s.display := by
  simp only [InstructionSet.execute, h0, h8, hD, hE, hF, if_false, apply_ite Chip8.display,
    ite_self]

/-- The display component after `execute`: cleared by a category-0 word with
low byte 0xE0, drawn on by Dxyn, untouched by every other word (for a 2nnn
call with `SP >= 16` see `execute_direct_display`). -/
theorem execute_display (w : U16) (s : Chip8) :
    ((Opcode.decode w).category = 0x0 → (Opcode.decode w).nn = 0xE0 →
      (InstructionSet.execute (Opcode.decode w) s).display = s.display.clear) ∧
    ((Opcode.decode w).category = 0xD →
      (InstructionSet.execute (Opcode.decode w) s).display
        = (s.display.drawSprite (s.registers.V (Opcode.decode w).x.val)
            (s.registers.V (Opcode.decode w).y.val)
            (InstructionSet.fillSprite s.memory s.registers.I (Opcode.decode w).n)
            (Opcode.decode w).n).1) ∧
    (¬ ((Opcode.decode w).category = 0x0 ∧ (Opcode.decode w).nn = 0xE0) →
      (Opcode.decode w).category ≠ 0xD →
      (InstructionSet.execute (Opcode.decode w) s).display = s.display) := by
  have hsw := decode_switch w
  refine ⟨?_, ?_, ?_⟩
  · intro c0 hn
    have hnv : (Opcode.decode w).nn.val = 0xE0 := by rw [hn]; rfl
    rw [execute_cat0 w s c0, execute0xxx_display, if_pos hnv]
  · intro cD
    rw [execute_Dxyn w s cD]
  · intro hnot cD
    by_cases c0 : (Opcode.decode w).category = 0x0
    · have hnv : (Opcode.decode w).nn.val ≠ 0xE0 := fun e => hnot ⟨c0, Fin.ext e⟩
      rw [execute_cat0 w s c0, execute0xxx_display, if_neg hnv]
    by_cases c8 : (Opcode.decode w).category = 0x8
    · rw [execute_cat8 w s c8, execute8xxx_display]
    by_cases cE : (Opcode.decode w).category = 0xE
    · rw [execute_catE w s cE, executeExxx_display]
    by_cases cF : (Opcode.decode w).category = 0xF
    · rw [execute_catF w s cF, executeFxxx_display]
    have v0 : (Opcode.decode w).category.val ≠ 0x0 := fun e => c0 (Fin.ext e)
    have v8 : (Opcode.decode w).category.val ≠ 0x8 := fun e => c8 (Fin.ext e)
    have vD : (Opcode.decode w).category.val ≠ 0xD := fun e => cD (Fin.ext e)
    have vE : (Opcode.decode w).category.val ≠ 0xE := fun e => cE (Fin.ext e)
    have vF : (Opcode.decode w).category.val ≠ 0xF := fun e => cF (Fin.ext e)
    apply execute_direct_display <;> rw [hsw] <;> omega

theorem drawSprite_needsRedraw (d : Display) (x y : U8) (sprite : Nat → U8) (h : U8) :
    (d.drawSprite x y sprite h).1.needsRedraw = true := rfl

/-- The dirty flag after `execute`: a word that is neither a category-0 word
with low byte 0xE0 nor Dxyn leaves the flag as it was. -/
theorem execute_flag (w : U16) (s : Chip8)
    (hnot : ¬ ((Opcode.decode w).category = 0x0 ∧ (Opcode.decode w).nn = 0xE0))
    (cD : (Opcode.decode w).category ≠ 0xD) :
    (InstructionSet.execute (Opcode.decode w) s).display.getNeedsRedraw
      = s.display.getNeedsRedraw := by
  rw [(execute_display w s).2.2 hnot cD]

/-- A word of the instruction table other than 00E0 is not a category-0 word
with low byte 0xE0. -/
theorem table_word_not_clear (w : U16) (hm : matchesInstructionTable w = true)
    (hne : w ≠ 0x00E0) :
    ¬ ((Opcode.decode w).category = 0x0 ∧ (Opcode.decode w).nn = 0xE0) := by
  rintro ⟨c0, hn⟩
  have hw := w.isLt
  have hcv : w.val / 4096 = 0 := by
    rw [← decode_category, c0]
    rfl
  have hnv : w.val % 256 = 0xE0 := by
    rw [← decode_nn, hn]
    rfl
  simp only [matchesInstructionTable, decide_eq_true_eq] at hm
  have hwv : w.val ≠ 0x00E0 := fun e => hne (Fin.ext e)
  omega

/-- Claim C32. The dirty flag is set by every `clear` and every `drawSprite`
(whatever the height and the sprite) and is cleared only by
`resetRedrawFlag`, which leaves every pixel unchanged; 00E0 and Dxyn always
leave `getNeedsRedraw()` true; every other word of the instruction table, and
every word that is neither Dxyn nor a category-0 word with low byte 0xE0,
leaves the flag with the value it had, so no instruction clears the flag.
Such a word also leaves every pixel as it was when its stack access, if it is
a call, is within the 16-entry stack (`SP < 16`). -/
theorem dirty_flag (d : Display) (x y : U8) (sprite : Nat → U8) (h : U8)
    (w : U16) (s : Chip8) :
    d.clear.getNeedsRedraw = true ∧
    (d.drawSprite x y sprite h).1.getNeedsRedraw = true ∧
    (d.drawSprite x y sprite 0).1.getNeedsRedraw = true ∧
    (d.drawSprite x y (fun _ => 0) h).1.getNeedsRedraw = true ∧
    d.resetRedrawFlag.getNeedsRedraw = false ∧ d.resetRedrawFlag.pixels = d.pixels ∧
    (InstructionSet.execute (Opcode.decode 0x00E0) s).display.getNeedsRedraw = true ∧
    ((Opcode.decode w).category = 0xD →
      (InstructionSet.execute (Opcode.decode w) s).display.getNeedsRedraw = true) ∧
    (matchesInstructionTable w = true → w ≠ 0x00E0 → (Opcode.decode w).category ≠ 0xD →
      (InstructionSet.execute (Opcode.decode w) s).display.getNeedsRedraw
        = s.display.getNeedsRedraw) ∧
    (¬ ((Opcode.decode w).category = 0x0 ∧ (Opcode.decode w).nn = 0xE0) →
      (Opcode.decode w).category ≠ 0xD →
      (InstructionSet.execute (Opcode.decode w) s).display.getNeedsRedraw
        = s.display.getNeedsRedraw) ∧
    (¬ ((Opcode.decode w).category = 0x0 ∧ (Opcode.decode w).nn = 0xE0) →
      (Opcode.decode w).category ≠ 0xD →
      ((Opcode.decode w).category = 0x2 → s.registers.SP.val < 16) →
      (InstructionSet.execute (Opcode.decode w) s).display = s.display) ∧
    (s.display.getNeedsRedraw = true →
      (InstructionSet.execute (Opcode.decode w) s).display.getNeedsRedraw = true) := by
  obtain ⟨hE0, hD, hother⟩ := execute_display w s
  have hflagD : (Opcode.decode w).category = 0xD →
      (InstructionSet.execute (Opcode.decode w) s).display.getNeedsRedraw = true := by
    intro cD
    rw [hD cD]
    rfl
  refine ⟨rfl, rfl, rfl, rfl, rfl, rfl, ?_, hflagD, ?_, execute_flag w s, ?_, ?_⟩
  · rw [(execute_display 0x00E0 s).1 (by decide) (by decide)]
    rfl
  · intro hm hne cD
    exact execute_flag w s (table_word_not_clear w hm hne) cD
  · intro hnot cD _
    exact hother hnot cD
  · intro hflag
    by_cases cD : (Opcode.decode w).category = 0xD
    · exact hflagD cD
    · by_cases c0 : (Opcode.decode w).category = 0x0 ∧ (Opcode.decode w).nn = 0xE0
      · rw [hE0 c0.1 c0.2]
        rfl
      · rw [execute_flag w s c0 cD]
        exact hflag

theorem dirty_flag_witness :
    ((Opcode.decode 0xD011).category = 0xD ∧
      (InstructionSet.execute (Opcode.decode 0xD011)
        { machineWith 0xD011 with
          display := Display.new.resetRedrawFlag }).display.getNeedsRedraw = true) ∧
    ((matchesInstructionTable 0x6A05 = true ∧ (0x6A05 : U16) ≠ 0x00E0 ∧
        (Opcode.decode 0x6A05).category ≠ 0xD) ∧
      (InstructionSet.execute (Opcode.decode 0x6A05)
        { machineWith 0x6A05 with
          display := Display.new.resetRedrawFlag }).display.getNeedsRedraw
        = Display.new.resetRedrawFlag.getNeedsRedraw) ∧
    ((¬ ((Opcode.decode 0x2300).category = 0x0 ∧ (Opcode.decode 0x2300).nn = 0xE0) ∧
        (Opcode.decode 0x2300).category ≠ 0xD ∧
        ((Opcode.decode 0x2300).category = 0x2 →
          (machineWith 0x2300).registers.SP.val < 16)) ∧
      (InstructionSet.execute (Opcode.decode 0x2300) (machineWith 0x2300)).display
        = (machineWith 0x2300).display) :=
  ⟨⟨by decide,
      (dirty_flag Display.new 0 0 (fun _ => 0) 0 0xD011
        { machineWith 0xD011 with display := Display.new.resetRedrawFlag }).2.2.2.2.2.2.2.1
        (by decide)⟩,
    ⟨⟨by decide, by decide, by decide⟩,
      (dirty_flag Display.new 0 0 (fun _ => 0) 0 0x6A05
        { machineWith 0x6A05 with display := Display.new.resetRedrawFlag }).2.2.2.2.2.2.2.2.1
        (by decide) (by decide) (by decide)⟩,
    ⟨⟨by decide, by decide, fun _ => by decide⟩,
      (dirty_flag Display.new 0 0 (fun _ => 0) 0 0x2300
        (machineWith 0x2300)).2.2.2.2.2.2.2.2.2.2.1
        (by decide) (by decide) (fun _ => by decide)⟩⟩

/-! ## Two cycles of a loaded program -/

/-- The state after 6xnn. -/
theorem execute_6xnn (w : U16) (s : Chip8) (hc : (Opcode.decode w).category = 0x6) :
    InstructionSet.execute (Opcode.decode w) s
      = { s with registers := { s.registers with
            V := Function.update s.registers.V (Opcode.decode w).x.val (Opcode.decode w).nn
            PC := toU16 (s.registers.PC.val + 2) } } := by
  have hs : _ = 0x6000 := switch_of_category w 0x6 hc
  simp [InstructionSet.execute, hs, setV_decode_x, Registers.incrementPC]

/-- The state after 7xnn. -/
theorem execute_7xnn (w : U16) (s : Chip8) (hc : (Opcode.decode w).category = 0x7) :
    InstructionSet.execute (Opcode.decode w) s
      = { s with registers := { s.registers with
            V := Function.update s.registers.V (Opcode.decode w).x.val
              (toU8 ((s.registers.V (Opcode.decode w).x.val).val + (Opcode.decode w).nn.val))
            PC := toU16 (s.registers.PC.val + 2) } } := by
  have hs : _ = 0x7000 := switch_of_category w 0x7 hc
  simp [InstructionSet.execute, hs, getV_decode_x, setV_decode_x, Registers.incrementPC]

/-- With both timers at 0 the timer update of a cycle changes nothing. -/
theorem decrement_timers_zero (r : Registers) (hd : r.delayTimer = 0) (hs : r.soundTimer = 0) :
    r.decrementDelayTimer.decrementSoundTimer = r := by
  have e1 : r.decrementDelayTimer = r := by
    unfold Registers.decrementDelayTimer
    rw [hd]
    rfl
  rw [e1]
  unfold Registers.decrementSoundTimer
  rw [hs]
  rfl

/-- With both timers at 0 the timer update of a cycle leaves the machine as
`execute` left it. -/
theorem timer_update_zero (t : Chip8) (hd : t.registers.delayTimer = 0)
    (hs : t.registers.soundTimer = 0) :
    ({ t with registers := t.registers.decrementDelayTimer.decrementSoundTimer } : Chip8)
      = t := by
  rw [decrement_timers_zero _ hd hs]

/-- The fields of the word made of a high byte `16*c + x` and a low byte `nn`. -/
theorem decode_bytes (c x nn : Nat) (hc : c < 16) (hx : x < 16) (hnn : nn < 256) :
    (Opcode.decode (toU16 ((16 * c + x) * 256 + nn))).category.val = c ∧
    (Opcode.decode (toU16 ((16 * c + x) * 256 + nn))).x.val = x ∧
    (Opcode.decode (toU16 ((16 * c + x) * 256 + nn))).nn.val = nn := by
  rw [decode_category, decode_x, decode_nn, toU16_val]
  omega

/-- A cycle that fetches 6xnn with both timers at 0. -/
theorem cycle_6xnn (s : Chip8) (x : Fin 16) (nn : U8)
    (h0 : (s.memory.data (s.registers.PC.val % 4096)).val = 0x60 + x.val)
    (h1 : s.memory.data ((s.registers.PC.val + 1) % 4096) = nn)
    (hd : s.registers.delayTimer = 0) (hs : s.registers.soundTimer = 0) :
    CPU.cycle s
      = { s with registers := { s.registers with
            V := Function.update s.registers.V x.val nn
            PC := toU16 (s.registers.PC.val + 2) } } := by
  obtain ⟨d1, d2, d3⟩ := decode_bytes 6 x.val nn.val (by decide) x.isLt nn.isLt
  have hw : (s.memory.data (s.registers.PC.val % 4096)).val * 256
      + (s.memory.data ((s.registers.PC.val + 1) % 4096)).val
      = (16 * 6 + x.val) * 256 + nn.val := by
    rw [h0, h1]
  rw [(cycle_aux s _ rfl _ rfl _ rfl).2.1, hw, execute_6xnn _ s (Fin.ext d1), d2,
    Fin.ext d3]
  exact timer_update_zero _ hd hs

/-- A cycle that fetches 7xnn with both timers at 0. -/
theorem cycle_7xnn (s : Chip8) (x : Fin 16) (nn : U8)
    (h0 : (s.memory.data (s.registers.PC.val % 4096)).val = 0x70 + x.val)
    (h1 : s.memory.data ((s.registers.PC.val + 1) % 4096) = nn)
    (hd : s.registers.delayTimer = 0) (hs : s.registers.soundTimer = 0) :
    CPU.cycle s
      = { s with registers := { s.registers with
            V := Function.update s.registers.V x.val
              (toU8 ((s.registers.V x.val).val + nn.val))
            PC := toU16 (s.registers.PC.val + 2) } } := by
  obtain ⟨d1, d2, d3⟩ := decode_bytes 7 x.val nn.val (by decide) x.isLt nn.isLt
  have hw : (s.memory.data (s.registers.PC.val % 4096)).val * 256
      + (s.memory.data ((s.registers.PC.val + 1) % 4096)).val
      = (16 * 7 + x.val) * 256 + nn.val := by
    rw [h0, h1]
  rw [(cycle_aux s _ rfl _ rfl _ rfl).2.1, hw, execute_7xnn _ s (Fin.ext d1), d2, d3]
  exact timer_update_zero _ hd hs

theorem or_nibble (c x : Nat) (hx : x < 16) : (c <<< 4) ||| x = 16 * c + x := by
  rw [shl_or c x 4 hx]
  omega

/-- Claim C33. End to end: on a freshly initialized machine with the
four-byte program `[0x60|x, a, 0x70|x, b]` loaded, two CPU cycles leave
`V[x] = (a + b) mod 256` and `PC = 0x204`, with every other V register 0; for
`x = 0, a = 5, b = 3` this is `V0 = 8`. -/
theorem two_cycles_add (prior : Chip8) (x : Fin 16) (a b : U8) :
    let s0 := Chip8.init prior
    let load := s0.memory.loadProgram [toU8 (0x60 ||| x.val), a, toU8 (0x70 ||| x.val), b]
    let s : Chip8 := { s0 with memory := load.1 }
    load.2 = true ∧
    ((CPU.cycle (CPU.cycle s)).registers.V x.val).val = (a.val + b.val) % 256 ∧
    (CPU.cycle (CPU.cycle s)).registers.PC = 0x204 ∧
    (∀ j : Fin 16, j ≠ x → (CPU.cycle (CPU.cycle s)).registers.V j.val = 0) := by
  intro s0 load s
  have hx := x.isLt
  have e6 : (0x60 ||| x.val) = 0x60 + x.val := or_nibble 6 x.val hx
  have e7 : (0x70 ||| x.val) = 0x70 + x.val := or_nibble 7 x.val hx
  have hfit := loadProgram_fits s0.memory
    [toU8 (0x60 ||| x.val), a, toU8 (0x70 ||| x.val), b]
    (by simp only [List.length_cons, List.length_nil]; omega)
  have hload : load = _ := hfit
  have hmem : ∀ i : Nat, i < 4 → s.memory.data (0x200 + i)
      = [toU8 (0x60 ||| x.val), a, toU8 (0x70 ||| x.val), b].getD i 0 := by
    intro i hi
    show load.1.data (0x200 + i) = _
    rw [hload]
    have hin : 0x200 ≤ 0x200 + i ∧ 0x200 + i < 0x200 +
        [toU8 (0x60 ||| x.val), a, toU8 (0x70 ||| x.val), b].length := by
      simp only [List.length_cons, List.length_nil]
      omega
    show (if 0x200 ≤ 0x200 + i ∧ 0x200 + i < 0x200 +
        [toU8 (0x60 ||| x.val), a, toU8 (0x70 ||| x.val), b].length then
      [toU8 (0x60 ||| x.val), a, toU8 (0x70 ||| x.val), b].getD (0x200 + i - 0x200) 0
      else s0.memory.data (0x200 + i)) = _
    rw [if_pos hin, Nat.add_sub_cancel_left]
  have m0 : (s.memory.data 0x200).val = 0x60 + x.val := by
    rw [hmem 0 (by decide)]
    show (0x60 ||| x.val) % 256 = _
    rw [e6]
    omega
  have m1 : s.memory.data 0x201 = a := hmem 1 (by decide)
  have m2 : (s.memory.data 0x202).val = 0x70 + x.val := by
    rw [hmem 2 (by decide)]
    show (0x70 ||| x.val) % 256 = _
    rw [e7]
    omega
  have m3 : s.memory.data 0x203 = b := hmem 3 (by decide)
  have c1 := cycle_6xnn s x a m0 m1 rfl rfl
  have c2 := cycle_7xnn (CPU.cycle s) x b (by rw [c1]; exact m2) (by rw [c1]; exact m3)
    (by rw [c1]; rfl) (by rw [c1]; rfl)
  have hV0 : ∀ j : Fin 16, s.registers.V j.val = 0 := fun j => if_pos j.isLt
  refine ⟨by rw [hload], ?_, ?_, ?_⟩
  · rw [c2, c1]
    simp only [Function.update_same, toU8_val]
  · rw [c2, c1]
    rfl
  · intro j hj
    have hne : j.val ≠ x.val := fun e => hj (Fin.ext e)
    rw [c2, c1]
    simp only [Function.update_noteq hne]
    exact hV0 j

theorem two_cycles_add_witness :
    ((CPU.cycle (CPU.cycle
        { Chip8.init (Chip8.new (fun _ => 0)) with
          memory := ((Chip8.init (Chip8.new (fun _ => 0))).memory.loadProgram
            [0x60, 0x05, 0x70, 0x03]).1 })).registers.V 0).val = 8 ∧
    ((1 : Fin 16) ≠ 0 ∧
      (CPU.cycle (CPU.cycle
        { Chip8.init (Chip8.new (fun _ => 0)) with
          memory := ((Chip8.init (Chip8.new (fun _ => 0))).memory.loadProgram
            [0x60, 0x05, 0x70, 0x03]).1 })).registers.V 1 = 0) :=
  ⟨(two_cycles_add (Chip8.new (fun _ => 0)) 0 5 3).2.1,
    by decide, (two_cycles_add (Chip8.new (fun _ => 0)) 0 5 3).2.2.2 1 (by decide)⟩

/-! ## The test of `addI` -/

/-- Claim C34, evaluated on the code. Starting from `I = 0x0010`,
`addI(0x0005)` gives `I = 0x0015`; a further `addI(0xFFE0)` gives
`I = 0xFFF5`, the 16-bit sum, and not the `0xFFFF` the `AddI` test expects. -/
theorem addI_test_values :
    ((Registers.new.setI 0x0010).addI 0x0005).getI = 0x0015 ∧
    (((Registers.new.setI 0x0010).addI 0x0005).addI 0xFFE0).getI = 0xFFF5 ∧
    (((Registers.new.setI 0x0010).addI 0x0005).addI 0xFFE0).getI ≠ 0xFFFF := by
  decide

/-! ## Framebuffer cells are bits -/

/-- Claim C37. When the destination register is VF itself (`x = 0xF`) the
flag is written first and then overwritten by the result: after 8Fy4
`VF = (old VF + old V[y]) mod 256`, after 8Fy5 `VF = (old VF - old V[y]) mod
256`, after 8Fy6 `VF = old VF >> 1`, after 8Fy7 `VF = (old V[y] - old VF) mod
256`, and after 8FyE `VF = (old VF << 1) mod 256`. -/
theorem flag_as_destination (w : U16) (s : Chip8)
    (hc : (Opcode.decode w).category = 0x8) (hx : (Opcode.decode w).x = 0xF) :
    let op := Opcode.decode w
    let vf := (s.registers.V 0xF).val
    let vy := (s.registers.V op.y.val).val
    let s1 := InstructionSet.execute op s
    (op.n = 0x4 → (s1.registers.V 0xF).val = (vf + vy) % 256) ∧
    (op.n = 0x5 → ((s1.registers.V 0xF).val : Int) = ((vf : Int) - (vy : Int)) % 256) ∧
    (op.n = 0x6 → (s1.registers.V 0xF).val = vf >>> 1) ∧
    (op.n = 0x7 → ((s1.registers.V 0xF).val : Int) = ((vy : Int) - (vf : Int)) % 256) ∧
    (op.n = 0xE → (s1.registers.V 0xF).val = (vf <<< 1) % 256) := by
  intro op vf vy s1
  have hxv : (Opcode.decode w).x.val = 15 := by rw [hx]; rfl
  have hvf : vf < 256 := (s.registers.V 0xF).isLt
  have hupd : ∀ (f : Nat → U8) (v : U8),
      Function.update f (Opcode.decode w).x.val v 15 = v := by
    intro f v
    rw [Function.update_apply, if_pos hxv.symm]
  refine ⟨?_, ?_, ?_, ?_, ?_⟩
  · intro hn
    have e : s1 = _ := execute_8xy4 w s hc hn
    rw [e]
    simp only [hupd, hxv, toU8_val, vf, vy, op]
  · intro hn
    have e : s1 = _ := execute_8xy5 w s hc hn
    rw [e]
    simp only [hupd, hxv, intToU8_val, vf, vy, op]
    omega
  · intro hn
    have e : s1 = _ := execute_8xy6 w s hc hn
    rw [e]
    simp only [hupd, hxv, toU8_val, Nat.shiftRight_eq_div_pow, vf, op]
    omega
  · intro hn
    have e : s1 = _ := execute_8xy7 w s hc hn
    rw [e]
    simp only [hupd, hxv, intToU8_val, vf, vy, op]
    omega
  · intro hn
    have e : s1 = _ := execute_8xyE w s hc hn
    rw [e]
    simp only [hupd, hxv, toU8_val, Nat.shiftLeft_eq, vf, op]

theorem flag_as_destination_witness :
    ((Opcode.decode 0x8F14).category = 0x8 ∧ (Opcode.decode 0x8F14).x = 0xF ∧
      (Opcode.decode 0x8F14).n = 0x4) ∧
    ((InstructionSet.execute (Opcode.decode 0x8F14)
        { machineWith 0x8F14 with
          registers := (Registers.new.setV 0xF 0xFF).setV 1 0x02 }).registers.V 0xF).val
      = (0xFF + 0x02) % 256 :=
  ⟨⟨by decide, by decide, by decide⟩,
    (flag_as_destination 0x8F14
      { machineWith 0x8F14 with registers := (Registers.new.setV 0xF 0xFF).setV 1 0x02 }
      (by decide) (by decide)).1 (by decide)⟩

/-! ## Indices used by Dxyn -/

/-- Claim C38. Dxyn never indexes out of range: `n <= 15`; each index `i` at
which the local 15-byte sprite buffer is filled satisfies `i < n`, hence
`i < 15`; each row index at which `drawSprite` reads the sprite is `< n`; and
each framebuffer index `pixelY*64 + pixelX` that `drawSprite` computes, for
any row and column, is `< 2048`. -/
theorem draw_indices_in_range (w : U16) (s : Chip8)
    (hc : (Opcode.decode w).category = 0xD) :
    let op := Opcode.decode w
    let x1 := toU8 ((s.registers.V op.x.val).val % 64)
    let y1 := toU8 ((s.registers.V op.y.val).val % 32)
    let sprite := InstructionSet.fillSprite s.memory s.registers.I op.n
    op.n.val ≤ 15 ∧
    InstructionSet.fillSprite s.memory s.registers.I op.n
      = (InstructionSet.fillSpriteIndices op.n).foldl
          (fun buf i => Function.update buf i
            (s.memory.read (toU16 (s.registers.I.val + i)))) (fun _ => 0) ∧
    (∀ i ∈ InstructionSet.fillSpriteIndices op.n, i < op.n.val ∧ i < 15) ∧
    (InstructionSet.execute op s).display
      = { pixels := ((Display.rowIndices op.n).foldl (Display.drawRow x1 y1 sprite)
            (s.display.pixels, false)).1
          needsRedraw := true } ∧
    (∀ row ∈ Display.rowIndices op.n, row < op.n.val) ∧
    (∀ idx ∈ Display.spriteHits x1 y1 sprite op.n.val, idx < 2048) ∧
    (∀ row col : Nat, Display.pixelIndex x1 y1 row col < 2048) := by
  intro op x1 y1 sprite
  have hn : op.n.val ≤ 15 := by
    show (Opcode.decode w).n.val ≤ 15
    rw [decode_n]
    omega
  refine ⟨hn, rfl, ?_, ?_, ?_, ?_, fun row col => pixelIndex_lt _ _ _ _⟩
  · intro i hi
    have hlt : i < op.n.val := List.mem_range.mp hi
    exact ⟨hlt, by omega⟩
  · rw [(execute_display w s).2.1 hc]
    rfl
  · intro row hrow
    exact List.mem_range.mp hrow
  · intro idx hidx
    obtain ⟨row, col, -, -, -, e⟩ := (mem_spriteHits _ _ _ _ _).mp hidx
    rw [e]
    exact pixelIndex_lt _ _ _ _

theorem draw_indices_in_range_witness :
    (Opcode.decode 0xD01F).category = 0xD ∧ (Opcode.decode 0xD01F).n.val ≤ 15 ∧
    (∀ i ∈ InstructionSet.fillSpriteIndices (Opcode.decode 0xD01F).n,
      i < (Opcode.decode 0xD01F).n.val ∧ i < 15) :=
  ⟨by decide, (draw_indices_in_range 0xD01F (machineWith 0xD01F) (by decide)).1,
    (draw_indices_in_range 0xD01F (machineWith 0xD01F) (by decide)).2.2.1⟩

end Chip8Emu
